import Mathlib

/-!
Shallow embedding of the voxel-world streaming core (column buffer, circle
index, chunk, world, frontier, timing harness) of this repository, together
with theorems settling the frozen claims about it.

Conventions of the embedding:
* JS numbers used as integers become `Int` (or `Nat` where the source value
  is provably non-negative); `Int16Array` stores truncate through `wrap16`
  (the JS ToInt16 conversion); JS `x & 15` on an `Int` is `x % 16` (emod),
  and JS arithmetic shift `x >> 4` is flooring division `Int.fdiv x 16`.
* Mutable arrays and typed-array tensors become total functions updated
  functionally.  `Tensor3`/`Tensor2` (from `base.js`, outside the provided
  sources; the spec fixes `voxels[W,H,W]` Y-major with `stride[1] = 1`) are
  modelled per column as `Fin 16 → Fin 16 → (Nat → Int)`.
* The external mesher, renderer and instanced meshes are contracts per the
  spec; a produced mesh is modelled by a `Bool` presence flag and the mesher
  by an oracle on chunk coordinates.
-/

namespace Wave

/-! ## Constants (source: world constants) -/

def kChunkBits : Nat := 4

def kChunkWidth : Nat := 16

def kWorldHeight : Nat := 256

def kChunkRadius : Int := 12

def kNumChunksToLoadPerFrame : Nat := 1

def kNumChunksToMeshPerFrame : Nat := 1

def kNumLODChunksToMeshPerFrame : Nat := 1

def kFrontierLOD : Nat := 2

def kFrontierRadius : Int := 8

def kFrontierLevels : Nat := 6

def kMultiMeshBits : Nat := 2

def kMultiMeshSide : Nat := 4

def kMultiMeshArea : Nat := 16

def kLODSingleMask : Int := 15

def kEmptyBlock : Int := 0

def kUnknownBlock : Int := 1

/-- The JS `ToInt16` conversion applied on every store into an `Int16Array`:
reduce modulo 2^16 into the signed range [-2^15, 2^15). -/
def wrap16 (x : Int) : Int := (x + 32768) % 65536 - 32768

/-- An exact JS number `num / den` with positive denominator, used for the
circle radii.  The handful of radius computations (`+ 0.5`, the frontier's
halving chain, squaring, flooring) are exact in JS doubles and exact here;
comparisons cross-multiply, so the fraction is never normalized. -/
structure JSNum where
  num : Int
  den : Int

/-- The rational value of a `JSNum`. -/
def JSNum.toQ (n : JSNum) : ℚ := (n.num : ℚ) / (n.den : ℚ)

/-- `Math.floor` of a `JSNum` (flooring division). -/
def JSNum.floor (n : JSNum) : Int := Int.fdiv n.num n.den

/-- JS `x & 15` (emod is non-negative), as an index into a width-16 axis. -/
def cmask (x : Int) : Fin 16 :=
  ⟨(x % 16).toNat, by
    have h1 : 0 ≤ x % 16 := Int.emod_nonneg x (by decide)
    have h2 : x % 16 < 16 := Int.emod_lt_of_pos x (by decide)
    omega⟩

/-- The registry as consumed by the core: the per-block `solid` table.
Blocks 0 (empty) and 1 (unknown) are preregistered with
`solid = [false, true]` by the `Registry` constructor. -/
structure Registry where
  solid : Int → Bool

/-! ## Column buffer (source: class `Column`) -/

/-- One call a loader may make on the column scratch. -/
inductive ColOp where
  | push : Int → Int → ColOp
  | overwrite : Int → Int → ColOp
deriving DecidableEq

/-- The `Column` scratch.  `data` is the run list `(block, top_y)` (the
`Int16Array` pair layout flattened to a list; blocks are stored truncated by
`wrap16`, the run tops are in (0, 256] so they store exactly), `last` the
top of the last run, `decorations` the `(block, y)` point overwrites,
`mismatches` the equi-level mismatch counter array (an `Int16Array`: every
store goes through `wrap16`), `reference` the snapshot of the first column's
sealed run list. -/
structure ColumnSt where
  data : List (Int × Nat)
  last : Nat
  decorations : List (Int × Nat)
  mismatches : Nat → Int
  reference : List (Int × Nat)

def Column.push (c : ColumnSt) (block : Int) (height : Int) : ColumnSt :=
  let h : Int := min height (kWorldHeight : Int)
  if h ≤ (c.last : Int) then c
  else { c with data := c.data ++ [(wrap16 block, h.toNat)], last := h.toNat }

def Column.overwrite (c : ColumnSt) (block : Int) (y : Int) : ColumnSt :=
  if 0 ≤ y ∧ y < (kWorldHeight : Int) then
    { c with decorations := c.decorations ++ [(block, y.toNat)] }
  else c

def Column.clear (c : ColumnSt) : ColumnSt :=
  { c with data := [], last := 0, decorations := [] }

/-- Run a loader's sequence of calls against the column scratch. -/
def Column.applyOps (c : ColumnSt) : List ColOp → ColumnSt
  | [] => c
  | ColOp.push b h :: rest => Column.applyOps (Column.push c b h) rest
  | ColOp.overwrite b y :: rest => Column.applyOps (Column.overwrite c b y) rest

/-- The lockstep walk of `detectEquiLevelChanges` over the current column's
sealed runs and the reference runs, applying the ±1 flip deltas to the
mismatch counters (each store truncated by `wrap16`).  The source advances
`di` when `d_limit ≤ r_limit` and `ri` when `r_limit ≤ d_limit` (both on a
tie), which is the three-way case split below.  The loop consumes at least
one run per iteration, so running it with `d.length + r.length` fuel (as
`detectEquiLevelChanges` does) is exact. -/
def walkLoop : Nat → List (Int × Nat) → List (Int × Nat) → Bool → Nat → Nat →
    (Nat → Int) → (Nat → Int)
  | fuel + 1, (db, dl) :: dt, (rb, rl) :: rt, matched, ds, rs, m =>
    let flip : Bool := matched != (db == rb)
    let h := max ds rs
    let m' := if flip then
        Function.update m h (wrap16 (m h + (if matched then 1 else -1)))
      else m
    let matched' := if flip then !matched else matched
    if dl ≤ rl then
      if rl ≤ dl then walkLoop fuel dt rt matched' dl rl m'
      else walkLoop fuel dt ((rb, rl) :: rt) matched' dl rs m'
    else walkLoop fuel ((db, dl) :: dt) rt matched' ds rl m'
  | _, _, _, _, _, _, m => m

def Column.detectEquiLevelChanges (c : ColumnSt) (first : Bool) : ColumnSt :=
  let data := if c.last < kWorldHeight then c.data ++ [(kEmptyBlock, kWorldHeight)]
              else c.data
  let m0 := if first then (fun _ => (0 : Int)) else c.mismatches
  let m1 := c.decorations.foldl (fun m d =>
      let m := Function.update m d.2 (wrap16 (m d.2 + 1))
      if d.2 + 1 < kWorldHeight then
        Function.update m (d.2 + 1) (wrap16 (m (d.2 + 1) - 1))
      else m) m0
  if first then { c with data := data, mismatches := m1, reference := data }
  else
    let m2 := walkLoop (data.length + c.reference.length) data c.reference true 0 0 m1
    { c with data := data, mismatches := m2 }

/-- Inclusive prefix sum of the mismatch counters, as accumulated by the
`current` variable of `fillEquilevels` (a plain JS number: exact). -/
def msum (m : Nat → Int) : Nat → Int
  | 0 => m 0
  | y + 1 => msum m y + m (y + 1)

/-- `fillEquilevels`: `out[y] = 1` iff the running sum of the mismatch
counters at `y` is zero.  Entries at `y ≥ kWorldHeight` are not written. -/
def Column.fillEquilevels (c : ColumnSt) (old : Nat → Int) : Nat → Int :=
  fun y => if y < kWorldHeight then (if msum c.mismatches y = 0 then 1 else 0)
           else old y

/-! ## Chunk (source: class `Chunk`) -/

/-- A chunk.  Mesh objects owned by the chunk are modelled by presence
flags (the mesher is an external contract). -/
structure Chunk where
  cx : Int
  cz : Int
  voxels : Fin 16 → Fin 16 → Nat → Int
  heightmap : Fin 16 → Fin 16 → Nat
  light_map : Fin 16 → Fin 16 → Nat
  equilevels : Nat → Int
  dirty : Bool
  ready : Bool
  neighbors : Nat
  solidMesh : Bool
  waterMesh : Bool

/-- The freshly constructed chunk: zeroed tensors and maps. -/
def Chunk.init (cx cz : Int) : Chunk where
  cx := cx
  cz := cz
  voxels := fun _ _ _ => 0
  heightmap := fun _ _ => 0
  light_map := fun _ _ => 0
  equilevels := fun _ => 0
  dirty := false
  ready := false
  neighbors := 0
  solidMesh := false
  waterMesh := false

/-- `voxels.data.fill(block, index, index + count)` on the Y-contiguous
column `(xm, zm)`: cells `y ∈ [start, start + count)` receive `b`. -/
def writeRange (v : Fin 16 → Fin 16 → Nat → Int) (xm zm : Fin 16)
    (start count : Nat) (b : Int) : Fin 16 → Fin 16 → Nat → Int :=
  fun x z y => if x = xm ∧ z = zm ∧ start ≤ y ∧ y < start + count then b
               else v x z y

/-- Point update of a `Tensor2`-backed map. -/
def upd2 {α : Type} (f : Fin 16 → Fin 16 → α) (a b : Fin 16) (v : α) :
    Fin 16 → Fin 16 → α :=
  fun x z => if x = a ∧ z = b then v else f x z

/-- The downward scan of `updateHeightmap`: starting just below `start`,
skip cells that satisfy the absence test `p` and return one above the first
cell failing it (0 if all cells below are absent).  Mirrors the loop
`for (; i < start; i++) if (!p(voxels[start-i-1])) break; h = start - i`. -/
def scanDown (p : Int → Bool) (col : Nat → Int) : Nat → Nat
  | 0 => 0
  | s + 1 => if p (col s) then scanDown p col s else s + 1

/-- One branch pair of `updateHeightmap`, generic in the absence test `p`
(`p = (· == empty)` for `heightmap`, `p = (¬ solid ·)` for `light_map`).
`col` is the column as already written. -/
def updateHeight (p : Int → Bool) (col : Nat → Int) (start count : Nat)
    (b : Int) (h : Nat) : Nat :=
  let e := start + count
  if p b then
    if start < h ∧ h ≤ e then scanDown p col start else h
  else if h ≤ e then e else h

def Chunk.updateHeightmap (reg : Registry) (c : Chunk) (xm zm : Fin 16)
    (start count : Nat) (b : Int) : Chunk :=
  let col := fun y => c.voxels xm zm y
  { c with
    heightmap := upd2 c.heightmap xm zm
      (updateHeight (fun v => v == 0) col start count b (c.heightmap xm zm))
    light_map := upd2 c.light_map xm zm
      (updateHeight (fun v => !reg.solid v) col start count b
        (c.light_map xm zm)) }

def Chunk.setColumn (reg : Registry) (c : Chunk) (x z : Int)
    (start count : Nat) (b : Int) : Chunk :=
  let xm := cmask x
  let zm := cmask z
  let c1 := { c with voxels := writeRange c.voxels xm zm start count b }
  Chunk.updateHeightmap reg c1 xm zm start count b

def Chunk.getBlock (c : Chunk) (x : Int) (y : Nat) (z : Int) : Int :=
  c.voxels (cmask x) (cmask z) y

def Chunk.getLitHeight (c : Chunk) (x z : Int) : Nat :=
  c.light_map (cmask x) (cmask z)

def Chunk.hasMesh (c : Chunk) : Bool := c.solidMesh || c.waterMesh

def Chunk.needsRemesh (c : Chunk) : Bool := c.dirty && c.ready

/-- The part of `Chunk.setBlock` that acts on the chunk itself (the voxel
write, the dirty flag, the incremental heightmap/lit-height update and the
equi-level clear); the neighbor dirty marks need the world's circle and are
applied by `World.setBlock` below. -/
def Chunk.setBlockLocal (reg : Registry) (c : Chunk) (x : Int) (y : Nat)
    (z : Int) (b : Int) : Chunk :=
  let xm := cmask x
  let zm := cmask z
  let old := c.voxels xm zm y
  if old = b then c
  else
    let c1 := { c with voxels := writeRange c.voxels xm zm y 1 b,
                       dirty := true }
    let c2 := Chunk.updateHeightmap reg c1 xm zm y 1 b
    { c2 with equilevels := Function.update c2.equilevels y 0 }

/-- `fillChunk`: write the runs as contiguous column fills, apply the point
decorations, then update the equi-level mismatch counters. -/
def Column.fillChunk (c : ColumnSt) (reg : Registry) (x z : Int)
    (ch : Chunk) (first : Bool) : Chunk × ColumnSt :=
  let fill := c.data.foldl (fun (acc : Chunk × Nat) br =>
      (Chunk.setColumn reg acc.1 x z acc.2 (br.2 - acc.2) br.1, br.2)) (ch, 0)
  let ch1 := c.decorations.foldl
      (fun ch d => Chunk.setColumn reg ch x z d.2 1 d.1) fill.1
  (ch1, Column.detectEquiLevelChanges c first)

/-- The source iterates `x` in the outer loop and `z` in the inner loop;
`first` holds exactly for `(0, 0)`. -/
def colsList : List (Nat × Nat) :=
  (List.range 16).flatMap fun x => (List.range 16).map fun z => (x, z)

/-- One column of `Chunk.load`: run the loader against the scratch, fill
the chunk, clear the scratch. -/
def Chunk.loadStep (reg : Registry) (loader : Int → Int → List ColOp)
    (cx cz : Int) (acc : Chunk × ColumnSt) (xz : Nat × Nat) : Chunk × ColumnSt :=
  let ax : Int := cx * 16 + xz.1
  let az : Int := cz * 16 + xz.2
  let first : Bool := decide (xz.1 + xz.2 = 0)
  let col1 := Column.applyOps acc.2 (loader ax az)
  let filled := Column.fillChunk col1 reg ax az acc.1 first
  (filled.1, Column.clear filled.2)

/-- `Chunk.load`: run the loader column by column against the shared column
scratch, fill the voxels, and integrate the mismatch counters into the
chunk's equi-level bitmap.  Returns the chunk together with the final state
of the (world-owned) column scratch.  The neighbor handshake and the
`dirty`/`ready` initialization are applied by `World.loadChunkAt`. -/
def Chunk.load (reg : Registry) (loader : Int → Int → List ColOp)
    (cx cz : Int) (col0 : ColumnSt) : Chunk × ColumnSt :=
  let r := colsList.foldl (Chunk.loadStep reg loader cx cz) (Chunk.init cx cz, col0)
  ({ r.1 with equilevels := Column.fillEquilevels r.2 (r.1.equilevels) }, r.2)

/-! ## Circle index (source: class `Circle`) -/

/-- Squared distance of a candidate offset. -/
def distSq (p : Int × Int) : Int := p.1 * p.1 + p.2 * p.2

/-- The candidate offsets `(i, j)` for `i, j ∈ [-fl, fl]`, in the source's
generation order (`i` outer, `j` inner). -/
def circleCandidates (fl : Nat) : List (Int × Int) :=
  (List.range (2 * fl + 1)).flatMap fun i =>
    (List.range (2 * fl + 1)).map fun j => ((i : Int) - fl, (j : Int) - fl)

/-- The `while ((1 << shift) < 2*floor+1) shift++` loop: the smallest `s`
at or above the start with `2^s ≥ bound`.  Since `2^s` gains at least one
per step, `bound` fuel (as `mkCircle` supplies) is always enough. -/
def shiftLoop (bound : Nat) : Nat → Nat → Nat
  | 0, s => s
  | fuel + 1, s => if 2 ^ s < bound then shiftLoop bound fuel (s + 1) else s

structure Circle (T : Type) where
  center_x : Int
  center_z : Int
  fl : Nat
  deltas : Nat → Nat
  points : List (Int × Int)
  shift : Nat
  elements : Nat → Option T

/-- The `Circle` constructor: enumerate offsets inside the disk, sort by
squared distance (JS `sort` is stable, as is `List.mergeSort`), build the
per-|i| max-|j| table and the power-of-two slot grid.  The disk test
`distance ≤ radius * radius` and `Math.floor(radius)` are computed on the
radius fraction's parts (see `JSNum.le_sq_iff` and `JSNum.floor_eq`). -/
def mkCircle (T : Type) (radius : JSNum) : Circle T :=
  let fl : Nat := radius.floor.toNat
  let pts := (circleCandidates fl).filter fun p =>
    distSq p * radius.den ^ 2 ≤ radius.num ^ 2
  let sorted := pts.mergeSort fun a b => distSq a ≤ distSq b
  let deltas := sorted.foldl (fun d p => fun a =>
      if a = p.1.natAbs then max (d a) p.2.natAbs else d a) (fun _ => 0)
  { center_x := 0
    center_z := 0
    fl := fl
    deltas := deltas
    points := sorted
    shift := shiftLoop (2 * fl + 1) (2 * fl + 1) 0
    elements := fun _ => none }

/-- The torus hash `((cz & mask) << shift) | (cx & mask)` as a slot number
(the two fields are disjoint, so the OR is an addition). -/
def Circle.index {T : Type} (c : Circle T) (cx cz : Int) : Nat :=
  (cz % (2 ^ c.shift : Int)).toNat * 2 ^ c.shift + (cx % (2 ^ c.shift : Int)).toNat

/-- The `CircleElement` interface: elements carry their own coordinates
(dispose effects are applied by the owner at eviction sites). -/
class CircleElement (T : Type) where
  cxOf : T → Int
  czOf : T → Int

/-- `Circle.get`: O(1) slot lookup returning the stored element only if it
matches the requested coordinates. -/
def Circle.get {T : Type} [CircleElement T] (c : Circle T) (cx cz : Int) :
    Option T :=
  match c.elements (c.index cx cz) with
  | some v =>
    if CircleElement.cxOf v = cx ∧ CircleElement.czOf v = cz then some v
    else none
  | none => none

/-- `Circle.set`: insert at the hashed slot (the source asserts the slot is
empty; the invariant is established by the callers). -/
def Circle.set {T : Type} (c : Circle T) (cx cz : Int) (v : T) : Circle T :=
  { c with elements := Function.update c.elements (c.index cx cz) (some v) }

/-- `Circle.each`-style iteration: fold over the distance-sorted offset
list translated by the current center, with early exit. -/
def eachFold {σ : Type} : List (Int × Int) → Int → Int →
    (σ → Int → Int → σ × Bool) → σ → σ
  | [], _, _, _, s => s
  | p :: rest, cx, cz, f, s =>
    let r := f s (p.1 + cx) (p.2 + cz)
    if r.2 then r.1 else eachFold rest cx cz f r.1

/-- `Circle.center`: on a real center change, walk the (old-centered) point
list, clear every slot whose element now falls outside the disk, and return
the evicted elements (whose `dispose` the owner then applies); on an
unchanged center, return immediately. -/
def Circle.center {T : Type} (c : Circle T) (ncx ncz : Int) :
    Circle T × List T :=
  if ncx = c.center_x ∧ ncz = c.center_z then (c, [])
  else
    let r := eachFold c.points c.center_x c.center_z
      (fun (st : (Nat → Option T) × List T) cx cz =>
        let ax := (cx - ncx).natAbs
        let az := (cz - ncz).natAbs
        if ax ≤ c.fl ∧ az ≤ c.deltas ax then (st, false)
        else
          let idx := c.index cx cz
          match st.1 idx with
          | none => (st, false)
          | some v => ((Function.update st.1 idx none, st.2 ++ [v]), false))
      (c.elements, [])
    ({ c with center_x := ncx, center_z := ncz, elements := r.1 }, r.2)

instance : CircleElement Chunk := ⟨Chunk.cx, Chunk.cz⟩

/-! ## Frontier (source: classes `LODMultiMesh`, `FrontierChunk`, `Frontier`) -/

/-- A multi-mesh shared by a 4×4 pack of frontier tiles: which quadrants
have been meshed, and which are enabled.  The shared GPU buffers and the
packed 64-bit visibility mask pushed to them are render-side state of the
external mesh objects and are not tracked. -/
structure LODMultiMesh where
  meshed : Nat → Bool
  enabled : Nat → Bool

def LODMultiMesh.init : LODMultiMesh :=
  { meshed := fun _ => false, enabled := fun _ => false }

/-- `show(index, mask)`: `assert(this.meshed[index])` — a fatal abort when
the quadrant has not been meshed (`none`) — then update the quadrant's
visibility bits and mark it enabled. -/
def LODMultiMesh.showQuadrant (mm : LODMultiMesh) (idx : Nat) :
    Option LODMultiMesh :=
  if mm.meshed idx then
    some { mm with enabled := Function.update mm.enabled idx true }
  else none

/-- `disable(index)`: hide the quadrant; when no quadrant of the pack
remains enabled, reset the whole multi-mesh (drop the meshes and the
`meshed` flags). -/
def LODMultiMesh.disable (mm : LODMultiMesh) (idx : Nat) : LODMultiMesh :=
  if mm.enabled idx = false then mm
  else
    let mm1 : LODMultiMesh := { mm with enabled := Function.update mm.enabled idx false }
    if (List.range kMultiMeshArea).any (fun i => mm1.enabled i) then mm1
    else { meshed := fun _ => false, enabled := mm1.enabled }

/-- A frontier tile.  Its multi-mesh is held in the frontier's mesh map
under `meshKey` (the source holds a direct object reference). -/
structure FrontierChunk where
  cx : Int
  cz : Int
  level : Nat
  meshKey : Nat

instance : CircleElement FrontierChunk := ⟨FrontierChunk.cx, FrontierChunk.cz⟩

/-- `LODMultiMesh.index(chunk) = ((cz & (side-1)) << bits) | (cx & (side-1))`. -/
def FrontierChunk.index (t : FrontierChunk) : Nat :=
  (t.cz % (kMultiMeshSide : Int)).toNat * kMultiMeshSide +
    (t.cx % (kMultiMeshSide : Int)).toNat

structure Frontier where
  dirty : Nat → Bool
  levels : Nat → Circle FrontierChunk
  meshes : Nat → Option LODMultiMesh
  side : Nat

/-- The chunk circle's radius `(kChunkRadius | 0) + 0.5`. -/
def chunkCircleRadius : JSNum := ⟨2 * kChunkRadius + 1, 2⟩

/-- One step of the frontier radius chain: `(radius + kFrontierRadius) / 2`. -/
def halveToward (r : JSNum) : JSNum := ⟨r.num + kFrontierRadius * r.den, 2 * r.den⟩

/-- The level `i` radius: starting from `(kChunkRadius | 0) + 0.5`, each
level halves the gap to `kFrontierRadius` before constructing its circle. -/
def frontierRadius : Nat → JSNum
  | 0 => halveToward chunkCircleRadius
  | n + 1 => halveToward (frontierRadius n)

def Frontier.init : Frontier where
  dirty := fun l => decide (l < kFrontierLevels)
  levels := fun l => mkCircle FrontierChunk (frontierRadius l)
  meshes := fun _ => none
  side := kChunkWidth / kFrontierLOD

def Frontier.markDirty (f : Frontier) (l : Nat) : Frontier :=
  if l < kFrontierLevels then { f with dirty := Function.update f.dirty l true }
  else f

/-- `getOrCreateMultiMesh` key: `(((cz & 4095) << 12) | (cx & 4095)) *
kFrontierLevels + level`. -/
def multiMeshKey (cx cz : Int) (level : Nat) : Nat :=
  ((cz % 4096).toNat * 4096 + (cx % 4096).toNat) * kFrontierLevels + level

def Frontier.getOrCreateMultiMesh (f : Frontier) (cx cz : Int) (level : Nat) :
    Frontier × Nat :=
  let key := multiMeshKey cx cz level
  match f.meshes key with
  | some _ => (f, key)
  | none => ({ f with meshes := Function.update f.meshes key (some LODMultiMesh.init) }, key)

def FrontierChunk.hasMesh (f : Frontier) (t : FrontierChunk) : Bool :=
  match f.meshes t.meshKey with
  | some mm => mm.meshed t.index
  | none => false

/-- The dispose of an evicted frontier tile: mark the next level dirty if
the tile had a mesh, then disable its quadrant of the shared multi-mesh. -/
def Frontier.disposeTile (f : Frontier) (t : FrontierChunk) : Frontier :=
  let f1 := if FrontierChunk.hasMesh f t then f.markDirty (t.level + 1) else f
  match f1.meshes t.meshKey with
  | some mm =>
    let ms := Function.update f1.meshes t.meshKey (some (mm.disable t.index))
    { f1 with meshes := ms }
  | none => f1

/-- `Frontier.center`: shift each level's circle at half the preceding
coordinate scale, disposing evicted tiles. -/
def Frontier.center (f : Frontier) (cx cz : Int) : Frontier :=
  let r := (List.range kFrontierLevels).foldl
    (fun (acc : Frontier × Int × Int) l =>
      let ncx := Int.fdiv acc.2.1 2
      let ncz := Int.fdiv acc.2.2 2
      let fr := acc.1
      let cr := (fr.levels l).center ncx ncz
      let fr1 := { fr with levels := Function.update fr.levels l cr.1 }
      (cr.2.foldl Frontier.disposeTile fr1, (ncx, ncz)))
    (f, (cx, cz))
  r.1

def Frontier.createFrontierChunk (f : Frontier) (cx cz : Int) (level : Nat) :
    Frontier × FrontierChunk :=
  let r := f.getOrCreateMultiMesh (Int.fdiv cx 4) (Int.fdiv cz 4) level
  let t : FrontierChunk := { cx := cx, cz := cz, level := level, meshKey := r.2 }
  -- The tile may already have a mesh from a previous life of the shared
  -- multi-mesh; the source counts this as meshing it and marks l+1 dirty.
  let f2 := if FrontierChunk.hasMesh r.1 t then (r.1).markDirty (level + 1) else r.1
  (f2, t)

/-- `createLODMeshes`: absent a frontier loader it returns without doing
anything; otherwise it builds the two heightmap strips with the loader,
runs the external frontier mesher for the four quadrants, and records the
tile's quadrant as meshed.  The strips and the mesher outputs live in the
external mesh object; the state visible to the core is the `meshed` flag. -/
def Frontier.createLODMeshes (f : Frontier) (hasLoader : Bool)
    (t : FrontierChunk) : Frontier :=
  if !hasLoader then f
  else
    match f.meshes t.meshKey with
    | some mm =>
      let mm1 := { mm with meshed := Function.update mm.meshed t.index true }
      let ms := Function.update f.meshes t.meshKey (some mm1)
      { f with meshes := ms }
    | none => f

/-- `lod.mesh.show(index, mask)` seen from the frontier: runs the
multi-mesh `show`, whose `assert(this.meshed[index])` aborts (`none`) when
the quadrant is unmeshed; a tile whose multi-mesh entry is absent is
likewise unmeshed and hits the same assert. -/
def Frontier.showTile (f : Frontier) (t : FrontierChunk) : Option Frontier :=
  match f.meshes t.meshKey with
  | some mm =>
    match mm.showQuadrant t.index with
    | some mm1 =>
      some { f with meshes := Function.update f.meshes t.meshKey (some mm1) }
    | none => none
  | none => none

/-- Ghost observation record for one `computeLODAtLevel` call: how many
tiles had `createLODMeshes` invoked for them, how many of those were fresh
tiles with an all-unmeshed child mask, and whether a fresh tile that should
have been shown was skipped for budget reasons. -/
structure LODReport where
  invocations : Nat
  freshEmptyMaskMeshes : Nat
  skippedFresh : Bool
  aborted : Bool
deriving DecidableEq

/-- State threaded through the `level.each` fold of `computeLODAtLevel`. -/
structure LODState where
  f : Frontier
  counter : Nat
  freshCnt : Nat
  skFresh : Bool
  skipped : Bool
  aborted : Bool

/-- The child-mesh test: at level 0 consult the world's chunk circle
(passed in as `baseMeshed`), above that the previous frontier level. -/
def Frontier.meshedAt (f : Frontier) (baseMeshed : Int → Int → Bool)
    (l : Nat) (dx dz : Int) : Bool :=
  if 0 < l then
    match (f.levels (l - 1)).get dx dz with
    | some t => FrontierChunk.hasMesh f t
    | none => false
  else baseMeshed dx dz

/-- The four-child mesh mask computed at the top of the `level.each`
closure of `computeLODAtLevel`. -/
def Frontier.lodMask (f : Frontier) (baseMeshed : Int → Int → Bool) (l : Nat)
    (cx cz : Int) : Nat :=
  (List.range 4).foldl (fun mask i =>
      let dx := 2 * cx + (if i % 2 = 1 then 1 else 0)
      let dz := 2 * cz + (if i / 2 = 1 then 1 else 0)
      if Frontier.meshedAt f baseMeshed l dx dz then mask ||| (1 <<< i)
      else mask) 0

/-- One tile of the `level.each` walk of `computeLODAtLevel`. -/
def Frontier.lodStep (baseMeshed : Int → Int → Bool) (hasLoader : Bool)
    (l : Nat) (st : LODState) (cx cz : Int) : LODState × Bool :=
  let mask : Nat := Frontier.lodMask st.f baseMeshed l cx cz
  let shown : Bool := mask != 15
  let extra : Bool := decide (st.counter < kNumLODChunksToMeshPerFrame)
  let create : Bool := shown && (extra || mask != 0)
  let skipped := st.skipped || (shown && !create)
  let existing := (st.f.levels l).get cx cz
  if existing.isNone && !create then
    ({ st with skipped := skipped,
               skFresh := st.skFresh || (shown && !create) }, false)
  else
    let r1 : Frontier × FrontierChunk × Bool :=
      match existing with
      | some t => (st.f, t, false)
      | none =>
        let cr := st.f.createFrontierChunk cx cz l
        let lvs := Function.update cr.1.levels l ((cr.1.levels l).set cx cz cr.2)
        ({ cr.1 with levels := lvs }, cr.2, true)
    let f1 := r1.1
    let lod := r1.2.1
    let freshTile := r1.2.2
    let needMesh : Bool := shown && !(FrontierChunk.hasMesh f1 lod)
    let r2 : Frontier × Nat × Nat :=
      if needMesh then
        (((f1.createLODMeshes hasLoader lod).markDirty (l + 1)),
         st.counter + 1,
         st.freshCnt + (if freshTile && (mask == 0) then 1 else 0))
      else (f1, st.counter, st.freshCnt)
    let ab : Bool := ((r2.1).showTile lod).isNone
    ({ f := ((r2.1).showTile lod).getD r2.1, counter := r2.2.1,
       freshCnt := r2.2.2, skFresh := st.skFresh, skipped := skipped,
       aborted := st.aborted || ab }, ab)

/-- `computeLODAtLevel`: on an abort inside the walk the exception
propagates, so the trailing `this.dirty[l] = skipped` write is skipped and
the partially mutated frontier is what remains. -/
def Frontier.computeLODAtLevel (f : Frontier) (baseMeshed : Int → Int → Bool)
    (hasLoader : Bool) (l : Nat) : Frontier × LODReport :=
  if f.dirty l = false then (f, ⟨0, 0, false, false⟩)
  else
    let lv := f.levels l
    let st := eachFold lv.points lv.center_x lv.center_z
      (Frontier.lodStep baseMeshed hasLoader l)
      { f := f, counter := 0, freshCnt := 0, skFresh := false,
        skipped := false, aborted := false }
    if st.aborted then
      (st.f, { invocations := st.counter, freshEmptyMaskMeshes := st.freshCnt,
               skippedFresh := st.skFresh, aborted := true })
    else
      ({ st.f with dirty := Function.update st.f.dirty l st.skipped },
       { invocations := st.counter, freshEmptyMaskMeshes := st.freshCnt,
         skippedFresh := st.skFresh, aborted := false })

/-- The per-level loop of `remeshFrontier`; an abort at one level throws
through the loop, so later levels are not processed. -/
def Frontier.remeshFrontier (f : Frontier) (baseMeshed : Int → Int → Bool)
    (hasLoader : Bool) : Frontier × List LODReport :=
  (List.range kFrontierLevels).foldl (fun acc l =>
    if acc.2.any (fun r => r.aborted) then acc
    else
      let r := Frontier.computeLODAtLevel acc.1 baseMeshed hasLoader l
      (r.1, acc.2 ++ [r.2])) (f, [])

/-! ## World (source: class `World`) -/

structure World where
  chunks : Circle Chunk
  column : ColumnSt
  registry : Registry
  frontier : Frontier
  bedrock : Int
  loadChunk : Option (Int → Int → List ColOp)
  loadFrontier : Option (Int → Int → List ColOp)
  mesherSolid : Int → Int → Bool
  mesherWater : Int → Int → Bool

def World.getBlock (w : World) (x y z : Int) : Int :=
  if y < 0 then w.bedrock
  else if (kWorldHeight : Int) ≤ y then kEmptyBlock
  else
    match w.chunks.get (Int.fdiv x 16) (Int.fdiv z 16) with
    | some c => c.getBlock x y.toNat z
    | none => kUnknownBlock

/-- Store the chunk back at its own hashed slot (the model of mutating the
chunk object held by the circle in place). -/
def Circle.store (c : Circle Chunk) (ch : Chunk) : Circle Chunk :=
  { c with elements := Function.update c.elements (c.index ch.cx ch.cz) (some ch) }

/-- The neighbor-marking closure of `Chunk.setBlock`: set the dirty flag of
the chunk at `(cx, cz)` if one is loaded there. -/
def Circle.markChunkDirty (c : Circle Chunk) (cx cz : Int) : Circle Chunk :=
  match c.get cx cz with
  | some ch => c.store { ch with dirty := true }
  | none => c

/-- One conditional neighbor mark of `Chunk.setBlock` (`if (xm === edge)
neighbor(...)`). -/
def markIf (cond : Prop) [Decidable cond] (c : Circle Chunk) (cx cz : Int) :
    Circle Chunk :=
  if cond then c.markChunkDirty cx cz else c

/-- `Chunk.setBlock` as seen from the world: the chunk-local update plus
the up-to-two edge-adjacent neighbor dirty marks, applied in source order
(`-x`, `+x`, `-z`, `+z`). -/
def World.setBlockInChunk (w : World) (ch : Chunk) (x : Int) (y : Nat)
    (z : Int) (b : Int) : World :=
  if ch.voxels (cmask x) (cmask z) y = b then w
  else
    let cs :=
      markIf ((cmask z).val = 15)
        (markIf ((cmask z).val = 0)
          (markIf ((cmask x).val = 15)
            (markIf ((cmask x).val = 0)
              (w.chunks.store (Chunk.setBlockLocal w.registry ch x y z b))
              (ch.cx - 1) ch.cz)
            (ch.cx + 1) ch.cz)
          ch.cx (ch.cz - 1))
        ch.cx (ch.cz + 1)
    { w with chunks := cs }

def World.setBlock (w : World) (x y z : Int) (b : Int) : World :=
  if 0 ≤ y ∧ y < (kWorldHeight : Int) then
    match w.chunks.get (Int.fdiv x 16) (Int.fdiv z 16) with
    | some ch => w.setBlockInChunk ch x y.toNat z b
    | none => w
  else w

/-- `notifyNeighborLoaded` applied to the chunk at `(cx, cz)`, if loaded;
the `Bool` reports whether a neighbor was there (incrementing the new
chunk's own counter). -/
def World.notifyLoadedAt (w : World) (cx cz : Int) : World × Bool :=
  match w.chunks.get cx cz with
  | some ch =>
    let n := ch.neighbors + 1
    let cs := w.chunks.store { ch with neighbors := n, ready := decide (n = 4) }
    ({ w with chunks := cs }, true)
  | none => (w, false)

/-- `dropMeshes` applied to the chunk at `(cx, cz)`: release the meshes
(and, externally, the instanced-mesh slots), mark frontier level 0 dirty if
it had any, and re-mark the chunk dirty. -/
def World.dropMeshesAt (w : World) (cx cz : Int) : World :=
  match w.chunks.get cx cz with
  | none => w
  | some ch =>
    let w1 := if ch.hasMesh then { w with frontier := w.frontier.markDirty 0 }
              else w
    let cs := w1.chunks.store { ch with solidMesh := false, waterMesh := false, dirty := true }
    { w1 with chunks := cs }

/-- `notifyNeighborDisposed` applied to the chunk at `(cx, cz)`: decrement
its neighbor count; on a ready → not-ready transition drop its meshes. -/
def World.notifyDisposedAt (w : World) (cx cz : Int) : World :=
  match w.chunks.get cx cz with
  | none => w
  | some ch =>
    let n := ch.neighbors - 1
    let nowReady := decide (n = 4)
    let cs := w.chunks.store { ch with neighbors := n, ready := nowReady }
    let w1 := { w with chunks := cs }
    if ch.ready && !nowReady then w1.dropMeshesAt cx cz else w1

/-- `Chunk.dispose` of an evicted chunk: its meshes go with it (marking
frontier level 0 dirty if it had any), and its four neighbors are
notified. -/
def World.disposeChunkEffects (w : World) (ch : Chunk) : World :=
  let w1 := if ch.hasMesh then { w with frontier := w.frontier.markDirty 0 }
            else w
  let w2 := w1.notifyDisposedAt (ch.cx + 1) ch.cz
  let w3 := w2.notifyDisposedAt (ch.cx - 1) ch.cz
  let w4 := w3.notifyDisposedAt ch.cx (ch.cz + 1)
  w4.notifyDisposedAt ch.cx (ch.cz - 1)

/-- `new Chunk(cx, cz, world, loader)` as performed inside `recenter`'s
load loop: build the chunk from the loader through the shared column
scratch, run the neighbor handshake, set `dirty`/`ready`, and insert it
into the circle. -/
def World.loadChunkAt (w : World) (loader : Int → Int → List ColOp)
    (cx cz : Int) : World :=
  let r := Chunk.load w.registry loader cx cz w.column
  let w1 := { w with column := r.2 }
  let s1 := w1.notifyLoadedAt (cx + 1) cz
  let s2 := (s1.1).notifyLoadedAt (cx - 1) cz
  let s3 := (s2.1).notifyLoadedAt cx (cz + 1)
  let s4 := (s3.1).notifyLoadedAt cx (cz - 1)
  let n := (if s1.2 then 1 else 0) + (if s2.2 then 1 else 0) +
           (if s3.2 then 1 else 0) + (if s4.2 then 1 else 0)
  let ch := { r.1 with neighbors := n, dirty := true, ready := decide (n = 4) }
  { s4.1 with chunks := (s4.1).chunks.store ch }

def World.recenter (w : World) (x y z : ℚ) : World :=
  let cx := Int.fdiv (Int.floor x) 16
  let cz := Int.fdiv (Int.floor z) 16
  let cr := w.chunks.center cx cz
  let w1 := cr.2.foldl World.disposeChunkEffects { w with chunks := cr.1 }
  let w2 := { w1 with frontier := w1.frontier.center cx cz }
  match w2.loadChunk with
  | none => w2
  | some loader =>
    let st := eachFold w2.chunks.points cx cz
      (fun (st : World × Nat) pcx pcz =>
        match st.1.chunks.get pcx pcz with
        | some _ => (st, false)
        | none =>
          let w' := (st.1).loadChunkAt loader pcx pcz
          ((w', st.2 + 1), decide (st.2 + 1 = kNumChunksToLoadPerFrame)))
      (w2, 0)
    st.1

/-- `remeshChunk` on the chunk at `(cx, cz)`: rebuild the instanced
sprites (external), rebuild the surface meshes through the external mesher
(modelled by the world's mesher oracle on chunk coordinates), clear
`dirty`. -/
def World.remeshChunkAt (w : World) (cx cz : Int) : World :=
  match w.chunks.get cx cz with
  | none => w
  | some ch =>
    let ch1 := { ch with solidMesh := w.mesherSolid cx cz,
                         waterMesh := w.mesherWater cx cz, dirty := false }
    { w with chunks := w.chunks.store ch1 }

/-- Ghost-instrumented state of the `remesh()` chunk walk: alongside the
world, the `meshed`/`total` counters of the source, the list of visited
coordinates, and the value of `total` at each remesh event. -/
structure RemeshWalk where
  w : World
  meshed : Nat
  total : Nat
  visited : List (Int × Int)
  remeshedAt : List Nat

def World.remeshWalk (w : World) : RemeshWalk :=
  eachFold w.chunks.points w.chunks.center_x w.chunks.center_z
    (fun (st : RemeshWalk) cx cz =>
      let total := st.total + 1
      if 9 < total ∧ kNumChunksToMeshPerFrame ≤ st.meshed then
        ({ st with total := total, visited := st.visited ++ [(cx, cz)] }, true)
      else
        match (st.w).chunks.get cx cz with
        | none =>
          ({ st with total := total, visited := st.visited ++ [(cx, cz)] }, false)
        | some ch =>
          if ch.needsRemesh = false then
            ({ st with total := total, visited := st.visited ++ [(cx, cz)] }, false)
          else
            let w1 := if !ch.hasMesh then
                { st.w with frontier := (st.w).frontier.markDirty 0 }
              else st.w
            let w2 := w1.remeshChunkAt cx cz
            ({ w := w2, meshed := st.meshed + 1, total := total,
               visited := st.visited ++ [(cx, cz)],
               remeshedAt := st.remeshedAt ++ [total] }, false))
    { w := w, meshed := 0, total := 0, visited := [], remeshedAt := [] }

def World.remesh (w : World) : World :=
  let st := w.remeshWalk
  let baseMeshed := fun cx cz =>
    match (st.w).chunks.get cx cz with
    | some ch => ch.hasMesh
    | none => false
  let fr := (st.w).frontier.remeshFrontier baseMeshed (st.w).loadFrontier.isSome
  { st.w with frontier := fr.1 }

/-! ## Timing (source: class `Timing`) -/

/-- Which of the three callbacks an invocation went through. -/
inductive TCall where
  | remesh
  | render
  | update
deriving DecidableEq

/-- One callback invocation in the trace: which slot, whether the slot
still held the original callback (as opposed to the post-error no-op), and
whether the invocation threw. -/
structure TraceEntry where
  call : TCall
  original : Bool
  threw : Bool
deriving DecidableEq

/-- The `Timing` harness state: for each of the three callback slots,
whether it still holds the original callback (`onError` replaces all three
with no-ops), plus the global invocation counter indexing the behavior
oracle. -/
structure TimingSt where
  remeshOrig : Bool
  renderOrig : Bool
  updateOrig : Bool
  calls : Nat

def TimingSt.init : TimingSt :=
  { remeshOrig := true, renderOrig := true, updateOrig := true, calls := 0 }

/-- `onError`: replace all three callbacks by no-ops (the error is logged;
the frame pump keeps running). -/
def TimingSt.onError (s : TimingSt) : TimingSt :=
  { s with remeshOrig := false, renderOrig := false, updateOrig := false }

/-- Invoke one callback slot.  An original callback throws iff the oracle
says so at the current invocation index; the no-op `() => {}` never
throws.  Returns the trace entry and whether it threw. -/
def TimingSt.invoke (s : TimingSt) (oracle : Nat → Bool) (c : TCall)
    (orig : Bool) : TimingSt × TraceEntry × Bool :=
  let th := orig && oracle s.calls
  ({ s with calls := s.calls + 1 },
   { call := c, original := orig, threw := th }, th)

/-- One iteration of the `updateHandler` while-loop: invoke the update
slot inside try/catch; on a throw, `onError` silences all three slots and
the loop continues. -/
def TimingSt.updateStep (s : TimingSt) (oracle : Nat → Bool) :
    TimingSt × TraceEntry :=
  let r := s.invoke oracle TCall.update s.updateOrig
  (if r.2.2 then (r.1).onError else r.1, r.2.1)

/-- `updateHandler` with `n` loop iterations (the iteration count is
determined by the clock and the `updateLimit` cap, which the model
abstracts over). -/
def TimingSt.updatePump (s : TimingSt) (oracle : Nat → Bool) :
    Nat → TimingSt × List TraceEntry
  | 0 => (s, [])
  | n + 1 =>
    let r := s.updateStep oracle
    let rest := (r.1).updatePump oracle n
    (rest.1, r.2 :: rest.2)

/-- `renderHandler`: drain updates, then invoke remesh and render inside
one try/catch — a throw from remesh skips render for this frame and
silences all three slots. -/
def TimingSt.renderPump (s : TimingSt) (oracle : Nat → Bool) (n : Nat) :
    TimingSt × List TraceEntry :=
  let up := s.updatePump oracle n
  let s1 := up.1
  let r1 := s1.invoke oracle TCall.remesh s1.remeshOrig
  if r1.2.2 then ((r1.1).onError, up.2 ++ [r1.2.1])
  else
    let s2 := r1.1
    let r2 := s2.invoke oracle TCall.render s2.renderOrig
    (if r2.2.2 then (r2.1).onError else r2.1, up.2 ++ [r1.2.1, r2.2.1])

/-- An external event driving the harness: one animation-frame ping (with
the number of catch-up update iterations its embedded `updateHandler` call
performs) or one timer ping for the update loop. -/
inductive TEvent where
  | renderFrame : Nat → TEvent
  | updateTimer : Nat → TEvent
deriving DecidableEq

def TimingSt.run (s : TimingSt) (oracle : Nat → Bool) :
    List TEvent → TimingSt × List TraceEntry
  | [] => (s, [])
  | TEvent.renderFrame n :: rest =>
    let r := s.renderPump oracle n
    let rr := (r.1).run oracle rest
    (rr.1, r.2 ++ rr.2)
  | TEvent.updateTimer n :: rest =>
    let r := s.updatePump oracle n
    let rr := (r.1).run oracle rest
    (rr.1, r.2 ++ rr.2)

/-! ## Concrete instances used by witnesses and counterexamples -/

/-- The default registry state right after construction: only the empty
and unknown blocks, `solid = [false, true]`. -/
def regDefault : Registry := { solid := fun b => decide (b = 1) }

/-- The world-owned column scratch as first constructed. -/
def Column.initSt : ColumnSt :=
  { data := [], last := 0, decorations := [], mismatches := fun _ => 0,
    reference := [] }

/-- The `World` constructor state (radius `(kChunkRadius | 0) + 0.5`, no
loaders, empty bedrock).  The padded mesher scratch volume the constructor
also allocates is consumed only by the external mesher and is untracked. -/
def World.init (reg : Registry) : World :=
  { chunks := mkCircle Chunk chunkCircleRadius
    column := Column.initSt
    registry := reg
    frontier := Frontier.init
    bedrock := kEmptyBlock
    loadChunk := none
    loadFrontier := none
    mesherSolid := fun _ _ => false
    mesherWater := fun _ _ => false }

/-- `setLoader`: record the bedrock block and the two loader callbacks
(`loadFrontier` defaults to `loadChunk`); the bedrock pre-write goes into
the untracked mesher scratch. -/
def World.setLoader (w : World) (bedrock : Int)
    (lc : Int → Int → List ColOp) : World :=
  { w with bedrock := bedrock, loadChunk := some lc, loadFrontier := some lc }

/-- A loader that performs no calls at all (scenario S1 of the spec). -/
def emptyLoader : Int → Int → List ColOp := fun _ _ => []

/-- What `Chunk.setBlock` does to the neighbor chunk at `(cx, cz)`: when
the written cell lies on the corresponding chunk edge (`onEdge`), a loaded
neighbor is marked dirty (and an absent one stays absent); otherwise that
neighbor entry is untouched. -/
def MarkedSpec (w w' : World) (cx cz : Int) (onEdge : Bool) : Prop :=
  if onEdge then
    (∀ nch, w.chunks.get cx cz = some nch →
      w'.chunks.get cx cz = some { nch with dirty := true }) ∧
    (w.chunks.get cx cz = none → w'.chunks.get cx cz = none)
  else w'.chunks.get cx cz = w.chunks.get cx cz

/-- A single chunk at the origin in an otherwise pristine world, used by
concrete witnesses. -/
def chunkA : Chunk := Chunk.init 0 0

def wOneChunk : World :=
  let w := World.init regDefault
  { w with chunks := w.chunks.store chunkA }

/-! ## Definitions for the heightmap/light-map invariant (claim C2) -/

/-- A chunk-mutating call of the C2 claim: a single-cell `setBlock` (its
chunk-local part; the neighbor dirty marks touch other chunks only) or a
bulk `setColumn`. -/
inductive ChunkOp where
  | setBlock : Int → Nat → Int → Int → ChunkOp
  | setColumn : Int → Int → Nat → Nat → Int → ChunkOp
deriving DecidableEq

def applyChunkOp (reg : Registry) (c : Chunk) : ChunkOp → Chunk
  | ChunkOp.setBlock x y z b => Chunk.setBlockLocal reg c x y z b
  | ChunkOp.setColumn x z s n b => Chunk.setColumn reg c x z s n b

def applyChunkOps (reg : Registry) (c : Chunk) (ops : List ChunkOp) : Chunk :=
  ops.foldl (applyChunkOp reg) c

/-- In-range calls: `setBlock` within the world height, `setColumn` with a
non-empty in-range fill. -/
def ChunkOpWF : ChunkOp → Prop
  | ChunkOp.setBlock _ y _ _ => y < kWorldHeight
  | ChunkOp.setColumn _ _ s n _ => 1 ≤ n ∧ s + n ≤ kWorldHeight

/-- All cells of the column from `h` up to the world top satisfy the
absence test `p`. -/
def AllAbsentFrom (p : Int → Bool) (col : Nat → Int) (h : Nat) : Prop :=
  ∀ y, y < kWorldHeight → h ≤ y → p (col y) = true

/-- The claim's characterization: `h` is the smallest index from which all
cells up to the world top satisfy `p` (`p` = "empty" for `heightmap`,
`p` = "non-solid" for `light_map`). -/
def IsSmallestFrom (p : Int → Bool) (col : Nat → Int) (h : Nat) : Prop :=
  AllAbsentFrom p col h ∧ ∀ h', h' < h → ¬ AllAbsentFrom p col h'

/-- The maintained form of the invariant: `h` is in range, everything at
or above `h` is absent, and the cell just below `h` (if any) is present. -/
def HeightInv (p : Int → Bool) (col : Nat → Int) (h : Nat) : Prop :=
  h ≤ kWorldHeight ∧ (∀ y, h ≤ y → p (col y) = true) ∧
    (h = 0 ∨ p (col (h - 1)) = false)

/-- The per-chunk invariant of claim C2, for every column: the heightmap
entry is the empty cutoff, the light-map entry the non-solid cutoff, and
cells above the world top are untouched zeroes. -/
def ChunkMapsInv (reg : Registry) (c : Chunk) : Prop :=
  ∀ x z : Fin 16,
    HeightInv (fun v => v == 0) (fun y => c.voxels x z y) (c.heightmap x z) ∧
    HeightInv (fun v => !reg.solid v) (fun y => c.voxels x z y) (c.light_map x z) ∧
    (∀ y, kWorldHeight ≤ y → c.voxels x z y = 0)

/-- Structural invariant of a column's run list: tops strictly increase
from `lo`, stay within the world height, and `last` is the final top. -/
def RunsBounded : List (Int × Nat) → Nat → Nat → Prop
  | [], lo, last => last = lo
  | (_, l) :: t, lo, last => lo < l ∧ l ≤ kWorldHeight ∧ RunsBounded t l last

/-- The column scratch states reachable by `push`/`overwrite` from a
cleared column: bounded increasing runs and in-range decorations. -/
def ColumnWF (c : ColumnSt) : Prop :=
  RunsBounded c.data 0 c.last ∧ ∀ d ∈ c.decorations, d.2 < kWorldHeight

/-- The chunk used by the C2 counterexample: a freshly loaded all-empty
chunk hit by a degenerate `setColumn` with `count = 0` (which writes no
voxel but still runs the heightmap update with `end = start`). -/
def cexC2Chunk : Chunk :=
  Chunk.setColumn regDefault
    (Chunk.load regDefault emptyLoader 0 0 Column.initSt).1 0 0 3 0 1

/-- The chain of per-level frontier circle centers: processing levels in
order, each level's stored center must equal the successively halved
(`>> 1`) chunk coordinates, as `Frontier.center` maintains. -/
def CentersConsistent (f : Frontier) : Int → Int → List Nat → Prop
  | _, _, [] => True
  | a, b, l :: rest =>
    (f.levels l).center_x = Int.fdiv a 2 ∧ (f.levels l).center_z = Int.fdiv b 2 ∧
    CentersConsistent f (Int.fdiv a 2) (Int.fdiv b 2) rest

/-- Well-formedness of the chunk circle, as the source's assert-guarded
usage maintains it: the slot grid covers the point square, the point
offsets lie within the floor radius, and every stored element sits at its
own hashed slot with coordinates inside the current disk square. -/
def Circle.wf (c : Circle Chunk) : Prop :=
  (2 * c.fl + 1 ≤ 2 ^ c.shift) ∧
  (∀ p ∈ c.points, p.1.natAbs ≤ c.fl ∧ p.2.natAbs ≤ c.fl) ∧
  (∀ i ch, c.elements i = some ch →
    c.index ch.cx ch.cz = i ∧
    (ch.cx - c.center_x).natAbs ≤ c.fl ∧ (ch.cz - c.center_z).natAbs ≤ c.fl)

/-- A fresh world with a trivial loader installed, used to exhibit the
chunk `recenter` loads at an unchanged center. -/
def wLoadedC4 : World := (World.init regDefault).setLoader 1 emptyLoader

/-- A `Timing` state whose three callback slots have all been replaced by
the post-error no-ops. -/
def Silenced (s : TimingSt) : Prop :=
  s.remeshOrig = false ∧ s.renderOrig = false ∧ s.updateOrig = false

/-- The trace property of claim C9: after any invocation that threw, every
later invocation goes through a replaced (non-original) callback slot. -/
def TracePost (t : List TraceEntry) : Prop :=
  ∀ (t₁ : List TraceEntry) (e : TraceEntry) (t₂ : List TraceEntry),
    t = t₁ ++ e :: t₂ → e.threw = true → ∀ e' ∈ t₂, e'.original = false

/-- A concrete level circle for the C3 analysis: two slots, both occupied
by existing (never-meshed) frontier tiles at their own coordinates. -/
def lodCircle2 : Circle FrontierChunk :=
  { center_x := 0
    center_z := 0
    fl := 1
    deltas := fun _ => 1
    points := [(0, 0), (1, 0)]
    shift := 2
    elements := fun i =>
      if i = 0 then some { cx := 0, cz := 0, level := 0, meshKey := 0 }
      else if i = 1 then some { cx := 1, cz := 0, level := 0, meshKey := 0 }
      else none }

/-- A frontier whose level 0 is dirty and holds `lodCircle2`: both of its
tiles are existing, shown (child mask 0 ≠ 15) and meshless (their shared
multi-mesh exists but neither quadrant is meshed), so with a frontier
loader present the LOD pass runs `createLODMeshes` for each of them with no
budget check, and each quadrant is meshed before its `show`. -/
def lodFrontier2 : Frontier :=
  { dirty := fun l => decide (l = 0)
    levels := fun _ => lodCircle2
    meshes := fun k => if k = 0 then some LODMultiMesh.init else none
    side := 4 }

/-! ## Ghost semantics for the equi-level analysis (C1) -/

/-- The block a sealed run list holds at height `y`: the first run whose
top exceeds `y` covers it; an exhausted list reads as empty. -/
def runsBlockAt : List (Int × Nat) → Nat → Int
  | [], _ => kEmptyBlock
  | (b, t) :: rest, y => if y < t then b else runsBlockAt rest y

/-- Run lists with strictly increasing tops that start above `s` and end
exactly at `kWorldHeight` (the shape `detectEquiLevelChanges` asserts on
the sealed lists it walks). -/
def covers : Nat → List (Int × Nat) → Prop
  | s, [] => s = kWorldHeight
  | s, (_, t) :: rest => s < t ∧ covers t rest

/-- The part of the walk flip deltas that lands at heights `≤ y`: the
walk contribution to the mismatch prefix sum at `y`.  Mirrors `walkLoop`
branch for branch. -/
def walkDeltaP : Nat → List (Int × Nat) → List (Int × Nat) → Bool → Nat →
    Nat → Nat → Int
  | fuel + 1, (db, dl) :: dt, (rb, rl) :: rt, matched, ds, rs, y =>
    let flip : Bool := matched != (db == rb)
    let h := max ds rs
    let c : Int := if flip = true ∧ h ≤ y then (if matched then 1 else -1) else 0
    let matched2 := if flip then !matched else matched
    c + (if dl ≤ rl then
        if rl ≤ dl then walkDeltaP fuel dt rt matched2 dl rl y
        else walkDeltaP fuel dt ((rb, rl) :: rt) matched2 dl rs y
      else walkDeltaP fuel ((db, dl) :: dt) rt matched2 ds rl y)
  | _, _, _, _, _, _, _ => 0

/-- How many decorations of a column sit at level `y`. -/
def decCount (ds : List (Int × Nat)) (y : Nat) : Nat :=
  ds.countP (fun d => d.2 == y)

/-- The sealed run list `detectEquiLevelChanges` walks and snapshots. -/
def sealedRuns (c : ColumnSt) : List (Int × Nat) :=
  if c.last < kWorldHeight then c.data ++ [(kEmptyBlock, kWorldHeight)]
  else c.data

/-- The column scratch a loader call sequence produces from a cleared
scratch. -/
def colOf (ops : List ColOp) : ColumnSt := Column.applyOps Column.initSt ops

/-- `∀ h, |m h| ≤ B`: the wrap-free range invariant for the mismatch
counters. -/
def Bnd (B : Int) (m : Nat → Int) : Prop := ∀ h, -B ≤ m h ∧ m h ≤ B

/-- One column contribution to the mismatch prefix sum at height `y` (for
a column processed with `first = false` against reference `R`): its
decorations at `y` plus the run-mismatch indicator against `R`. -/
def colScoreAt (R : List (Int × Nat)) (ops : List ColOp) (y : Nat) : Nat :=
  decCount (colOf ops).decorations y +
    (if runsBlockAt (sealedRuns (colOf ops)) y == runsBlockAt R y then 0 else 1)

/-- The loader of the C1 counterexample: column (0, 1) receives 2^16
single-level overwrites (wrapping the Int16 mismatch counters back to 0),
every other column nothing. -/
def cexC1Loader : Int → Int → List ColOp :=
  fun a b =>
    if a = 0 ∧ b = 1 then List.replicate 65536 (ColOp.overwrite 7 5) else []

/-- The column scratch state between columns of the C1 counterexample run:
cleared, zero mismatch counters, reference = the sealed all-empty column. -/
def cexC1Scratch : ColumnSt :=
  { data := [], last := 0, decorations := [], mismatches := fun _ => 0,
    reference := [(kEmptyBlock, kWorldHeight)] }

-- THEOREMS-START (all declarations below this line are theorems)

/-! ## Shared helper lemmas -/

theorem shiftLoop_ge (bound : Nat) : ∀ (fuel s : Nat), bound ≤ 2 ^ s + fuel →
    bound ≤ 2 ^ shiftLoop bound fuel s := by
  intro fuel
  induction fuel with
  | zero =>
    intro s h
    simpa [shiftLoop] using h
  | succ f ih =>
    intro s h
    rw [shiftLoop]
    split
    · apply ih
      have h1 : 2 ^ s + 1 ≤ 2 ^ (s + 1) := by
        have h2 : 1 ≤ 2 ^ s := Nat.one_le_two_pow
        calc 2 ^ s + 1 ≤ 2 ^ s + 2 ^ s := by omega
        _ = 2 ^ (s + 1) := by rw [Nat.pow_succ]; omega
      omega
    · omega

theorem mkCircle_shift (T : Type) (r : JSNum) :
    (mkCircle T r).shift =
      shiftLoop (2 * r.floor.toNat + 1) (2 * r.floor.toNat + 1) 0 := rfl

theorem mkCircle_fl (T : Type) (r : JSNum) :
    (mkCircle T r).fl = r.floor.toNat := rfl

/-- For a positive denominator, `JSNum.floor` is the rational floor. -/
theorem JSNum.floor_eq (n : JSNum) (h : 0 < n.den) :
    n.floor = Int.floor n.toQ := by
  have hq : (0 : ℚ) < (n.den : ℚ) := by exact_mod_cast h
  have h1 := Int.fdiv_add_fmod n.num n.den
  have h2 := Int.fmod_nonneg' n.num h
  have h3 := Int.fmod_lt_of_pos n.num h
  symm
  rw [Int.floor_eq_iff]
  constructor
  · rw [JSNum.toQ, le_div_iff₀ hq]
    have h4 : n.den * n.floor ≤ n.num := by
      rw [JSNum.floor]
      omega
    have h5 : ((n.den * n.floor : Int) : ℚ) ≤ (n.num : ℚ) := by exact_mod_cast h4
    push_cast at h5
    nlinarith [h5]
  · rw [JSNum.toQ, div_lt_iff₀ hq]
    have h4 : n.num < n.den * (n.floor + 1) := by
      rw [JSNum.floor]
      nlinarith [h1]
    have h5 : (n.num : ℚ) < ((n.den * (n.floor + 1) : Int) : ℚ) := by exact_mod_cast h4
    push_cast at h5
    nlinarith [h5]

/-- The constructor's cross-multiplied disk test agrees with the rational
`distance ≤ radius²`. -/
theorem JSNum.le_sq_iff (x : Int) (n : JSNum) (h : 0 < n.den) :
    (x * n.den ^ 2 ≤ n.num ^ 2) ↔ ((x : ℚ) ≤ n.toQ ^ 2) := by
  have hq : (0 : ℚ) < ((n.den : ℚ)) ^ 2 := by positivity
  rw [JSNum.toQ, div_pow, le_div_iff₀ hq]
  constructor
  · intro h'
    have h2 : ((x * n.den ^ 2 : Int) : ℚ) ≤ ((n.num ^ 2 : Int) : ℚ) := by
      exact_mod_cast h'
    push_cast at h2
    nlinarith [h2]
  · intro h'
    have h2 : ((x * n.den ^ 2 : Int) : ℚ) ≤ ((n.num ^ 2 : Int) : ℚ) := by
      push_cast
      nlinarith [h']
    exact_mod_cast h2

/-- A coordinate delta whose square is at most `r²` has absolute value at
most `⌊r⌋`. -/
theorem disk_abs_le (d : Int) (r : ℚ) (hr : 0 ≤ r) (h : (d : ℚ) ^ 2 ≤ r ^ 2) :
    d.natAbs ≤ (Int.floor r).toNat := by
  have h1 : (d : ℚ) ≤ r := by nlinarith [sq_nonneg ((d : ℚ) - r), sq_nonneg ((d : ℚ) + r)]
  have h2 : -r ≤ (d : ℚ) := by nlinarith [sq_nonneg ((d : ℚ) - r), sq_nonneg ((d : ℚ) + r)]
  have h3 : d ≤ Int.floor r := Int.le_floor.mpr h1
  have h4 : -d ≤ Int.floor r := Int.le_floor.mpr (by push_cast; linarith)
  omega

/-- Injectivity of the torus hash on any square patch of side `2·fl + 1`
that fits inside the `2^shift`-periodic grid. -/
theorem circleIndex_inj {T : Type} (c : Circle T) (ccx ccz : Int)
    (hsh : 2 * c.fl + 1 ≤ 2 ^ c.shift)
    {cx1 cz1 cx2 cz2 : Int}
    (b1x : (cx1 - ccx).natAbs ≤ c.fl) (b1z : (cz1 - ccz).natAbs ≤ c.fl)
    (b2x : (cx2 - ccx).natAbs ≤ c.fl) (b2z : (cz2 - ccz).natAbs ≤ c.fl)
    (he : c.index cx1 cz1 = c.index cx2 cz2) : cx1 = cx2 ∧ cz1 = cz2 := by
  unfold Circle.index at he
  set m : Int := (2 ^ c.shift : Int) with hm
  have hmpos : (0 : Int) < m := by positivity
  have hmn : ∀ a : Int, 0 ≤ a % m ∧ a % m < m := fun a =>
    ⟨Int.emod_nonneg a (by omega), Int.emod_lt_of_pos a hmpos⟩
  have hcast : ((2 ^ c.shift : Nat) : Int) = m := by push_cast [hm]; ring
  have hltn : ∀ a : Int, (a % m).toNat < 2 ^ c.shift := by
    intro a
    have := hmn a
    omega
  have hz : (cz1 % m).toNat = (cz2 % m).toNat ∧
      (cx1 % m).toNat = (cx2 % m).toNat := by
    have e1 : ((cz1 % m).toNat * 2 ^ c.shift + (cx1 % m).toNat) % 2 ^ c.shift
        = (cx1 % m).toNat := by
      rw [Nat.add_comm, Nat.add_mul_mod_self_right, Nat.mod_eq_of_lt (hltn cx1)]
    have e2 : ((cz2 % m).toNat * 2 ^ c.shift + (cx2 % m).toNat) % 2 ^ c.shift
        = (cx2 % m).toNat := by
      rw [Nat.add_comm, Nat.add_mul_mod_self_right, Nat.mod_eq_of_lt (hltn cx2)]
    have hx : (cx1 % m).toNat = (cx2 % m).toNat := by rw [← e1, ← e2, he]
    have hmul : (cz1 % m).toNat * 2 ^ c.shift = (cz2 % m).toNat * 2 ^ c.shift := by
      omega
    have hzz : (cz1 % m).toNat = (cz2 % m).toNat :=
      Nat.eq_of_mul_eq_mul_right (by positivity) hmul
    exact ⟨hzz, hx⟩
  have hsmall : ∀ cc a b : Int, a % m = b % m → (a - cc).natAbs ≤ c.fl →
      (b - cc).natAbs ≤ c.fl → a = b := by
    intro cc a b hab ha hb
    have hdvd : m ∣ b - a := Int.ModEq.dvd hab
    rcases hdvd with ⟨k, hk⟩
    have hbound : |b - a| < m := by
      have hfl : (2 * (c.fl : Int) + 1) ≤ m := by
        have hc : ((2 * c.fl + 1 : Nat) : Int) ≤ ((2 ^ c.shift : Nat) : Int) := by
          exact_mod_cast hsh
        omega
      rw [abs_lt]
      omega
    by_contra hne
    have hk0 : k ≠ 0 := by
      rintro rfl
      simp at hk
      omega
    have h1 : 1 ≤ |k| := Int.one_le_abs hk0
    have : m ≤ |b - a| := by
      rw [hk, abs_mul, abs_of_pos hmpos]
      nlinarith
    omega
  have hx' : cx1 % m = cx2 % m := by
    have h1 := hmn cx1
    have h2 := hmn cx2
    have h3 := hz.2
    omega
  have hz' : cz1 % m = cz2 % m := by
    have h1 := hmn cz1
    have h2 := hmn cz2
    have h3 := hz.1
    omega
  exact ⟨hsmall ccx cx1 cx2 hx' b1x b2x, hsmall ccz cz1 cz2 hz' b1z b2z⟩

/-! ## C5: the torus hash separates live members of the disk -/

/-- C5: for a circle of radius `r`, any two distinct coordinate pairs that
both lie within the disk of radius `r` around the current center hash to
distinct slots; `Circle.get(cx,cz)` returns an element only if its own
coordinates are exactly `(cx,cz)`; and under the storage invariant that
every live element sits at the slot its coordinates hash to, no two live
elements share a coordinate pair. -/
theorem c5_torus_hash (T : Type) [CircleElement T] (r : JSNum)
    (hden : 0 < r.den) (hr : 0 ≤ r.toQ) (ccx ccz : Int) :
    (∀ cx1 cz1 cx2 cz2 : Int,
      ((cx1 - ccx : Int) : ℚ) ^ 2 + ((cz1 - ccz : Int) : ℚ) ^ 2 ≤ r.toQ ^ 2 →
      ((cx2 - ccx : Int) : ℚ) ^ 2 + ((cz2 - ccz : Int) : ℚ) ^ 2 ≤ r.toQ ^ 2 →
      (cx1, cz1) ≠ (cx2, cz2) →
      (mkCircle T r).index cx1 cz1 ≠ (mkCircle T r).index cx2 cz2) ∧
    (∀ (c : Circle T) (cx cz : Int) (v : T), c.get cx cz = some v →
      CircleElement.cxOf v = cx ∧ CircleElement.czOf v = cz) ∧
    (∀ (c : Circle T),
      (∀ s t, c.elements s = some t →
        s = c.index (CircleElement.cxOf t) (CircleElement.czOf t)) →
      ∀ s1 s2 t1 t2, c.elements s1 = some t1 → c.elements s2 = some t2 →
        CircleElement.cxOf t1 = CircleElement.cxOf t2 →
        CircleElement.czOf t1 = CircleElement.czOf t2 → s1 = s2) := by
  refine ⟨?_, ?_, ?_⟩
  · intro cx1 cz1 cx2 cz2 h1 h2 hne he
    have hsq : ∀ d : Int, (0 : ℚ) ≤ ((d : Int) : ℚ) ^ 2 := fun d => sq_nonneg _
    have hflq : (mkCircle T r).fl = (Int.floor r.toQ).toNat := by
      rw [mkCircle_fl, JSNum.floor_eq r hden]
    have b1x : (cx1 - ccx).natAbs ≤ (mkCircle T r).fl := by
      rw [hflq]
      exact disk_abs_le _ r.toQ hr (by nlinarith [hsq (cz1 - ccz)])
    have b1z : (cz1 - ccz).natAbs ≤ (mkCircle T r).fl := by
      rw [hflq]
      exact disk_abs_le _ r.toQ hr (by nlinarith [hsq (cx1 - ccx)])
    have b2x : (cx2 - ccx).natAbs ≤ (mkCircle T r).fl := by
      rw [hflq]
      exact disk_abs_le _ r.toQ hr (by nlinarith [hsq (cz2 - ccz)])
    have b2z : (cz2 - ccz).natAbs ≤ (mkCircle T r).fl := by
      rw [hflq]
      exact disk_abs_le _ r.toQ hr (by nlinarith [hsq (cx2 - ccx)])
    have hsh : 2 * (mkCircle T r).fl + 1 ≤ 2 ^ (mkCircle T r).shift := by
      rw [mkCircle_fl, mkCircle_shift]
      exact shiftLoop_ge _ _ 0 (by omega)
    clear hflq
    have := circleIndex_inj (mkCircle T r) ccx ccz hsh b1x b1z b2x b2z he
    exact hne (by simp [this.1, this.2])
  · intro c cx cz v hget
    unfold Circle.get at hget
    rcases hel : c.elements (c.index cx cz) with _ | t
    · rw [hel] at hget
      simp at hget
    · rw [hel] at hget
      by_cases hc : CircleElement.cxOf t = cx ∧ CircleElement.czOf t = cz
      · simp [hc] at hget
        rw [← hget]
        exact hc
      · simp [hc] at hget
  · intro c hinv s1 s2 t1 t2 h1 h2 hx hz
    have e1 := hinv s1 t1 h1
    have e2 := hinv s2 t2 h2
    rw [e1, e2, hx, hz]

/-! ## The downward scan and the incremental height update (claim C2) -/

theorem scanDown_spec (p : Int → Bool) (col : Nat → Int) (s : Nat) :
    scanDown p col s ≤ s ∧
    (∀ y, scanDown p col s ≤ y → y < s → p (col y) = true) ∧
    (scanDown p col s = 0 ∨ p (col (scanDown p col s - 1)) = false) := by
  induction s with
  | zero => exact ⟨le_refl 0, fun y h1 h2 => absurd h2 (by omega), Or.inl rfl⟩
  | succ n ih =>
    rw [scanDown]
    by_cases hc : p (col n) = true
    · rw [if_pos hc]
      refine ⟨by omega, ?_, ih.2.2⟩
      intro y h1 h2
      by_cases hy : y < n
      · exact ih.2.1 y h1 hy
      · have hyn : y = n := by omega
        rw [hyn]
        exact hc
    · rw [if_neg hc]
      refine ⟨le_refl _, fun y h1 h2 => absurd h1 (by omega), Or.inr ?_⟩
      simpa using hc

theorem updateHeight_preserves (p : Int → Bool) (col col' : Nat → Int)
    (start count : Nat) (b : Int)
    (hcnt : 1 ≤ count) (hrange : start + count ≤ kWorldHeight)
    (hcol' : ∀ y, col' y = if start ≤ y ∧ y < start + count then b else col y)
    (h : Nat) (hinv : HeightInv p col h) :
    HeightInv p col' (updateHeight p col' start count b h) := by
  obtain ⟨hle, habove, hbound⟩ := hinv
  unfold updateHeight
  by_cases hpb : p b = true
  · rw [if_pos hpb]
    by_cases hcase : start < h ∧ h ≤ start + count
    · rw [if_pos hcase]
      obtain ⟨hs1, hs2, hs3⟩ := scanDown_spec p col' start
      have habs : ∀ y, start ≤ y → p (col' y) = true := by
        intro y hy
        rw [hcol' y]
        by_cases hin : start ≤ y ∧ y < start + count
        · rw [if_pos hin]
          exact hpb
        · rw [if_neg hin]
          exact habove y (by omega)
      refine ⟨by omega, ?_, hs3⟩
      intro y hy
      by_cases hys : y < start
      · exact hs2 y hy hys
      · exact habs y (by omega)
    · rw [if_neg hcase]
      refine ⟨hle, ?_, ?_⟩
      · intro y hy
        rw [hcol' y]
        by_cases hin : start ≤ y ∧ y < start + count
        · rw [if_pos hin]
          exact hpb
        · rw [if_neg hin]
          exact habove y hy
      · by_cases h0 : h = 0
        · exact Or.inl h0
        · right
          rcases hbound with h0' | hb
          · exact absurd h0' h0
          · rw [hcol' (h - 1), if_neg (by omega)]
            exact hb
  · rw [if_neg hpb]
    have hpb' : p b = false := by simpa using hpb
    by_cases hcase : h ≤ start + count
    · rw [if_pos hcase]
      refine ⟨hrange, ?_, Or.inr ?_⟩
      · intro y hy
        rw [hcol' y, if_neg (by omega)]
        exact habove y (by omega)
      · rw [hcol' (start + count - 1), if_pos (by omega)]
        exact hpb'
    · rw [if_neg hcase]
      refine ⟨hle, ?_, ?_⟩
      · intro y hy
        rw [hcol' y, if_neg (by omega)]
        exact habove y hy
      · rcases hbound with h0 | hb
        · exact Or.inl h0
        · right
          rw [hcol' (h - 1), if_neg (by omega)]
          exact hb

/-- The invariant-to-claim bridge: the maintained form pins `h` as the
smallest cutoff. -/
theorem heightInv_isSmallest (p : Int → Bool) (col : Nat → Int) (h : Nat)
    (hinv : HeightInv p col h) : IsSmallestFrom p col h := by
  obtain ⟨hle, habove, hbound⟩ := hinv
  constructor
  · intro y _ hy
    exact habove y hy
  · intro h' hlt habs
    rcases hbound with h0 | hb
    · omega
    · have hcell := habs (h - 1) (by omega) (by omega)
      rw [hcell] at hb
      cases hb

/-- Preservation of the per-chunk maps invariant through one
`updateHeightmap` call, for any chunk whose voxels are the base chunk's
with one in-range column range filled in. -/
theorem updateHeightmap_inv (reg : Registry) (c1 : Chunk) (xm zm : Fin 16)
    (start count : Nat) (b : Int)
    (hcnt : 1 ≤ count) (hrange : start + count ≤ kWorldHeight)
    (base : Chunk) (hbase : ChunkMapsInv reg base)
    (hvox : ∀ (x' z' : Fin 16) (y : Nat),
      c1.voxels x' z' y = writeRange base.voxels xm zm start count b x' z' y)
    (hhm : c1.heightmap = base.heightmap) (hlm : c1.light_map = base.light_map) :
    ChunkMapsInv reg (Chunk.updateHeightmap reg c1 xm zm start count b) := by
  intro x' z'
  by_cases hxz : x' = xm ∧ z' = zm
  · obtain ⟨hx, hz⟩ := hxz
    subst hx
    subst hz
    obtain ⟨hH, hL, hC⟩ := hbase x' z'
    have hcol' : ∀ y, c1.voxels x' z' y =
        if start ≤ y ∧ y < start + count then b else base.voxels x' z' y := by
      intro y
      rw [hvox x' z' y, writeRange]
      by_cases hr : start ≤ y ∧ y < start + count
      · rw [if_pos ⟨rfl, rfl, hr.1, hr.2⟩, if_pos hr]
      · rw [if_neg (by tauto), if_neg hr]
    have comp1 : HeightInv (fun v => v == 0) (fun y => c1.voxels x' z' y)
        (upd2 c1.heightmap x' z'
          (updateHeight (fun v => v == 0) (fun y => c1.voxels x' z' y)
            start count b (c1.heightmap x' z')) x' z') := by
      rw [show upd2 c1.heightmap x' z'
          (updateHeight (fun v => v == 0) (fun y => c1.voxels x' z' y)
            start count b (c1.heightmap x' z')) x' z' =
          updateHeight (fun v => v == 0) (fun y => c1.voxels x' z' y)
            start count b (c1.heightmap x' z') by rw [upd2, if_pos ⟨rfl, rfl⟩]]
      rw [hhm]
      exact updateHeight_preserves _ _ _ start count b hcnt hrange hcol' _ hH
    have comp2 : HeightInv (fun v => !reg.solid v) (fun y => c1.voxels x' z' y)
        (upd2 c1.light_map x' z'
          (updateHeight (fun v => !reg.solid v) (fun y => c1.voxels x' z' y)
            start count b (c1.light_map x' z')) x' z') := by
      rw [show upd2 c1.light_map x' z'
          (updateHeight (fun v => !reg.solid v) (fun y => c1.voxels x' z' y)
            start count b (c1.light_map x' z')) x' z' =
          updateHeight (fun v => !reg.solid v) (fun y => c1.voxels x' z' y)
            start count b (c1.light_map x' z') by rw [upd2, if_pos ⟨rfl, rfl⟩]]
      rw [hlm]
      exact updateHeight_preserves _ _ _ start count b hcnt hrange hcol' _ hL
    have comp3 : ∀ y, kWorldHeight ≤ y → c1.voxels x' z' y = 0 := by
      intro y hy
      rw [hcol' y, if_neg (by omega)]
      exact hC y hy
    exact ⟨comp1, comp2, comp3⟩
  · obtain ⟨hH, hL, hC⟩ := hbase x' z'
    have hfun : (fun y => c1.voxels x' z' y) = fun y => base.voxels x' z' y := by
      funext y
      rw [hvox x' z' y, writeRange, if_neg (by tauto)]
    have comp1 : HeightInv (fun v => v == 0) (fun y => c1.voxels x' z' y)
        (upd2 c1.heightmap xm zm
          (updateHeight (fun v => v == 0) (fun y => c1.voxels xm zm y)
            start count b (c1.heightmap xm zm)) x' z') := by
      rw [show upd2 c1.heightmap xm zm
          (updateHeight (fun v => v == 0) (fun y => c1.voxels xm zm y)
            start count b (c1.heightmap xm zm)) x' z' = c1.heightmap x' z' by
        rw [upd2, if_neg hxz]]
      rw [hfun, hhm]
      exact hH
    have comp2 : HeightInv (fun v => !reg.solid v) (fun y => c1.voxels x' z' y)
        (upd2 c1.light_map xm zm
          (updateHeight (fun v => !reg.solid v) (fun y => c1.voxels xm zm y)
            start count b (c1.light_map xm zm)) x' z') := by
      rw [show upd2 c1.light_map xm zm
          (updateHeight (fun v => !reg.solid v) (fun y => c1.voxels xm zm y)
            start count b (c1.light_map xm zm)) x' z' = c1.light_map x' z' by
        rw [upd2, if_neg hxz]]
      rw [hfun, hlm]
      exact hL
    have comp3 : ∀ y, kWorldHeight ≤ y → c1.voxels x' z' y = 0 := by
      intro y hy
      have := congrFun hfun y
      rw [this]
      exact hC y hy
    exact ⟨comp1, comp2, comp3⟩

theorem setColumn_maps_inv (reg : Registry) (c : Chunk)
    (hc : ChunkMapsInv reg c) (x z : Int) (start count : Nat) (b : Int)
    (hcnt : 1 ≤ count) (hrange : start + count ≤ kWorldHeight) :
    ChunkMapsInv reg (Chunk.setColumn reg c x z start count b) := by
  show ChunkMapsInv reg (Chunk.updateHeightmap reg
    { c with voxels := writeRange c.voxels (cmask x) (cmask z) start count b }
    (cmask x) (cmask z) start count b)
  exact updateHeightmap_inv reg _ (cmask x) (cmask z) start count b hcnt hrange
    c hc (fun _ _ _ => rfl) rfl rfl

theorem setBlockLocal_maps_inv (reg : Registry) (c : Chunk)
    (hc : ChunkMapsInv reg c) (x : Int) (y : Nat) (z : Int) (b : Int)
    (hy : y < kWorldHeight) :
    ChunkMapsInv reg (Chunk.setBlockLocal reg c x y z b) := by
  unfold Chunk.setBlockLocal
  by_cases hv : c.voxels (cmask x) (cmask z) y = b
  · rw [if_pos hv]
    exact hc
  · rw [if_neg hv]
    intro x' z'
    exact updateHeightmap_inv reg
      { c with voxels := writeRange c.voxels (cmask x) (cmask z) y 1 b,
               dirty := true }
      (cmask x) (cmask z) y 1 b (le_refl 1) (by omega) c hc
      (fun _ _ _ => rfl) rfl rfl x' z'

theorem applyChunkOps_maps_inv (reg : Registry) (ops : List ChunkOp) :
    ∀ (c : Chunk), ChunkMapsInv reg c → (∀ op ∈ ops, ChunkOpWF op) →
    ChunkMapsInv reg (applyChunkOps reg c ops) := by
  induction ops with
  | nil => intro c hc _; exact hc
  | cons op rest ih =>
    intro c hc hwf
    have hstep : ChunkMapsInv reg (applyChunkOp reg c op) := by
      cases op with
      | setBlock x y z b =>
        exact setBlockLocal_maps_inv reg c hc x y z b
          (hwf _ (List.mem_cons_self _ _))
      | setColumn x z s n b =>
        have h := hwf _ (List.mem_cons_self _ _)
        exact setColumn_maps_inv reg c hc x z s n b h.1 h.2
    exact ih _ hstep (fun o ho => hwf o (List.mem_cons_of_mem _ ho))

/-! ## The loader path establishes the maps invariant (claim C2) -/

theorem chunkInit_maps_inv (reg : Registry) (hs0 : reg.solid 0 = false)
    (cx cz : Int) : ChunkMapsInv reg (Chunk.init cx cz) := by
  intro x z
  refine ⟨⟨Nat.zero_le _, fun y _ => rfl, Or.inl rfl⟩,
          ⟨Nat.zero_le _, fun y _ => ?_, Or.inl rfl⟩,
          fun y _ => rfl⟩
  show (!reg.solid 0) = true
  rw [hs0]
  rfl

theorem runsBounded_append (l : List (Int × Nat)) :
    ∀ lo last, RunsBounded l lo last → ∀ (b : Int) (h : Nat),
    last < h → h ≤ kWorldHeight → RunsBounded (l ++ [(b, h)]) lo h := by
  induction l with
  | nil =>
    intro lo last hr b h h1 h2
    have hr' : last = lo := hr
    show lo < h ∧ h ≤ kWorldHeight ∧ RunsBounded [] h h
    exact ⟨by omega, h2, rfl⟩
  | cons hd tl ih =>
    intro lo last hr b h h1 h2
    obtain ⟨bb, ll⟩ := hd
    have hr' : lo < ll ∧ ll ≤ kWorldHeight ∧ RunsBounded tl ll last := hr
    show lo < ll ∧ ll ≤ kWorldHeight ∧ RunsBounded (tl ++ [(b, h)]) ll h
    exact ⟨hr'.1, hr'.2.1, ih ll last hr'.2.2 b h h1 h2⟩

theorem columnWF_push (c : ColumnSt) (hc : ColumnWF c) (b h : Int) :
    ColumnWF (Column.push c b h) := by
  by_cases hle : min h (kWorldHeight : Int) ≤ (c.last : Int)
  · simp only [Column.push, if_pos hle]
    exact hc
  · simp only [Column.push, if_neg hle]
    refine ⟨?_, hc.2⟩
    have hk : ((kWorldHeight : Nat) : Int) = 256 := rfl
    have hk2 : kWorldHeight = 256 := rfl
    exact runsBounded_append _ _ _ hc.1 _ _ (by omega) (by omega)

theorem columnWF_overwrite (c : ColumnSt) (hc : ColumnWF c) (b y : Int) :
    ColumnWF (Column.overwrite c b y) := by
  by_cases hr : 0 ≤ y ∧ y < (kWorldHeight : Int)
  · simp only [Column.overwrite, if_pos hr]
    refine ⟨hc.1, ?_⟩
    intro d hd
    rcases List.mem_append.mp hd with h | h
    · exact hc.2 d h
    · rcases List.mem_singleton.mp h with rfl
      show y.toNat < kWorldHeight
      omega
  · simp only [Column.overwrite, if_neg hr]
    exact hc

theorem columnWF_applyOps (ops : List ColOp) :
    ∀ c, ColumnWF c → ColumnWF (Column.applyOps c ops) := by
  induction ops with
  | nil => intro c hc; exact hc
  | cons op rest ih =>
    intro c hc
    cases op with
    | push b h => exact ih _ (columnWF_push c hc b h)
    | overwrite b y => exact ih _ (columnWF_overwrite c hc b y)

theorem columnWF_clear (c : ColumnSt) : ColumnWF (Column.clear c) :=
  ⟨rfl, fun d hd => absurd hd (List.not_mem_nil d)⟩

theorem columnWF_initSt : ColumnWF Column.initSt :=
  ⟨rfl, fun d hd => absurd hd (List.not_mem_nil d)⟩

theorem runsFold_maps_inv (reg : Registry) (x z : Int)
    (data : List (Int × Nat)) :
    ∀ (lo last : Nat) (ch : Chunk), RunsBounded data lo last →
    ChunkMapsInv reg ch →
    ChunkMapsInv reg (data.foldl (fun (acc : Chunk × Nat) br =>
      (Chunk.setColumn reg acc.1 x z acc.2 (br.2 - acc.2) br.1, br.2))
      (ch, lo)).1 := by
  induction data with
  | nil =>
    intro lo last ch _ hch
    exact hch
  | cons hd tl ih =>
    intro lo last ch hr hch
    obtain ⟨b, l⟩ := hd
    have hr' : lo < l ∧ l ≤ kWorldHeight ∧ RunsBounded tl l last := hr
    obtain ⟨h1, h2, h3⟩ := hr'
    rw [List.foldl_cons]
    exact ih l last _ h3
      (setColumn_maps_inv reg ch hch x z lo (l - lo) b (by omega) (by omega))

theorem decorFold_maps_inv (reg : Registry) (x z : Int)
    (ds : List (Int × Nat)) :
    ∀ ch, ChunkMapsInv reg ch → (∀ d ∈ ds, d.2 < kWorldHeight) →
    ChunkMapsInv reg
      (ds.foldl (fun ch d => Chunk.setColumn reg ch x z d.2 1 d.1) ch) := by
  induction ds with
  | nil => intro ch hch _; exact hch
  | cons d rest ih =>
    intro ch hch hds
    rw [List.foldl_cons]
    refine ih _ ?_ (fun d' hd' => hds d' (List.mem_cons_of_mem _ hd'))
    have hd := hds d (List.mem_cons_self _ _)
    exact setColumn_maps_inv reg ch hch x z d.2 1 d.1 (le_refl 1) (by omega)

theorem fillChunk_maps_inv (reg : Registry) (col : ColumnSt)
    (hwf : ColumnWF col) (x z : Int) (ch : Chunk)
    (hch : ChunkMapsInv reg ch) (first : Bool) :
    ChunkMapsInv reg (Column.fillChunk col reg x z ch first).1 := by
  show ChunkMapsInv reg (col.decorations.foldl
    (fun ch d => Chunk.setColumn reg ch x z d.2 1 d.1)
    (col.data.foldl (fun (acc : Chunk × Nat) br =>
      (Chunk.setColumn reg acc.1 x z acc.2 (br.2 - acc.2) br.1, br.2))
      (ch, 0)).1)
  exact decorFold_maps_inv reg x z col.decorations _
    (runsFold_maps_inv reg x z col.data 0 col.last ch hwf.1 hch) hwf.2

theorem loadStep_inv (reg : Registry) (loader : Int → Int → List ColOp)
    (cx cz : Int) (acc : Chunk × ColumnSt) (xz : Nat × Nat)
    (h1 : ChunkMapsInv reg acc.1) (h2 : ColumnWF acc.2) :
    ChunkMapsInv reg (Chunk.loadStep reg loader cx cz acc xz).1 ∧
    ColumnWF (Chunk.loadStep reg loader cx cz acc xz).2 := by
  constructor
  · show ChunkMapsInv reg (Column.fillChunk
      (Column.applyOps acc.2 (loader (cx * 16 + (xz.1 : Int)) (cz * 16 + (xz.2 : Int))))
      reg (cx * 16 + (xz.1 : Int)) (cz * 16 + (xz.2 : Int)) acc.1
      (decide (xz.1 + xz.2 = 0))).1
    exact fillChunk_maps_inv reg _ (columnWF_applyOps _ _ h2) _ _ _ h1 _
  · exact columnWF_clear _

theorem foldl_pred_inv {α β : Type} (P : β → Prop) (f : β → α → β)
    (hstep : ∀ b a, P b → P (f b a)) :
    ∀ (l : List α) (b : β), P b → P (l.foldl f b) := by
  intro l
  induction l with
  | nil => intro b hb; exact hb
  | cons a rest ih =>
    intro b hb
    rw [List.foldl_cons]
    exact ih _ (hstep b a hb)

theorem load_maps_inv (reg : Registry) (hs0 : reg.solid 0 = false)
    (loader : Int → Int → List ColOp) (cx cz : Int) (col0 : ColumnSt)
    (hcol0 : ColumnWF col0) :
    ChunkMapsInv reg (Chunk.load reg loader cx cz col0).1 := by
  have main := foldl_pred_inv
    (fun st : Chunk × ColumnSt => ChunkMapsInv reg st.1 ∧ ColumnWF st.2)
    (Chunk.loadStep reg loader cx cz)
    (fun st xz hst => loadStep_inv reg loader cx cz st xz hst.1 hst.2)
    colsList (Chunk.init cx cz, col0)
    ⟨chunkInit_maps_inv reg hs0 cx cz, hcol0⟩
  exact main.1

/-! ## C2: the heightmap and light-map cutoffs -/

/-- C2 (amended): for a chunk built by `Chunk.load` from any loader and
any sequence of in-range `setBlock`/`setColumn` calls (`setColumn` with
`count ≥ 1` and `start + count ≤ kWorldHeight`), every column's
`heightmap` entry is the smallest `y` from which all cells up to the top
are empty, and its `light_map` entry the smallest `y` from which all cells
are non-solid. -/
theorem c2_heightmap_lightmap (reg : Registry) (hs0 : reg.solid 0 = false)
    (loader : Int → Int → List ColOp) (cx cz : Int) (col0 : ColumnSt)
    (hcol0 : ColumnWF col0) (ops : List ChunkOp)
    (hwf : ∀ op ∈ ops, ChunkOpWF op) (x z : Fin 16) :
    IsSmallestFrom (fun v => v == 0)
      (fun y => (applyChunkOps reg (Chunk.load reg loader cx cz col0).1 ops).voxels x z y)
      ((applyChunkOps reg (Chunk.load reg loader cx cz col0).1 ops).heightmap x z) ∧
    IsSmallestFrom (fun v => !reg.solid v)
      (fun y => (applyChunkOps reg (Chunk.load reg loader cx cz col0).1 ops).voxels x z y)
      ((applyChunkOps reg (Chunk.load reg loader cx cz col0).1 ops).light_map x z) := by
  have h1 := load_maps_inv reg hs0 loader cx cz col0 hcol0
  have h2 := applyChunkOps_maps_inv reg ops _ h1 hwf
  obtain ⟨hH, hL, _⟩ := h2 x z
  exact ⟨heightInv_isSmallest _ _ _ hH, heightInv_isSmallest _ _ _ hL⟩

/-- Witness for C2: scenario S3-style — on a freshly loaded all-empty
chunk, `set_block(3, 10, 4, 1)` then a bulk one-cell `set_column`;
heightmap and light map remain the exact cutoffs. -/
theorem c2_heightmap_lightmap_witness :
    (regDefault.solid 0 = false ∧ ColumnWF Column.initSt ∧
      (∀ op ∈ [ChunkOp.setBlock 3 10 4 1, ChunkOp.setColumn 5 6 20 1 1],
        ChunkOpWF op)) ∧
    (IsSmallestFrom (fun v => v == 0)
      (fun y => (applyChunkOps regDefault
        (Chunk.load regDefault emptyLoader 0 0 Column.initSt).1
        [ChunkOp.setBlock 3 10 4 1, ChunkOp.setColumn 5 6 20 1 1]).voxels 3 4 y)
      ((applyChunkOps regDefault
        (Chunk.load regDefault emptyLoader 0 0 Column.initSt).1
        [ChunkOp.setBlock 3 10 4 1, ChunkOp.setColumn 5 6 20 1 1]).heightmap 3 4)) :=
  ⟨⟨rfl, columnWF_initSt, by
      intro op hop
      rcases List.mem_cons.mp hop with rfl | hop
      · show (10 : Nat) < kWorldHeight
        decide
      · rcases List.mem_cons.mp hop with rfl | hop
        · show 1 ≤ 1 ∧ 20 + 1 ≤ kWorldHeight
          decide
        · exact absurd hop (List.not_mem_nil _)⟩,
   (c2_heightmap_lightmap regDefault rfl emptyLoader 0 0 Column.initSt
     columnWF_initSt [ChunkOp.setBlock 3 10 4 1, ChunkOp.setColumn 5 6 20 1 1]
     (by
      intro op hop
      rcases List.mem_cons.mp hop with rfl | hop
      · show (10 : Nat) < kWorldHeight
        decide
      · rcases List.mem_cons.mp hop with rfl | hop
        · show 1 ≤ 1 ∧ 20 + 1 ≤ kWorldHeight
          decide
        · exact absurd hop (List.not_mem_nil _)) 3 4).1⟩

set_option maxHeartbeats 4000000 in
set_option maxRecDepth 100000 in
/-- C2 counterexample: the claim as stated quantifies over all `setColumn`
calls, but a degenerate `count = 0` call writes no voxel yet still sets
the heightmap entry to `start`: after it the heightmap entry is 3 on an
all-empty column, which is not the smallest empty cutoff (that is 0). -/
theorem c2_counterexample_count_zero :
    cexC2Chunk.heightmap 0 0 = 3 ∧
    (∀ y : Nat, y < kWorldHeight → cexC2Chunk.voxels 0 0 y = 0) ∧
    ¬ IsSmallestFrom (fun v => v == 0) (fun y => cexC2Chunk.voxels 0 0 y)
        (cexC2Chunk.heightmap 0 0) := by
  have hvox : ∀ (x z : Fin 16) (y : Nat), cexC2Chunk.voxels x z y = 0 := by
    intro x z y
    show writeRange (Chunk.load regDefault emptyLoader 0 0 Column.initSt).1.voxels
      (cmask 0) (cmask 0) 3 0 1 x z y = 0
    simp only [writeRange]
    rw [if_neg (by rintro ⟨_, _, h3, h4⟩; omega)]
    have hall : (Chunk.load regDefault emptyLoader 0 0 Column.initSt).1.voxels =
        (fun _ _ _ => (0 : Int)) := rfl
    rw [hall]
  have hhm : cexC2Chunk.heightmap 0 0 = 3 := by decide
  refine ⟨hhm, fun y _ => hvox 0 0 y, ?_⟩
  intro hcontra
  have hmin := hcontra.2
  refine hmin 0 (by rw [hhm]; omega) ?_
  intro y _ _
  show (cexC2Chunk.voxels 0 0 y == 0) = true
  rw [hvox 0 0 y]
  rfl

/-! ## Transport lemmas for circle lookups under stores and dirty marks -/

theorem cxOf_chunk (ch : Chunk) : CircleElement.cxOf ch = ch.cx := rfl

theorem czOf_chunk (ch : Chunk) : CircleElement.czOf ch = ch.cz := rfl

theorem Circle.get_coords {T : Type} [CircleElement T] (c : Circle T)
    (cx cz : Int) (v : T) (h : c.get cx cz = some v) :
    CircleElement.cxOf v = cx ∧ CircleElement.czOf v = cz := by
  unfold Circle.get at h
  rcases hel : c.elements (c.index cx cz) with _ | t
  · rw [hel] at h
    simp at h
  · rw [hel] at h
    by_cases hc : CircleElement.cxOf t = cx ∧ CircleElement.czOf t = cz
    · simp only [if_pos hc, Option.some.injEq] at h
      rw [← h]
      exact hc
    · simp [hc] at h

theorem Circle.get_elements {T : Type} [CircleElement T] (c : Circle T)
    (cx cz : Int) (v : T) (h : c.get cx cz = some v) :
    c.elements (c.index cx cz) = some v := by
  unfold Circle.get at h
  rcases hel : c.elements (c.index cx cz) with _ | t
  · rw [hel] at h
    simp at h
  · rw [hel] at h
    by_cases hc : CircleElement.cxOf t = cx ∧ CircleElement.czOf t = cz
    · simp only [if_pos hc, Option.some.injEq] at h
      rw [h]
    · simp [hc] at h

/-- `Circle.get` on a circle whose `elements` field alone was replaced. -/
theorem get_elements_congr {T : Type} [CircleElement T] (c : Circle T)
    (E : Nat → Option T) (cx cz : Int) :
    ({ c with elements := E } : Circle T).get cx cz =
      (match E (c.index cx cz) with
       | some v =>
         if CircleElement.cxOf v = cx ∧ CircleElement.czOf v = cz then some v
         else none
       | none => none) := rfl

theorem store_get_self (c : Circle Chunk) (ch : Chunk) :
    (c.store ch).get ch.cx ch.cz = some ch := by
  rw [Circle.store, get_elements_congr, Function.update_same]
  simp [cxOf_chunk, czOf_chunk]

theorem store_get_pres (c : Circle Chunk) (ch pch : Chunk)
    (hprior : c.get ch.cx ch.cz = some pch) (a b : Int)
    (hne : ¬(a = ch.cx ∧ b = ch.cz)) :
    (c.store ch).get a b = c.get a b := by
  have hpc := Circle.get_coords c ch.cx ch.cz pch hprior
  rw [cxOf_chunk, czOf_chunk] at hpc
  have hpe := Circle.get_elements c ch.cx ch.cz pch hprior
  rw [Circle.store, get_elements_congr]
  by_cases hidx : c.index a b = c.index ch.cx ch.cz
  · rw [hidx, Function.update_same]
    have h1 : ¬(CircleElement.cxOf ch = a ∧ CircleElement.czOf ch = b) := by
      rw [cxOf_chunk, czOf_chunk]
      intro hc
      exact hne ⟨hc.1.symm, hc.2.symm⟩
    show (if CircleElement.cxOf ch = a ∧ CircleElement.czOf ch = b
          then some ch else none) = c.get a b
    rw [if_neg h1]
    unfold Circle.get
    rw [hidx, hpe]
    have h2 : ¬(CircleElement.cxOf pch = a ∧ CircleElement.czOf pch = b) := by
      rw [cxOf_chunk, czOf_chunk, hpc.1, hpc.2]
      intro hc
      exact hne ⟨hc.1.symm, hc.2.symm⟩
    simp [h2]
  · rw [Function.update_noteq hidx]
    rfl

theorem mark_get_same (c : Circle Chunk) (cx cz : Int) :
    (c.markChunkDirty cx cz).get cx cz =
      (c.get cx cz).map (fun nch => { nch with dirty := true }) := by
  unfold Circle.markChunkDirty
  rcases h : c.get cx cz with _ | nch
  · simp [h]
  · have hco := Circle.get_coords c cx cz nch h
    rw [cxOf_chunk, czOf_chunk] at hco
    simp only [Option.map_some]
    have : ({ nch with dirty := true } : Chunk).cx = cx := hco.1
    rw [← this, ← show ({ nch with dirty := true } : Chunk).cz = cz from hco.2]
    exact store_get_self c _

theorem mark_get_pres (c : Circle Chunk) (cx cz a b : Int)
    (hne : ¬(a = cx ∧ b = cz)) :
    (c.markChunkDirty cx cz).get a b = c.get a b := by
  unfold Circle.markChunkDirty
  rcases h : c.get cx cz with _ | nch
  · simp [h]
  · have hco := Circle.get_coords c cx cz nch h
    rw [cxOf_chunk, czOf_chunk] at hco
    have hprior : c.get ({ nch with dirty := true } : Chunk).cx
        ({ nch with dirty := true } : Chunk).cz = some nch := by
      show c.get nch.cx nch.cz = some nch
      rw [hco.1, hco.2]
      exact h
    exact store_get_pres c _ nch hprior a b (by
      intro hc
      exact hne ⟨by rw [hc.1]; exact hco.1, by rw [hc.2]; exact hco.2⟩)

theorem markIf_get_pres (cond : Prop) [Decidable cond] (c : Circle Chunk)
    (mx mz a b : Int) (hne : ¬(a = mx ∧ b = mz)) :
    (markIf cond c mx mz).get a b = c.get a b := by
  unfold markIf
  by_cases hc : cond
  · rw [if_pos hc]
    exact mark_get_pres c mx mz a b hne
  · rw [if_neg hc]

theorem markIf_pos (cond : Prop) [Decidable cond] (c : Circle Chunk)
    (mx mz : Int) (h : cond) : markIf cond c mx mz = c.markChunkDirty mx mz :=
  if_pos h

theorem markIf_neg (cond : Prop) [Decidable cond] (c : Circle Chunk)
    (mx mz : Int) (h : ¬cond) : markIf cond c mx mz = c :=
  if_neg h

/-! ## C7: the effect of `Chunk.setBlock` -/

theorem setBlockLocal_spec (reg : Registry) (ch : Chunk) (x : Int) (y : Nat)
    (z : Int) (b : Int) (hv : ch.voxels (cmask x) (cmask z) y ≠ b) :
    (Chunk.setBlockLocal reg ch x y z b).cx = ch.cx ∧
    (Chunk.setBlockLocal reg ch x y z b).cz = ch.cz ∧
    (Chunk.setBlockLocal reg ch x y z b).dirty = true ∧
    (Chunk.setBlockLocal reg ch x y z b).equilevels y = 0 ∧
    (Chunk.setBlockLocal reg ch x y z b).voxels (cmask x) (cmask z) y = b ∧
    (∀ (x' z' : Fin 16) (y' : Nat), ¬(x' = cmask x ∧ z' = cmask z ∧ y' = y) →
      (Chunk.setBlockLocal reg ch x y z b).voxels x' z' y' = ch.voxels x' z' y') := by
  simp only [Chunk.setBlockLocal, Chunk.updateHeightmap]
  rw [if_neg hv]
  refine ⟨rfl, rfl, rfl, Function.update_same _ _ _, ?_, ?_⟩
  · simp [writeRange]
  · intro x' z' y' hne
    simp only [writeRange]
    rw [if_neg]
    intro hc
    exact hne ⟨hc.1, hc.2.1, by omega⟩

/-- C7: for a loaded chunk and an in-range cell, `Chunk.setBlock` is a
no-op when the stored block already equals `b`; otherwise it writes the
voxel, marks the chunk dirty, clears `equilevels[y]`, and marks a loaded
neighbor chunk dirty exactly for those of the at-most-two chunk edges the
cell lies on (`x & 15` on a ±X edge, `z & 15` on a ±Z edge); all other
chunk entries are untouched, so an interior write marks no neighbor. -/
theorem c7_setBlock_effects (w : World) (ch : Chunk) (x : Int) (y : Nat)
    (z : Int) (b : Int)
    (hch : w.chunks.get ch.cx ch.cz = some ch)
    (hy : y < kWorldHeight) :
    (ch.voxels (cmask x) (cmask z) y = b → w.setBlockInChunk ch x y z b = w) ∧
    (ch.voxels (cmask x) (cmask z) y ≠ b →
      (∃ ch', (w.setBlockInChunk ch x y z b).chunks.get ch.cx ch.cz = some ch' ∧
        ch'.dirty = true ∧
        ch'.equilevels y = 0 ∧
        ch'.voxels (cmask x) (cmask z) y = b ∧
        (∀ (x' z' : Fin 16) (y' : Nat), ¬(x' = cmask x ∧ z' = cmask z ∧ y' = y) →
          ch'.voxels x' z' y' = ch.voxels x' z' y')) ∧
      MarkedSpec w (w.setBlockInChunk ch x y z b) (ch.cx - 1) ch.cz
        (decide ((cmask x).val = 0)) ∧
      MarkedSpec w (w.setBlockInChunk ch x y z b) (ch.cx + 1) ch.cz
        (decide ((cmask x).val = 15)) ∧
      MarkedSpec w (w.setBlockInChunk ch x y z b) ch.cx (ch.cz - 1)
        (decide ((cmask z).val = 0)) ∧
      MarkedSpec w (w.setBlockInChunk ch x y z b) ch.cx (ch.cz + 1)
        (decide ((cmask z).val = 15)) ∧
      (∀ a b' : Int, ¬(a = ch.cx ∧ b' = ch.cz) → ¬(a = ch.cx - 1 ∧ b' = ch.cz) →
        ¬(a = ch.cx + 1 ∧ b' = ch.cz) → ¬(a = ch.cx ∧ b' = ch.cz - 1) →
        ¬(a = ch.cx ∧ b' = ch.cz + 1) →
        (w.setBlockInChunk ch x y z b).chunks.get a b' = w.chunks.get a b')) := by
  constructor
  · intro hv
    simp only [World.setBlockInChunk]
    rw [if_pos hv]
  · intro hv
    obtain ⟨hcx3, hcz3, hdirty3, heq3, hvox3, hpres3⟩ :=
      setBlockLocal_spec w.registry ch x y z b hv
    have hwc : (w.setBlockInChunk ch x y z b).chunks =
        markIf ((cmask z).val = 15)
          (markIf ((cmask z).val = 0)
            (markIf ((cmask x).val = 15)
              (markIf ((cmask x).val = 0)
                (w.chunks.store (Chunk.setBlockLocal w.registry ch x y z b))
                (ch.cx - 1) ch.cz)
              (ch.cx + 1) ch.cz)
            ch.cx (ch.cz - 1))
          ch.cx (ch.cz + 1) := by
      simp only [World.setBlockInChunk]
      rw [if_neg hv]
    have hstore_self :
        (w.chunks.store (Chunk.setBlockLocal w.registry ch x y z b)).get
          ch.cx ch.cz = some (Chunk.setBlockLocal w.registry ch x y z b) := by
      rw [← hcx3, ← hcz3]
      exact store_get_self w.chunks _
    have hstore_pres : ∀ a b' : Int, ¬(a = ch.cx ∧ b' = ch.cz) →
        (w.chunks.store (Chunk.setBlockLocal w.registry ch x y z b)).get a b' =
          w.chunks.get a b' := by
      intro a b' hne
      refine store_get_pres w.chunks _ ch ?_ a b' ?_
      · rw [hcx3, hcz3]
        exact hch
      · rw [hcx3, hcz3]
        exact hne
    refine ⟨?_, ?_, ?_, ?_, ?_, ?_⟩
    · refine ⟨Chunk.setBlockLocal w.registry ch x y z b, ?_, hdirty3, heq3, hvox3, hpres3⟩
      rw [hwc]
      rw [markIf_get_pres _ _ _ _ _ _ (by rintro ⟨h1, h2⟩; omega)]
      rw [markIf_get_pres _ _ _ _ _ _ (by rintro ⟨h1, h2⟩; omega)]
      rw [markIf_get_pres _ _ _ _ _ _ (by rintro ⟨h1, h2⟩; omega)]
      rw [markIf_get_pres _ _ _ _ _ _ (by rintro ⟨h1, h2⟩; omega)]
      exact hstore_self
    · -- the -X neighbor
      have hpeel : (w.setBlockInChunk ch x y z b).chunks.get (ch.cx - 1) ch.cz =
          (markIf ((cmask x).val = 0)
            (w.chunks.store (Chunk.setBlockLocal w.registry ch x y z b))
            (ch.cx - 1) ch.cz).get (ch.cx - 1) ch.cz := by
        rw [hwc]
        rw [markIf_get_pres _ _ _ _ _ _ (by rintro ⟨h1, h2⟩; omega)]
        rw [markIf_get_pres _ _ _ _ _ _ (by rintro ⟨h1, h2⟩; omega)]
        rw [markIf_get_pres _ _ _ _ _ _ (by rintro ⟨h1, h2⟩; omega)]
      by_cases hx0 : (cmask x).val = 0
      · simp only [MarkedSpec, decide_eq_true_eq]
        rw [if_pos hx0]
        have : (w.setBlockInChunk ch x y z b).chunks.get (ch.cx - 1) ch.cz =
            (w.chunks.get (ch.cx - 1) ch.cz).map
              (fun nch => { nch with dirty := true }) := by
          rw [hpeel, markIf_pos _ _ _ _ hx0, mark_get_same,
            hstore_pres _ _ (by rintro ⟨h1, h2⟩; omega)]
        constructor
        · intro nch hn
          rw [this, hn]
          rfl
        · intro hn
          rw [this, hn]
          rfl
      · simp only [MarkedSpec, decide_eq_true_eq]
        rw [if_neg hx0]
        rw [hpeel, markIf_neg _ _ _ _ hx0]
        exact hstore_pres _ _ (by rintro ⟨h1, h2⟩; omega)
    · -- the +X neighbor
      have hpeel : (w.setBlockInChunk ch x y z b).chunks.get (ch.cx + 1) ch.cz =
          (markIf ((cmask x).val = 15)
            (markIf ((cmask x).val = 0)
              (w.chunks.store (Chunk.setBlockLocal w.registry ch x y z b))
              (ch.cx - 1) ch.cz)
            (ch.cx + 1) ch.cz).get (ch.cx + 1) ch.cz := by
        rw [hwc]
        rw [markIf_get_pres _ _ _ _ _ _ (by rintro ⟨h1, h2⟩; omega)]
        rw [markIf_get_pres _ _ _ _ _ _ (by rintro ⟨h1, h2⟩; omega)]
      have hinner : (markIf ((cmask x).val = 0)
          (w.chunks.store (Chunk.setBlockLocal w.registry ch x y z b))
          (ch.cx - 1) ch.cz).get (ch.cx + 1) ch.cz =
          w.chunks.get (ch.cx + 1) ch.cz := by
        rw [markIf_get_pres _ _ _ _ _ _ (by rintro ⟨h1, h2⟩; omega)]
        exact hstore_pres _ _ (by rintro ⟨h1, h2⟩; omega)
      by_cases hx15 : (cmask x).val = 15
      · simp only [MarkedSpec, decide_eq_true_eq]
        rw [if_pos hx15]
        have : (w.setBlockInChunk ch x y z b).chunks.get (ch.cx + 1) ch.cz =
            (w.chunks.get (ch.cx + 1) ch.cz).map
              (fun nch => { nch with dirty := true }) := by
          rw [hpeel, markIf_pos _ _ _ _ hx15, mark_get_same, hinner]
        constructor
        · intro nch hn
          rw [this, hn]
          rfl
        · intro hn
          rw [this, hn]
          rfl
      · simp only [MarkedSpec, decide_eq_true_eq]
        rw [if_neg hx15]
        rw [hpeel, markIf_neg _ _ _ _ hx15]
        exact hinner
    · -- the -Z neighbor
      have hpeel : (w.setBlockInChunk ch x y z b).chunks.get ch.cx (ch.cz - 1) =
          (markIf ((cmask z).val = 0)
            (markIf ((cmask x).val = 15)
              (markIf ((cmask x).val = 0)
                (w.chunks.store (Chunk.setBlockLocal w.registry ch x y z b))
                (ch.cx - 1) ch.cz)
              (ch.cx + 1) ch.cz)
            ch.cx (ch.cz - 1)).get ch.cx (ch.cz - 1) := by
        rw [hwc]
        rw [markIf_get_pres _ _ _ _ _ _ (by rintro ⟨h1, h2⟩; omega)]
      have hinner : (markIf ((cmask x).val = 15)
          (markIf ((cmask x).val = 0)
            (w.chunks.store (Chunk.setBlockLocal w.registry ch x y z b))
            (ch.cx - 1) ch.cz)
          (ch.cx + 1) ch.cz).get ch.cx (ch.cz - 1) =
          w.chunks.get ch.cx (ch.cz - 1) := by
        rw [markIf_get_pres _ _ _ _ _ _ (by rintro ⟨h1, h2⟩; omega)]
        rw [markIf_get_pres _ _ _ _ _ _ (by rintro ⟨h1, h2⟩; omega)]
        exact hstore_pres _ _ (by rintro ⟨h1, h2⟩; omega)
      by_cases hz0 : (cmask z).val = 0
      · simp only [MarkedSpec, decide_eq_true_eq]
        rw [if_pos hz0]
        have : (w.setBlockInChunk ch x y z b).chunks.get ch.cx (ch.cz - 1) =
            (w.chunks.get ch.cx (ch.cz - 1)).map
              (fun nch => { nch with dirty := true }) := by
          rw [hpeel, markIf_pos _ _ _ _ hz0, mark_get_same, hinner]
        constructor
        · intro nch hn
          rw [this, hn]
          rfl
        · intro hn
          rw [this, hn]
          rfl
      · simp only [MarkedSpec, decide_eq_true_eq]
        rw [if_neg hz0]
        rw [hpeel, markIf_neg _ _ _ _ hz0]
        exact hinner
    · -- the +Z neighbor
      have hinner : (markIf ((cmask z).val = 0)
          (markIf ((cmask x).val = 15)
            (markIf ((cmask x).val = 0)
              (w.chunks.store (Chunk.setBlockLocal w.registry ch x y z b))
              (ch.cx - 1) ch.cz)
            (ch.cx + 1) ch.cz)
          ch.cx (ch.cz - 1)).get ch.cx (ch.cz + 1) =
          w.chunks.get ch.cx (ch.cz + 1) := by
        rw [markIf_get_pres _ _ _ _ _ _ (by rintro ⟨h1, h2⟩; omega)]
        rw [markIf_get_pres _ _ _ _ _ _ (by rintro ⟨h1, h2⟩; omega)]
        rw [markIf_get_pres _ _ _ _ _ _ (by rintro ⟨h1, h2⟩; omega)]
        exact hstore_pres _ _ (by rintro ⟨h1, h2⟩; omega)
      by_cases hz15 : (cmask z).val = 15
      · simp only [MarkedSpec, decide_eq_true_eq]
        rw [if_pos hz15]
        have : (w.setBlockInChunk ch x y z b).chunks.get ch.cx (ch.cz + 1) =
            (w.chunks.get ch.cx (ch.cz + 1)).map
              (fun nch => { nch with dirty := true }) := by
          rw [hwc, markIf_pos _ _ _ _ hz15, mark_get_same, hinner]
        constructor
        · intro nch hn
          rw [this, hn]
          rfl
        · intro hn
          rw [this, hn]
          rfl
      · simp only [MarkedSpec, decide_eq_true_eq]
        rw [if_neg hz15]
        rw [hwc, markIf_neg _ _ _ _ hz15]
        exact hinner
    · -- all other chunk entries
      intro a b' hne0 hne1 hne2 hne3 hne4
      rw [hwc]
      rw [markIf_get_pres _ _ _ _ _ _ hne4]
      rw [markIf_get_pres _ _ _ _ _ _ hne3]
      rw [markIf_get_pres _ _ _ _ _ _ hne2]
      rw [markIf_get_pres _ _ _ _ _ _ hne1]
      exact hstore_pres _ _ hne0

/-- Witness for C7: scenario S4 of the spec — `set_block(15, 10, 4, 2)` on
the chunk at `(0, 0)` (an edge cell, initially empty, written to a
different block). -/
theorem c7_setBlock_effects_witness :
    (wOneChunk.chunks.get chunkA.cx chunkA.cz = some chunkA ∧
      (10 : Nat) < kWorldHeight ∧ chunkA.voxels (cmask 15) (cmask 4) 10 ≠ 2) ∧
    MarkedSpec wOneChunk (wOneChunk.setBlockInChunk chunkA 15 10 4 2)
      (chunkA.cx + 1) chunkA.cz (decide ((cmask 15).val = 15)) ∧
    MarkedSpec wOneChunk (wOneChunk.setBlockInChunk chunkA 15 10 4 2)
      chunkA.cx (chunkA.cz - 1) (decide ((cmask 4).val = 0)) :=
  ⟨⟨rfl, by decide, by decide⟩,
   ((c7_setBlock_effects wOneChunk chunkA 15 10 4 2 rfl (by decide)).2
     (by decide)).2.2.1,
   ((c7_setBlock_effects wOneChunk chunkA 15 10 4 2 rfl (by decide)).2
     (by decide)).2.2.2.1⟩

/-- Witness for C5: the chunk-circle radius `12.5`, two nearby points of
the disk around center `(3, -2)`. -/
theorem c5_torus_hash_witness :
    ((0 : Int) < chunkCircleRadius.den ∧ (0 : ℚ) ≤ chunkCircleRadius.toQ) ∧
    (((4 - 3 : Int) : ℚ) ^ 2 + ((-2 - -2 : Int) : ℚ) ^ 2 ≤ chunkCircleRadius.toQ ^ 2 ∧
     ((3 - 3 : Int) : ℚ) ^ 2 + ((5 - -2 : Int) : ℚ) ^ 2 ≤ chunkCircleRadius.toQ ^ 2 ∧
     ((4, -2) : Int × Int) ≠ ((3, 5) : Int × Int)) ∧
    (mkCircle Chunk chunkCircleRadius).index 4 (-2) ≠
      (mkCircle Chunk chunkCircleRadius).index 3 5 :=
  ⟨⟨by norm_num [chunkCircleRadius, kChunkRadius],
    by norm_num [chunkCircleRadius, JSNum.toQ, kChunkRadius]⟩,
   ⟨by norm_num [chunkCircleRadius, JSNum.toQ, kChunkRadius],
    by norm_num [chunkCircleRadius, JSNum.toQ, kChunkRadius], by decide⟩,
   (c5_torus_hash Chunk chunkCircleRadius
     (by norm_num [chunkCircleRadius, kChunkRadius])
     (by norm_num [chunkCircleRadius, JSNum.toQ, kChunkRadius]) 3 (-2)).1 4 (-2) 3 5
     (by norm_num [chunkCircleRadius, JSNum.toQ, kChunkRadius])
     (by norm_num [chunkCircleRadius, JSNum.toQ, kChunkRadius]) (by decide)⟩

/-! ## C8: `World.getBlock` case analysis -/

/-- C8: `World.getBlock(x,y,z)` returns the bedrock block when `y < 0`,
the empty block when `y ≥ kWorldHeight`, the unknown block when `y` is in
range but no chunk is loaded at `(x >> 4, z >> 4)`, and otherwise the
loaded chunk's stored voxel at `(x & 15, y, z & 15)`. -/
theorem c8_getBlock_cases (w : World) (x y z : Int) :
    (y < 0 → w.getBlock x y z = w.bedrock) ∧
    ((kWorldHeight : Int) ≤ y → w.getBlock x y z = kEmptyBlock) ∧
    (0 ≤ y → y < (kWorldHeight : Int) →
      w.chunks.get (Int.fdiv x 16) (Int.fdiv z 16) = none →
      w.getBlock x y z = kUnknownBlock) ∧
    (∀ ch, 0 ≤ y → y < (kWorldHeight : Int) →
      w.chunks.get (Int.fdiv x 16) (Int.fdiv z 16) = some ch →
      w.getBlock x y z = ch.voxels (cmask x) (cmask z) y.toNat) := by
  refine ⟨fun hy => ?_, fun hy => ?_, fun hy0 hy1 hn => ?_, fun ch hy0 hy1 hs => ?_⟩
  · simp [World.getBlock, hy]
  · have : ¬ y < 0 := by
      have : (0 : Int) ≤ 256 := by norm_num
      simp [kWorldHeight] at hy
      omega
    simp [World.getBlock, this, hy]
  · simp [World.getBlock, hn, not_lt.mpr hy0, not_le.mpr hy1]
  · simp [World.getBlock, hs, Chunk.getBlock, not_lt.mpr hy0, not_le.mpr hy1]

/-- Witness for C8 at concrete inputs: the freshly constructed world with
the default registry, queried below the world, above the world, and inside
an unloaded chunk. -/
theorem c8_getBlock_cases_witness :
    ((World.init regDefault).getBlock 3 (-1) 7 = (World.init regDefault).bedrock) ∧
    ((World.init regDefault).getBlock 3 400 7 = kEmptyBlock) ∧
    ((World.init regDefault).getBlock 3 128 7 = kUnknownBlock) :=
  ⟨(c8_getBlock_cases (World.init regDefault) 3 (-1) 7).1 (by decide),
   (c8_getBlock_cases (World.init regDefault) 3 400 7).2.1 (by decide),
   (c8_getBlock_cases (World.init regDefault) 3 128 7).2.2.1 (by decide)
     (by decide) (by rfl)⟩

/-! ## C10: out-of-range or unloaded `World.setBlock` is a no-op -/

/-- C10: `World.setBlock(x,y,z,b)` with `y < 0`, `y ≥ kWorldHeight`, or no
chunk loaded at `(x >> 4, z >> 4)` leaves the world state — every chunk's
voxels, heightmap, light map, equi-levels and dirty flag — exactly as it
was, and consequently every subsequent `World.getBlock` answer is
unchanged. -/
theorem c10_setBlock_noop (w : World) (x y z b : Int)
    (h : ¬ (0 ≤ y ∧ y < (kWorldHeight : Int)) ∨
         w.chunks.get (Int.fdiv x 16) (Int.fdiv z 16) = none) :
    w.setBlock x y z b = w ∧
    (∀ x' y' z', (w.setBlock x y z b).getBlock x' y' z' = w.getBlock x' y' z') := by
  have heq : w.setBlock x y z b = w := by
    rcases h with h | h
    · simp [World.setBlock, h]
    · by_cases hy : 0 ≤ y ∧ y < (kWorldHeight : Int)
      · simp [World.setBlock, hy, h]
      · simp [World.setBlock, hy]
  exact ⟨heq, fun x' y' z' => by rw [heq]⟩

/-- Witness for C10: setting a block in the empty world (no chunk is
loaded at the origin) and below the world. -/
theorem c10_setBlock_noop_witness :
    ((¬ (0 ≤ (5:Int) ∧ (5:Int) < (kWorldHeight : Int)) ∨
      (World.init regDefault).chunks.get (Int.fdiv 3 16) (Int.fdiv 7 16) = none) ∧
     (World.init regDefault).setBlock 3 5 7 2 = World.init regDefault) ∧
    ((World.init regDefault).setBlock 3 (-1) 7 2).getBlock 0 0 0 =
      (World.init regDefault).getBlock 0 0 0 :=
  ⟨⟨Or.inr (by rfl),
    (c10_setBlock_noop (World.init regDefault) 3 5 7 2 (Or.inr (by rfl))).1⟩,
   (c10_setBlock_noop (World.init regDefault) 3 (-1) 7 2
     (Or.inl (by decide))).2 0 0 0⟩

/-! ## C9: a thrown callback silences the Timing harness for good -/

theorem tracePost_singleton (x : TraceEntry) : TracePost [x] := by
  intro t₁ e t₂ hsplit _ e' he'
  cases t₁ with
  | nil =>
    rw [List.nil_append] at hsplit
    injection hsplit with h1 h2
    subst h2
    exact absurd he' (List.not_mem_nil _)
  | cons b t₁' =>
    rw [List.cons_append] at hsplit
    injection hsplit with h1 h2
    cases t₁' <;> simp at h2

theorem tracePost_pair (x y : TraceEntry)
    (h : x.threw = true → y.original = false) : TracePost [x, y] := by
  intro t₁ e t₂ hsplit hthrew e' he'
  cases t₁ with
  | nil =>
    rw [List.nil_append] at hsplit
    injection hsplit with h1 h2
    subst h1
    subst h2
    rcases List.mem_singleton.mp he' with rfl
    exact h hthrew
  | cons b t₁' =>
    rw [List.cons_append] at hsplit
    injection hsplit with h1 h2
    cases t₁' with
    | nil =>
      rw [List.nil_append] at h2
      injection h2 with h3 h4
      subst h4
      exact absurd he' (List.not_mem_nil _)
    | cons c t₁x =>
      rw [List.cons_append] at h2
      injection h2 with h3 h4
      cases t₁x <;> simp at h4

theorem tracePost_append : ∀ (ta tb : List TraceEntry),
    TracePost ta →
    ((∃ e ∈ ta, e.threw = true) → ∀ e ∈ tb, e.original = false) →
    TracePost tb → TracePost (ta ++ tb) := by
  intro ta
  induction ta with
  | nil =>
    intro tb _ _ hB
    exact hB
  | cons a ta' ih =>
    intro tb hA hAB hB
    intro t₁ e t₂ hsplit hthrew e' he'
    cases t₁ with
    | nil =>
      rw [List.nil_append] at hsplit
      rw [List.cons_append] at hsplit
      injection hsplit with h1 h2
      subst h1
      subst h2
      rcases List.mem_append.mp he' with h | h
      · exact hA [] a ta' rfl hthrew e' h
      · exact hAB ⟨a, List.mem_cons_self a ta', hthrew⟩ e' h
    | cons b t₁' =>
      rw [List.cons_append, List.cons_append] at hsplit
      injection hsplit with h1 h2
      refine ih tb ?_ ?_ hB t₁' e t₂ h2 hthrew e' he'
      · intro u₁ u u₂ hu hthru
        exact hA (a :: u₁) u u₂ (by rw [List.cons_append, hu]) hthru
      · intro hex
        obtain ⟨x, hx, htx⟩ := hex
        exact hAB ⟨x, List.mem_cons_of_mem a hx, htx⟩

theorem updateStep_threw_silenced (s : TimingSt) (o : Nat → Bool)
    (h : ((TimingSt.updateStep s o).2).threw = true) :
    Silenced (TimingSt.updateStep s o).1 := by
  obtain ⟨a, b, c, k⟩ := s
  have h' : (c && o k) = true := h
  show Silenced (if (c && o k) = true then
      TimingSt.onError ⟨a, b, c, k + 1⟩ else ⟨a, b, c, k + 1⟩)
  rw [if_pos h']
  exact ⟨rfl, rfl, rfl⟩

theorem updatePump_silenced (o : Nat → Bool) :
    ∀ (n : Nat) (s : TimingSt), Silenced s →
    Silenced (TimingSt.updatePump s o n).1 ∧
    ∀ e ∈ (TimingSt.updatePump s o n).2, e.original = false ∧ e.threw = false := by
  intro n
  induction n with
  | zero =>
    intro s hs
    exact ⟨hs, fun e he => absurd he (List.not_mem_nil _)⟩
  | succ n ih =>
    intro s hs
    obtain ⟨a, b, c, k⟩ := s
    have ha : a = false := hs.1
    have hb : b = false := hs.2.1
    have hc : c = false := hs.2.2
    subst ha
    subst hb
    subst hc
    have h1 : (TimingSt.updatePump ⟨false, false, false, k⟩ o (n + 1)).1 =
        (TimingSt.updatePump ⟨false, false, false, k + 1⟩ o n).1 := rfl
    have h2 : (TimingSt.updatePump ⟨false, false, false, k⟩ o (n + 1)).2 =
        ({ call := TCall.update, original := false, threw := false } : TraceEntry) ::
        (TimingSt.updatePump ⟨false, false, false, k + 1⟩ o n).2 := rfl
    obtain ⟨ihs, iht⟩ := ih ⟨false, false, false, k + 1⟩ ⟨rfl, rfl, rfl⟩
    rw [h1, h2]
    refine ⟨ihs, ?_⟩
    intro e he
    rcases List.mem_cons.mp he with rfl | he'
    · exact ⟨rfl, rfl⟩
    · exact iht e he'

theorem updatePump_threw (o : Nat → Bool) :
    ∀ (n : Nat) (s : TimingSt),
    (∃ e ∈ (TimingSt.updatePump s o n).2, e.threw = true) →
    Silenced (TimingSt.updatePump s o n).1 := by
  intro n
  induction n with
  | zero =>
    intro s h
    obtain ⟨e, he, _⟩ := h
    exact absurd he (List.not_mem_nil _)
  | succ n ih =>
    intro s h
    obtain ⟨e, he, ht⟩ := h
    have he' : e ∈ (TimingSt.updateStep s o).2 ::
        (TimingSt.updatePump (TimingSt.updateStep s o).1 o n).2 := he
    show Silenced (TimingSt.updatePump (TimingSt.updateStep s o).1 o n).1
    rcases List.mem_cons.mp he' with rfl | hmem
    · exact (updatePump_silenced o n _ (updateStep_threw_silenced s o ht)).1
    · exact ih _ ⟨e, hmem, ht⟩

theorem updatePump_post (o : Nat → Bool) :
    ∀ (n : Nat) (s : TimingSt), TracePost (TimingSt.updatePump s o n).2 := by
  intro n
  induction n with
  | zero =>
    intro s t₁ e t₂ hsplit _ e' _
    have h0 : ([] : List TraceEntry) = t₁ ++ e :: t₂ := hsplit
    cases t₁ <;> simp at h0
  | succ n ih =>
    intro s
    have hrw : (TimingSt.updatePump s o (n + 1)).2 =
        [(TimingSt.updateStep s o).2] ++
        (TimingSt.updatePump (TimingSt.updateStep s o).1 o n).2 := rfl
    rw [hrw]
    refine tracePost_append _ _ (tracePost_singleton _) ?_ (ih _)
    rintro ⟨e, he, ht⟩
    have he2 : e = (TimingSt.updateStep s o).2 := List.mem_singleton.mp he
    subst he2
    intro e2 he2m
    exact ((updatePump_silenced o n _ (updateStep_threw_silenced s o ht)).2 e2 he2m).1

theorem renderPump_eq (s : TimingSt) (o : Nat → Bool) (n : Nat) :
    TimingSt.renderPump s o n =
    (let U := TimingSt.updatePump s o n
     let s1 := U.1
     let th1 := s1.remeshOrig && o s1.calls
     if th1 = true then
       (TimingSt.onError { s1 with calls := s1.calls + 1 },
        U.2 ++ [{ call := TCall.remesh, original := s1.remeshOrig, threw := th1 }])
     else
       let th2 := s1.renderOrig && o (s1.calls + 1)
       (if th2 = true then TimingSt.onError { s1 with calls := s1.calls + 2 }
        else { s1 with calls := s1.calls + 2 },
        U.2 ++ [{ call := TCall.remesh, original := s1.remeshOrig, threw := th1 },
                { call := TCall.render, original := s1.renderOrig, threw := th2 }])) := rfl

theorem renderPump_silenced (o : Nat → Bool) (n : Nat) (s : TimingSt)
    (hs : Silenced s) :
    Silenced (TimingSt.renderPump s o n).1 ∧
    ∀ e ∈ (TimingSt.renderPump s o n).2, e.original = false ∧ e.threw = false := by
  obtain ⟨hU1, hU2⟩ := updatePump_silenced o n s hs
  have h1 : (TimingSt.updatePump s o n).1.remeshOrig = false := hU1.1
  have h2 : (TimingSt.updatePump s o n).1.renderOrig = false := hU1.2.1
  have h3 : (TimingSt.updatePump s o n).1.updateOrig = false := hU1.2.2
  simp only [renderPump_eq, h1, h2, h3, Bool.false_and,
    if_neg Bool.false_ne_true]
  refine ⟨⟨rfl, rfl, rfl⟩, ?_⟩
  intro e he
  rcases List.mem_append.mp he with h | h
  · exact hU2 e h
  · rcases List.mem_cons.mp h with rfl | h
    · exact ⟨rfl, rfl⟩
    · rcases List.mem_cons.mp h with rfl | h
      · exact ⟨rfl, rfl⟩
      · exact absurd h (List.not_mem_nil _)

theorem renderPump_threw (o : Nat → Bool) (n : Nat) (s : TimingSt)
    (h : ∃ e ∈ (TimingSt.renderPump s o n).2, e.threw = true) :
    Silenced (TimingSt.renderPump s o n).1 := by
  simp only [renderPump_eq] at h ⊢
  cases hb1 : ((TimingSt.updatePump s o n).1.remeshOrig &&
      o (TimingSt.updatePump s o n).1.calls) with
  | true =>
    rw [if_pos rfl]
    exact ⟨rfl, rfl, rfl⟩
  | false =>
    rw [if_neg Bool.false_ne_true]
    cases hb2 : ((TimingSt.updatePump s o n).1.renderOrig &&
        o ((TimingSt.updatePump s o n).1.calls + 1)) with
    | true =>
      rw [if_pos rfl]
      exact ⟨rfl, rfl, rfl⟩
    | false =>
      rw [if_neg Bool.false_ne_true]
      simp only [hb1, hb2, if_neg Bool.false_ne_true] at h
      obtain ⟨e, he, ht⟩ := h
      rcases List.mem_append.mp he with hm | hm
      · have hsil := updatePump_threw o n s ⟨e, hm, ht⟩
        exact ⟨hsil.1, hsil.2.1, hsil.2.2⟩
      · rcases List.mem_cons.mp hm with rfl | hm
        · exact absurd ht Bool.false_ne_true
        · rcases List.mem_cons.mp hm with rfl | hm
          · exact absurd ht Bool.false_ne_true
          · exact absurd hm (List.not_mem_nil _)

theorem renderPump_post (o : Nat → Bool) (n : Nat) (s : TimingSt) :
    TracePost (TimingSt.renderPump s o n).2 := by
  simp only [renderPump_eq]
  cases hb1 : ((TimingSt.updatePump s o n).1.remeshOrig &&
      o (TimingSt.updatePump s o n).1.calls) with
  | true =>
    rw [if_pos rfl]
    refine tracePost_append _ _ (updatePump_post o n s) ?_ (tracePost_singleton _)
    rintro ⟨e, he, ht⟩
    have hsil := updatePump_threw o n s ⟨e, he, ht⟩
    intro e' he'
    rcases List.mem_cons.mp he' with rfl | he2
    · exact hsil.1
    · exact absurd he2 (List.not_mem_nil _)
  | false =>
    rw [if_neg Bool.false_ne_true]
    refine tracePost_append _ _ (updatePump_post o n s) ?_ (tracePost_pair _ _ ?_)
    · rintro ⟨e, he, ht⟩
      have hsil := updatePump_threw o n s ⟨e, he, ht⟩
      intro e' he'
      rcases List.mem_cons.mp he' with rfl | he2
      · exact hsil.1
      · rcases List.mem_cons.mp he2 with rfl | he3
        · exact hsil.2.1
        · exact absurd he3 (List.not_mem_nil _)
    · intro hx
      exact absurd hx Bool.false_ne_true

theorem run_silenced (o : Nat → Bool) :
    ∀ (evs : List TEvent) (s : TimingSt), Silenced s →
    Silenced (TimingSt.run s o evs).1 ∧
    ∀ e ∈ (TimingSt.run s o evs).2, e.original = false ∧ e.threw = false := by
  intro evs
  induction evs with
  | nil =>
    intro s hs
    exact ⟨hs, fun e he => absurd he (List.not_mem_nil _)⟩
  | cons ev rest ih =>
    intro s hs
    cases ev with
    | renderFrame n =>
      have h1 : (TimingSt.run s o (TEvent.renderFrame n :: rest)).1 =
          (TimingSt.run (TimingSt.renderPump s o n).1 o rest).1 := rfl
      have h2 : (TimingSt.run s o (TEvent.renderFrame n :: rest)).2 =
          (TimingSt.renderPump s o n).2 ++
          (TimingSt.run (TimingSt.renderPump s o n).1 o rest).2 := rfl
      obtain ⟨hp1, hp2⟩ := renderPump_silenced o n s hs
      obtain ⟨hr1, hr2⟩ := ih _ hp1
      rw [h1, h2]
      refine ⟨hr1, ?_⟩
      intro e he
      rcases List.mem_append.mp he with h | h
      · exact hp2 e h
      · exact hr2 e h
    | updateTimer n =>
      have h1 : (TimingSt.run s o (TEvent.updateTimer n :: rest)).1 =
          (TimingSt.run (TimingSt.updatePump s o n).1 o rest).1 := rfl
      have h2 : (TimingSt.run s o (TEvent.updateTimer n :: rest)).2 =
          (TimingSt.updatePump s o n).2 ++
          (TimingSt.run (TimingSt.updatePump s o n).1 o rest).2 := rfl
      obtain ⟨hp1, hp2⟩ := updatePump_silenced o n s hs
      obtain ⟨hr1, hr2⟩ := ih _ hp1
      rw [h1, h2]
      refine ⟨hr1, ?_⟩
      intro e he
      rcases List.mem_append.mp he with h | h
      · exact hp2 e h
      · exact hr2 e h

theorem run_threw (o : Nat → Bool) :
    ∀ (evs : List TEvent) (s : TimingSt),
    (∃ e ∈ (TimingSt.run s o evs).2, e.threw = true) →
    Silenced (TimingSt.run s o evs).1 := by
  intro evs
  induction evs with
  | nil =>
    intro s h
    obtain ⟨e, he, _⟩ := h
    exact absurd he (List.not_mem_nil _)
  | cons ev rest ih =>
    intro s h
    cases ev with
    | renderFrame n =>
      have h2 : (TimingSt.run s o (TEvent.renderFrame n :: rest)).2 =
          (TimingSt.renderPump s o n).2 ++
          (TimingSt.run (TimingSt.renderPump s o n).1 o rest).2 := rfl
      rw [h2] at h
      show Silenced (TimingSt.run (TimingSt.renderPump s o n).1 o rest).1
      obtain ⟨e, he, ht⟩ := h
      rcases List.mem_append.mp he with hm | hm
      · exact (run_silenced o rest _ (renderPump_threw o n s ⟨e, hm, ht⟩)).1
      · exact ih _ ⟨e, hm, ht⟩
    | updateTimer n =>
      have h2 : (TimingSt.run s o (TEvent.updateTimer n :: rest)).2 =
          (TimingSt.updatePump s o n).2 ++
          (TimingSt.run (TimingSt.updatePump s o n).1 o rest).2 := rfl
      rw [h2] at h
      show Silenced (TimingSt.run (TimingSt.updatePump s o n).1 o rest).1
      obtain ⟨e, he, ht⟩ := h
      rcases List.mem_append.mp he with hm | hm
      · exact (run_silenced o rest _ (updatePump_threw o n s ⟨e, hm, ht⟩)).1
      · exact ih _ ⟨e, hm, ht⟩

theorem run_post (o : Nat → Bool) :
    ∀ (evs : List TEvent) (s : TimingSt), TracePost (TimingSt.run s o evs).2 := by
  intro evs
  induction evs with
  | nil =>
    intro s t₁ e t₂ hsplit _ e' _
    have h0 : ([] : List TraceEntry) = t₁ ++ e :: t₂ := hsplit
    cases t₁ <;> simp at h0
  | cons ev rest ih =>
    intro s
    cases ev with
    | renderFrame n =>
      have h2 : (TimingSt.run s o (TEvent.renderFrame n :: rest)).2 =
          (TimingSt.renderPump s o n).2 ++
          (TimingSt.run (TimingSt.renderPump s o n).1 o rest).2 := rfl
      rw [h2]
      refine tracePost_append _ _ (renderPump_post o n s) ?_ (ih _)
      rintro ⟨e, he, ht⟩
      intro e' he'
      exact ((run_silenced o rest _ (renderPump_threw o n s ⟨e, he, ht⟩)).2 e' he').1
    | updateTimer n =>
      have h2 : (TimingSt.run s o (TEvent.updateTimer n :: rest)).2 =
          (TimingSt.updatePump s o n).2 ++
          (TimingSt.run (TimingSt.updatePump s o n).1 o rest).2 := rfl
      rw [h2]
      refine tracePost_append _ _ (updatePump_post o n s) ?_ (ih _)
      rintro ⟨e, he, ht⟩
      intro e' he'
      exact ((run_silenced o rest _ (updatePump_threw o n s ⟨e, he, ht⟩)).2 e' he').1

/-- C9: in the Timing harness, once any of the three callbacks throws,
every later invocation in the run's trace goes through a replaced no-op
slot — none of the original remesh, render, or update callbacks is ever
called again. -/
theorem c9_throw_silences (oracle : Nat → Bool) (events : List TEvent)
    (t₁ : List TraceEntry) (e : TraceEntry) (t₂ : List TraceEntry)
    (hsplit : (TimingSt.run TimingSt.init oracle events).2 = t₁ ++ e :: t₂)
    (hthrew : e.threw = true) :
    ∀ e' ∈ t₂, e'.original = false :=
  run_post oracle events TimingSt.init t₁ e t₂ hsplit hthrew

/-- Witness for C9: an update callback that throws on its first invocation;
the second update-loop iteration of the same pump already goes through the
no-op slot. -/
theorem c9_throw_silences_witness :
    ((TimingSt.run TimingSt.init (fun k => decide (k = 0)) [TEvent.updateTimer 2]).2 =
      [] ++ ({ call := TCall.update, original := true, threw := true } : TraceEntry) ::
        [{ call := TCall.update, original := false, threw := false }] ∧
      ({ call := TCall.update, original := true, threw := true } : TraceEntry).threw = true) ∧
    ∀ e' ∈ [({ call := TCall.update, original := false, threw := false } : TraceEntry)],
      e'.original = false :=
  ⟨⟨by decide, rfl⟩,
   c9_throw_silences (fun k => decide (k = 0)) [TEvent.updateTimer 2] []
     { call := TCall.update, original := true, threw := true }
     [{ call := TCall.update, original := false, threw := false }]
     (by decide) rfl⟩

/-! ## C4: recenter at an unchanged center -/

theorem frontierCenterFold_id : ∀ (ls : List Nat) (f : Frontier) (a b : Int),
    CentersConsistent f a b ls →
    (ls.foldl (fun (acc : Frontier × Int × Int) l =>
      let ncx := Int.fdiv acc.2.1 2
      let ncz := Int.fdiv acc.2.2 2
      let fr := acc.1
      let cr := (fr.levels l).center ncx ncz
      let fr1 := { fr with levels := Function.update fr.levels l cr.1 }
      (cr.2.foldl Frontier.disposeTile fr1, (ncx, ncz)))
      (f, (a, b))).1 = f := by
  intro ls
  induction ls with
  | nil => intro f a b _; rfl
  | cons l rest ih =>
    intro f a b h
    have h' : (f.levels l).center_x = Int.fdiv a 2 ∧
        (f.levels l).center_z = Int.fdiv b 2 ∧
        CentersConsistent f (Int.fdiv a 2) (Int.fdiv b 2) rest := h
    rw [List.foldl_cons]
    have hc : (f.levels l).center (Int.fdiv a 2) (Int.fdiv b 2) =
        (f.levels l, []) := by
      unfold Circle.center
      rw [if_pos ⟨h'.1.symm, h'.2.1.symm⟩]
    show (List.foldl _
      ((((f.levels l).center (Int.fdiv a 2) (Int.fdiv b 2)).2).foldl
        Frontier.disposeTile
        { f with levels := Function.update f.levels l ((f.levels l).center (Int.fdiv a 2) (Int.fdiv b 2)).1 },
       (Int.fdiv a 2, Int.fdiv b 2)) rest).1 = f
    rw [hc]
    show (List.foldl _
      ({ f with levels := Function.update f.levels l (f.levels l) },
       (Int.fdiv a 2, Int.fdiv b 2)) rest).1 = f
    rw [Function.update_eq_self]
    exact ih f (Int.fdiv a 2) (Int.fdiv b 2) h'.2.2

theorem frontier_center_id (f : Frontier) (a b : Int)
    (h : CentersConsistent f a b (List.range kFrontierLevels)) :
    Frontier.center f a b = f :=
  frontierCenterFold_id (List.range kFrontierLevels) f a b h

theorem store_get_pres_empty (c : Circle Chunk) (ch : Chunk)
    (hempty : c.elements (c.index ch.cx ch.cz) = none) (a b : Int)
    (hne : ¬(a = ch.cx ∧ b = ch.cz)) :
    (c.store ch).get a b = c.get a b := by
  rw [Circle.store, get_elements_congr]
  by_cases hidx : c.index a b = c.index ch.cx ch.cz
  · rw [hidx, Function.update_same]
    show (if CircleElement.cxOf ch = a ∧ CircleElement.czOf ch = b
          then some ch else none) = c.get a b
    rw [if_neg (by
      rw [cxOf_chunk, czOf_chunk]
      intro hc
      exact hne ⟨hc.1.symm, hc.2.symm⟩)]
    unfold Circle.get
    rw [hidx, hempty]
  · rw [Function.update_noteq hidx]
    rfl

theorem store_wf (c : Circle Chunk) (ch : Chunk) (hwf : Circle.wf c)
    (hdx : (ch.cx - c.center_x).natAbs ≤ c.fl)
    (hdz : (ch.cz - c.center_z).natAbs ≤ c.fl) :
    Circle.wf (c.store ch) := by
  refine ⟨hwf.1, hwf.2.1, ?_⟩
  intro i ch' hel
  have hel' : Function.update c.elements (c.index ch.cx ch.cz) (some ch) i =
      some ch' := hel
  by_cases hidx : i = c.index ch.cx ch.cz
  · subst hidx
    rw [Function.update_same] at hel'
    injection hel' with hcc
    subst hcc
    exact ⟨rfl, hdx, hdz⟩
  · rw [Function.update_noteq hidx] at hel'
    exact hwf.2.2 i ch' hel'

theorem wf_get_none_empty (c : Circle Chunk) (hwf : Circle.wf c)
    (pcx pcz : Int)
    (hdx : (pcx - c.center_x).natAbs ≤ c.fl)
    (hdz : (pcz - c.center_z).natAbs ≤ c.fl)
    (hnone : c.get pcx pcz = none) :
    c.elements (c.index pcx pcz) = none := by
  rcases hel : c.elements (c.index pcx pcz) with _ | v
  · rfl
  · exfalso
    obtain ⟨hhon, hvx, hvz⟩ := hwf.2.2 _ v hel
    obtain ⟨hx, hz⟩ := circleIndex_inj c c.center_x c.center_z hwf.1
      hvx hvz hdx hdz hhon
    have hv : c.get pcx pcz = some v := by
      unfold Circle.get
      rw [hel]
      show (if CircleElement.cxOf v = pcx ∧ CircleElement.czOf v = pcz
            then some v else none) = some v
      rw [if_pos ⟨by rw [cxOf_chunk]; exact hx, by rw [czOf_chunk]; exact hz⟩]
    rw [hv] at hnone
    exact Option.noConfusion hnone

theorem fillChunk_coords (col : ColumnSt) (reg : Registry) (x z : Int)
    (ch : Chunk) (first : Bool) :
    (Column.fillChunk col reg x z ch first).1.cx = ch.cx ∧
    (Column.fillChunk col reg x z ch first).1.cz = ch.cz := by
  have h1 := foldl_pred_inv
    (fun acc : Chunk × Nat => acc.1.cx = ch.cx ∧ acc.1.cz = ch.cz)
    (fun (acc : Chunk × Nat) br =>
      (Chunk.setColumn reg acc.1 x z acc.2 (br.2 - acc.2) br.1, br.2))
    (fun acc br hacc => ⟨hacc.1, hacc.2⟩)
    col.data (ch, 0) ⟨rfl, rfl⟩
  exact foldl_pred_inv
    (fun c2 : Chunk => c2.cx = ch.cx ∧ c2.cz = ch.cz)
    (fun c2 d => Chunk.setColumn reg c2 x z d.2 1 d.1)
    (fun c2 d hc2 => ⟨hc2.1, hc2.2⟩)
    col.decorations _ h1

theorem load_coords (reg : Registry) (loader : Int → Int → List ColOp)
    (cx cz : Int) (col0 : ColumnSt) :
    (Chunk.load reg loader cx cz col0).1.cx = cx ∧
    (Chunk.load reg loader cx cz col0).1.cz = cz := by
  have main := foldl_pred_inv
    (fun st : Chunk × ColumnSt => st.1.cx = cx ∧ st.1.cz = cz)
    (Chunk.loadStep reg loader cx cz)
    (fun st xz hst => by
      have hf := fillChunk_coords
        (Column.applyOps st.2 (loader (cx * 16 + (xz.1 : Int)) (cz * 16 + (xz.2 : Int))))
        reg (cx * 16 + (xz.1 : Int)) (cz * 16 + (xz.2 : Int)) st.1
        (decide (xz.1 + xz.2 = 0))
      exact ⟨hf.1.trans hst.1, hf.2.trans hst.2⟩)
    colsList (Chunk.init cx cz, col0) ⟨rfl, rfl⟩
  exact main

theorem notifyLoadedAt_effects (w0 : World) (u v : Int)
    (hwf : Circle.wf w0.chunks) :
    (w0.notifyLoadedAt u v).1.chunks.center_x = w0.chunks.center_x ∧
    (w0.notifyLoadedAt u v).1.chunks.center_z = w0.chunks.center_z ∧
    (w0.notifyLoadedAt u v).1.chunks.fl = w0.chunks.fl ∧
    (w0.notifyLoadedAt u v).1.chunks.shift = w0.chunks.shift ∧
    (w0.notifyLoadedAt u v).1.frontier = w0.frontier ∧
    Circle.wf (w0.notifyLoadedAt u v).1.chunks ∧
    (∀ a b, ((w0.notifyLoadedAt u v).1.chunks.get a b).isSome =
      (w0.chunks.get a b).isSome) ∧
    (∀ a b, ¬(a = u ∧ b = v) →
      (w0.notifyLoadedAt u v).1.chunks.get a b = w0.chunks.get a b) := by
  rcases hget : w0.chunks.get u v with _ | ch
  · simp only [World.notifyLoadedAt, hget]
    exact ⟨by trivial, by trivial, by trivial, by trivial, by trivial, hwf,
      fun a b => by trivial, fun a b _ => by trivial⟩
  · have hco := Circle.get_coords w0.chunks u v ch hget
    rw [cxOf_chunk, czOf_chunk] at hco
    have hel := Circle.get_elements w0.chunks u v ch hget
    have hdisk := hwf.2.2 _ ch (by rw [← hco.1, ← hco.2] at hel; exact hel)
    simp only [World.notifyLoadedAt, hget]
    refine ⟨by trivial, by trivial, by trivial, by trivial, by trivial, ?_, ?_, ?_⟩
    · exact store_wf w0.chunks _ hwf (by rw [hco.1]; exact hco.1 ▸ hdisk.2.1)
        (by rw [hco.2]; exact hco.2 ▸ hdisk.2.2)
    · intro a b
      by_cases hab : a = u ∧ b = v
      · have hax : a = ch.cx := hab.1.trans hco.1.symm
        have hbz : b = ch.cz := hab.2.trans hco.2.symm
        have h1 : (w0.chunks.store { ch with neighbors := ch.neighbors + 1, ready := decide (ch.neighbors + 1 = 4) }).get a b = some { ch with neighbors := ch.neighbors + 1, ready := decide (ch.neighbors + 1 = 4) } := by
          rw [hax, hbz]
          exact store_get_self w0.chunks _
        have h3 : w0.chunks.get a b = some ch := by
          rw [hab.1, hab.2]
          exact hget
        rw [h1, h3]
        rfl
      · have h2 : (w0.chunks.store { ch with neighbors := ch.neighbors + 1, ready := decide (ch.neighbors + 1 = 4) }).get a b = w0.chunks.get a b := by
          refine store_get_pres w0.chunks _ ch ?_ a b ?_
          · show w0.chunks.get ch.cx ch.cz = some ch
            rw [hco.1, hco.2]
            exact hget
          · intro hc
            exact hab ⟨hc.1.trans hco.1, hc.2.trans hco.2⟩
        rw [h2]
    · intro a b hab
      refine store_get_pres w0.chunks _ ch ?_ a b ?_
      · show w0.chunks.get ch.cx ch.cz = some ch
        rw [hco.1, hco.2]
        exact hget
      · intro hc
        exact hab ⟨hc.1.trans hco.1, hc.2.trans hco.2⟩

theorem store_new_effects (w4 : World) (ch : Chunk) (pcx pcz : Int)
    (hwf : Circle.wf w4.chunks)
    (hcx : ch.cx = pcx) (hcz : ch.cz = pcz)
    (hnone : w4.chunks.get pcx pcz = none)
    (hdx : (pcx - w4.chunks.center_x).natAbs ≤ w4.chunks.fl)
    (hdz : (pcz - w4.chunks.center_z).natAbs ≤ w4.chunks.fl) :
    Circle.wf (w4.chunks.store ch) ∧
    ∀ a b, (((w4.chunks.store ch).get a b).isSome = true ↔
      ((w4.chunks.get a b).isSome = true ∨ (a = pcx ∧ b = pcz))) := by
  have hempty : w4.chunks.elements (w4.chunks.index ch.cx ch.cz) = none := by
    rw [hcx, hcz]
    exact wf_get_none_empty w4.chunks hwf pcx pcz hdx hdz hnone
  constructor
  · exact store_wf w4.chunks ch hwf (by rw [hcx]; exact hdx) (by rw [hcz]; exact hdz)
  · intro a b
    by_cases hab : a = pcx ∧ b = pcz
    · have hget : (w4.chunks.store ch).get a b = some ch := by
        rw [hab.1, hab.2, ← hcx, ← hcz]
        exact store_get_self w4.chunks ch
      rw [hget]
      exact ⟨fun _ => Or.inr hab, fun _ => rfl⟩
    · have hget : (w4.chunks.store ch).get a b = w4.chunks.get a b := by
        refine store_get_pres_empty w4.chunks ch hempty a b ?_
        intro hc
        exact hab ⟨hc.1.trans hcx, hc.2.trans hcz⟩
      rw [hget]
      constructor
      · exact fun h => Or.inl h
      · intro h
        rcases h with h | h
        · exact h
        · exact absurd h hab

theorem loadChunkAt_effects (w0 : World) (loader : Int → Int → List ColOp)
    (pcx pcz : Int) (hwf : Circle.wf w0.chunks)
    (hnone : w0.chunks.get pcx pcz = none)
    (hdx : (pcx - w0.chunks.center_x).natAbs ≤ w0.chunks.fl)
    (hdz : (pcz - w0.chunks.center_z).natAbs ≤ w0.chunks.fl) :
    (w0.loadChunkAt loader pcx pcz).chunks.center_x = w0.chunks.center_x ∧
    (w0.loadChunkAt loader pcx pcz).chunks.center_z = w0.chunks.center_z ∧
    (w0.loadChunkAt loader pcx pcz).chunks.fl = w0.chunks.fl ∧
    (w0.loadChunkAt loader pcx pcz).chunks.shift = w0.chunks.shift ∧
    (w0.loadChunkAt loader pcx pcz).frontier = w0.frontier ∧
    Circle.wf (w0.loadChunkAt loader pcx pcz).chunks ∧
    ∀ a b, (((w0.loadChunkAt loader pcx pcz).chunks.get a b).isSome = true ↔
      ((w0.chunks.get a b).isSome = true ∨ (a = pcx ∧ b = pcz))) := by
  have hload := load_coords w0.registry loader pcx pcz w0.column
  set w1 : World := { w0 with column := (Chunk.load w0.registry loader pcx pcz w0.column).2 } with hw1
  set s1 := w1.notifyLoadedAt (pcx + 1) pcz with hs1
  set s2 := (s1.1).notifyLoadedAt (pcx - 1) pcz with hs2
  set s3 := (s2.1).notifyLoadedAt pcx (pcz + 1) with hs3
  set s4 := (s3.1).notifyLoadedAt pcx (pcz - 1) with hs4
  obtain ⟨c1x, c1z, fl1, sh1, fr1, wf1, sm1, pr1⟩ :=
    notifyLoadedAt_effects w1 (pcx + 1) pcz hwf
  obtain ⟨c2x, c2z, fl2, sh2, fr2, wf2, sm2, pr2⟩ :=
    notifyLoadedAt_effects s1.1 (pcx - 1) pcz wf1
  obtain ⟨c3x, c3z, fl3, sh3, fr3, wf3, sm3, pr3⟩ :=
    notifyLoadedAt_effects s2.1 pcx (pcz + 1) wf2
  obtain ⟨c4x, c4z, fl4, sh4, fr4, wf4, sm4, pr4⟩ :=
    notifyLoadedAt_effects s3.1 pcx (pcz - 1) wf3
  have hc4x : s4.1.chunks.center_x = w0.chunks.center_x :=
    ((c4x.trans c3x).trans c2x).trans c1x
  have hc4z : s4.1.chunks.center_z = w0.chunks.center_z :=
    ((c4z.trans c3z).trans c2z).trans c1z
  have hfl4 : s4.1.chunks.fl = w0.chunks.fl :=
    ((fl4.trans fl3).trans fl2).trans fl1
  have hsh4 : s4.1.chunks.shift = w0.chunks.shift :=
    ((sh4.trans sh3).trans sh2).trans sh1
  have hfr4 : s4.1.frontier = w0.frontier :=
    ((fr4.trans fr3).trans fr2).trans fr1
  have hsm4 : ∀ a b, (s4.1.chunks.get a b).isSome = (w0.chunks.get a b).isSome :=
    fun a b => ((sm4 a b).trans ((sm3 a b).trans ((sm2 a b).trans (sm1 a b))))
  have p1 : s1.1.chunks.get pcx pcz = w1.chunks.get pcx pcz :=
    pr1 pcx pcz (by rintro ⟨hc, _⟩; omega)
  have p2 : s2.1.chunks.get pcx pcz = s1.1.chunks.get pcx pcz :=
    pr2 pcx pcz (by rintro ⟨hc, _⟩; omega)
  have p3 : s3.1.chunks.get pcx pcz = s2.1.chunks.get pcx pcz :=
    pr3 pcx pcz (by rintro ⟨_, hc⟩; omega)
  have p4 : s4.1.chunks.get pcx pcz = s3.1.chunks.get pcx pcz :=
    pr4 pcx pcz (by rintro ⟨_, hc⟩; omega)
  have hnone4 : s4.1.chunks.get pcx pcz = none :=
    (((p4.trans p3).trans p2).trans p1).trans hnone
  have hdx4 : (pcx - s4.1.chunks.center_x).natAbs ≤ s4.1.chunks.fl := by
    rw [hc4x, hfl4]
    exact hdx
  have hdz4 : (pcz - s4.1.chunks.center_z).natAbs ≤ s4.1.chunks.fl := by
    rw [hc4z, hfl4]
    exact hdz
  set nn : Nat := (if s1.2 then 1 else 0) + (if s2.2 then 1 else 0) +
    (if s3.2 then 1 else 0) + (if s4.2 then 1 else 0) with hnn
  set CH : Chunk := { (Chunk.load w0.registry loader pcx pcz w0.column).1 with neighbors := nn, dirty := true, ready := decide (nn = 4) } with hCH
  have hchx : CH.cx = pcx := hload.1
  have hchz : CH.cz = pcz := hload.2
  obtain ⟨hwfS, hiffS⟩ := store_new_effects s4.1 CH pcx pcz wf4 hchx hchz
    hnone4 hdx4 hdz4
  refine ⟨hc4x, hc4z, hfl4, hsh4, hfr4, hwfS, ?_⟩
  intro a b
  have base := hiffS a b
  rw [hsm4 a b] at base
  exact base

theorem eachFold_inv {σ : Type} (P Q : σ → Prop) (cx cz : Int)
    (f : σ → Int → Int → σ × Bool) :
    ∀ (pts : List (Int × Int)) (s : σ), P s →
    (∀ s p, p ∈ pts → P s → (f s (p.1 + cx) (p.2 + cz)).2 = false →
      P (f s (p.1 + cx) (p.2 + cz)).1) →
    (∀ s p, p ∈ pts → P s → (f s (p.1 + cx) (p.2 + cz)).2 = true →
      Q (f s (p.1 + cx) (p.2 + cz)).1) →
    (∀ s, P s → Q s) →
    Q (eachFold pts cx cz f s) := by
  intro pts
  induction pts with
  | nil =>
    intro s hP _ _ hPQ
    exact hPQ s hP
  | cons p rest ih =>
    intro s hP hstep hdone hPQ
    by_cases hr : (f s (p.1 + cx) (p.2 + cz)).2 = true
    · have heq : eachFold (p :: rest) cx cz f s = (f s (p.1 + cx) (p.2 + cz)).1 := by
        show (if (f s (p.1 + cx) (p.2 + cz)).2 = true then (f s (p.1 + cx) (p.2 + cz)).1
              else eachFold rest cx cz f (f s (p.1 + cx) (p.2 + cz)).1) = _
        rw [if_pos hr]
      rw [heq]
      exact hdone s p (List.mem_cons_self _ _) hP hr
    · have hrf : (f s (p.1 + cx) (p.2 + cz)).2 = false := by
        revert hr
        cases (f s (p.1 + cx) (p.2 + cz)).2 <;> simp
      have heq : eachFold (p :: rest) cx cz f s =
          eachFold rest cx cz f (f s (p.1 + cx) (p.2 + cz)).1 := by
        show (if (f s (p.1 + cx) (p.2 + cz)).2 = true then (f s (p.1 + cx) (p.2 + cz)).1
              else eachFold rest cx cz f (f s (p.1 + cx) (p.2 + cz)).1) = _
        rw [if_neg hr]
      rw [heq]
      exact ih _ (hstep s p (List.mem_cons_self _ _) hP hrf)
        (fun s' p' hp' => hstep s' p' (List.mem_cons_of_mem _ hp'))
        (fun s' p' hp' => hdone s' p' (List.mem_cons_of_mem _ hp'))
        hPQ

theorem recenter_reduce (w : World) (x y z : ℚ)
    (hcx : Int.fdiv (Int.floor x) 16 = w.chunks.center_x)
    (hcz : Int.fdiv (Int.floor z) 16 = w.chunks.center_z)
    (hfr : CentersConsistent w.frontier w.chunks.center_x w.chunks.center_z
      (List.range kFrontierLevels)) :
    w.recenter x y z = (match w.loadChunk with
      | none => w
      | some loader =>
        (eachFold w.chunks.points w.chunks.center_x w.chunks.center_z
          (fun (st : World × Nat) pcx pcz =>
            match st.1.chunks.get pcx pcz with
            | some _ => (st, false)
            | none =>
              ((st.1.loadChunkAt loader pcx pcz, st.2 + 1),
               decide (st.2 + 1 = kNumChunksToLoadPerFrame)))
          (w, 0)).1) := by
  have hcr : w.chunks.center (Int.fdiv (Int.floor x) 16) (Int.fdiv (Int.floor z) 16) =
      (w.chunks, []) := by
    unfold Circle.center
    rw [if_pos ⟨hcx, hcz⟩]
  have hfc : Frontier.center w.frontier (Int.fdiv (Int.floor x) 16)
      (Int.fdiv (Int.floor z) 16) = w.frontier := by
    rw [hcx, hcz]
    exact frontier_center_id w.frontier _ _ hfr
  simp only [World.recenter]
  rw [hcr]
  simp only [List.foldl_nil]
  rw [hcx, hcz]
  rw [show Frontier.center w.frontier w.chunks.center_x w.chunks.center_z = w.frontier from by rw [← hcx, ← hcz]; exact hfc]

/-- C4 (amended): recentering at a position whose chunk coordinates equal
the chunk circle's current center (with the frontier's per-level centers
consistent, on a well-formed circle) evicts nothing and leaves every
frontier level untouched, but the load loop still runs: every already
loaded chunk stays loaded, the frontier is unchanged, and the loaded-chunk
set changes at no more than `kNumChunksToLoadPerFrame` coordinates. -/
theorem c4_recenter_same_center (w : World) (x y z : ℚ)
    (hcx : Int.fdiv (Int.floor x) 16 = w.chunks.center_x)
    (hcz : Int.fdiv (Int.floor z) 16 = w.chunks.center_z)
    (hfr : CentersConsistent w.frontier w.chunks.center_x w.chunks.center_z
      (List.range kFrontierLevels))
    (hwf : Circle.wf w.chunks) :
    (w.recenter x y z).frontier = w.frontier ∧
    (∀ a b : Int, (w.chunks.get a b).isSome = true →
      ((w.recenter x y z).chunks.get a b).isSome = true) ∧
    ∃ S : List (Int × Int), S.length ≤ kNumChunksToLoadPerFrame ∧
      ∀ a b : Int, ((w.recenter x y z).chunks.get a b).isSome ≠
        (w.chunks.get a b).isSome → (a, b) ∈ S := by
  rw [recenter_reduce w x y z hcx hcz hfr]
  rcases hl : w.loadChunk with _ | loader
  · exact ⟨rfl, fun a b h => h, ([] : List (Int × Int)), by decide,
      fun a b hne => absurd rfl hne⟩
  · refine eachFold_inv
      (fun st : World × Nat =>
        (Circle.wf st.1.chunks ∧
         st.1.chunks.center_x = w.chunks.center_x ∧
         st.1.chunks.center_z = w.chunks.center_z ∧
         st.1.chunks.fl = w.chunks.fl ∧
         st.1.frontier = w.frontier ∧
         (∀ a b : Int, (w.chunks.get a b).isSome = true →
           (st.1.chunks.get a b).isSome = true) ∧
         (∃ S : List (Int × Int), S.length ≤ st.2 ∧
           ∀ a b : Int, (st.1.chunks.get a b).isSome ≠
             (w.chunks.get a b).isSome → (a, b) ∈ S)) ∧
        st.2 < kNumChunksToLoadPerFrame)
      (fun st : World × Nat =>
        st.1.frontier = w.frontier ∧
        (∀ a b : Int, (w.chunks.get a b).isSome = true →
          (st.1.chunks.get a b).isSome = true) ∧
        ∃ S : List (Int × Int), S.length ≤ kNumChunksToLoadPerFrame ∧
          ∀ a b : Int, (st.1.chunks.get a b).isSome ≠
            (w.chunks.get a b).isSome → (a, b) ∈ S)
      w.chunks.center_x w.chunks.center_z _ w.chunks.points (w, 0)
      ?_ ?_ ?_ ?_
    · exact ⟨⟨hwf, rfl, rfl, rfl, rfl, fun a b h => h,
        ([] : List (Int × Int)), Nat.le_refl 0, fun a b hne => absurd rfl hne⟩,
        Nat.zero_lt_one⟩
    · intro st p hp hPst
      obtain ⟨⟨hwfS, hcxS, hczS, hflS, hfrS, hpresS, S, hSlen, hSin⟩, hcnt⟩ := hPst
      rcases hg : st.1.chunks.get (p.1 + w.chunks.center_x) (p.2 + w.chunks.center_z)
        with _ | ch
      · intro hfalse
        have hfalse2 : decide (st.2 + 1 = kNumChunksToLoadPerFrame) = false := hfalse
        have hdxS : ((p.1 + w.chunks.center_x) - st.1.chunks.center_x).natAbs ≤
            st.1.chunks.fl := by
          rw [hcxS, hflS]
          have := (hwf.2.1 p hp).1
          omega
        have hdzS : ((p.2 + w.chunks.center_z) - st.1.chunks.center_z).natAbs ≤
            st.1.chunks.fl := by
          rw [hczS, hflS]
          have := (hwf.2.1 p hp).2
          omega
        obtain ⟨lcx, lcz, lfl, lsh, lfr, lwf, liff⟩ :=
          loadChunkAt_effects st.1 loader (p.1 + w.chunks.center_x)
            (p.2 + w.chunks.center_z) hwfS hg hdxS hdzS
        have hcnt2 : st.2 + 1 < kNumChunksToLoadPerFrame := by
          have hne := of_decide_eq_false hfalse2
          omega
        refine ⟨⟨lwf, lcx.trans hcxS, lcz.trans hczS, lfl.trans hflS,
          lfr.trans hfrS, ?_, ?_⟩, hcnt2⟩
        · intro a b h
          exact (liff a b).mpr (Or.inl (hpresS a b h))
        · refine ⟨S ++ [(p.1 + w.chunks.center_x, p.2 + w.chunks.center_z)], ?_, ?_⟩
          · rw [List.length_append]
            simp only [List.length_singleton]
            omega
          · intro a b hne
            have hne2 : ((st.1.loadChunkAt loader (p.1 + w.chunks.center_x)
                (p.2 + w.chunks.center_z)).chunks.get a b).isSome ≠
                (w.chunks.get a b).isSome := hne
            by_cases hab : a = p.1 + w.chunks.center_x ∧ b = p.2 + w.chunks.center_z
            · refine List.mem_append.mpr (Or.inr ?_)
              rw [hab.1, hab.2]
              exact List.mem_singleton.mpr rfl
            · have hsame : ((st.1.loadChunkAt loader (p.1 + w.chunks.center_x)
                  (p.2 + w.chunks.center_z)).chunks.get a b).isSome =
                  (st.1.chunks.get a b).isSome :=
                Bool.eq_iff_iff.mpr ((liff a b).trans (or_iff_left hab))
              rw [hsame] at hne2
              exact List.mem_append.mpr (Or.inl (hSin a b hne2))
      · intro hfalse
        exact ⟨⟨hwfS, hcxS, hczS, hflS, hfrS, hpresS, S, hSlen, hSin⟩, hcnt⟩
    · intro st p hp hPst
      obtain ⟨⟨hwfS, hcxS, hczS, hflS, hfrS, hpresS, S, hSlen, hSin⟩, hcnt⟩ := hPst
      rcases hg : st.1.chunks.get (p.1 + w.chunks.center_x) (p.2 + w.chunks.center_z)
        with _ | ch
      · intro htrue
        have hdxS : ((p.1 + w.chunks.center_x) - st.1.chunks.center_x).natAbs ≤
            st.1.chunks.fl := by
          rw [hcxS, hflS]
          have := (hwf.2.1 p hp).1
          omega
        have hdzS : ((p.2 + w.chunks.center_z) - st.1.chunks.center_z).natAbs ≤
            st.1.chunks.fl := by
          rw [hczS, hflS]
          have := (hwf.2.1 p hp).2
          omega
        obtain ⟨lcx, lcz, lfl, lsh, lfr, lwf, liff⟩ :=
          loadChunkAt_effects st.1 loader (p.1 + w.chunks.center_x)
            (p.2 + w.chunks.center_z) hwfS hg hdxS hdzS
        refine ⟨lfr.trans hfrS, ?_, ?_⟩
        · intro a b h
          exact (liff a b).mpr (Or.inl (hpresS a b h))
        · refine ⟨S ++ [(p.1 + w.chunks.center_x, p.2 + w.chunks.center_z)], ?_, ?_⟩
          · rw [List.length_append]
            simp only [List.length_singleton]
            omega
          · intro a b hne
            have hne2 : ((st.1.loadChunkAt loader (p.1 + w.chunks.center_x)
                (p.2 + w.chunks.center_z)).chunks.get a b).isSome ≠
                (w.chunks.get a b).isSome := hne
            by_cases hab : a = p.1 + w.chunks.center_x ∧ b = p.2 + w.chunks.center_z
            · refine List.mem_append.mpr (Or.inr ?_)
              rw [hab.1, hab.2]
              exact List.mem_singleton.mpr rfl
            · have hsame : ((st.1.loadChunkAt loader (p.1 + w.chunks.center_x)
                  (p.2 + w.chunks.center_z)).chunks.get a b).isSome =
                  (st.1.chunks.get a b).isSome :=
                Bool.eq_iff_iff.mpr ((liff a b).trans (or_iff_left hab))
              rw [hsame] at hne2
              exact List.mem_append.mpr (Or.inl (hSin a b hne2))
      · intro htrue
        have htrue2 : (false : Bool) = true := htrue
        exact absurd htrue2 (by decide)
    · intro st hPst
      obtain ⟨⟨hwfS, hcxS, hczS, hflS, hfrS, hpresS, S, hSlen, hSin⟩, hcnt⟩ := hPst
      exact ⟨hfrS, hpresS, S, by omega, hSin⟩

set_option maxRecDepth 10000 in
theorem initChunks_wf : Circle.wf (mkCircle Chunk chunkCircleRadius) := by
  refine ⟨by decide, ?_, ?_⟩
  · intro p hp
    have hp1 : p ∈ (circleCandidates (chunkCircleRadius.floor.toNat)).filter
        (fun q => decide (distSq q * chunkCircleRadius.den ^ 2 ≤
          chunkCircleRadius.num ^ 2)) := List.mem_mergeSort.mp hp
    have hp2 : p ∈ circleCandidates 12 := (List.mem_filter.mp hp1).1
    have hall : ∀ q ∈ circleCandidates 12,
        q.1.natAbs ≤ 12 ∧ q.2.natAbs ≤ 12 := by decide
    exact hall p hp2
  · intro i ch hel
    exact Option.noConfusion hel

/-- Witness for C4: a fresh world (no loader) recentered at the origin. -/
theorem c4_recenter_same_center_witness :
    ((Int.fdiv (Int.floor (0:ℚ)) 16 = (World.init regDefault).chunks.center_x ∧
      Int.fdiv (Int.floor (0:ℚ)) 16 = (World.init regDefault).chunks.center_z ∧
      CentersConsistent (World.init regDefault).frontier
        (World.init regDefault).chunks.center_x
        (World.init regDefault).chunks.center_z (List.range kFrontierLevels) ∧
      Circle.wf (World.init regDefault).chunks) ∧
     ((World.init regDefault).recenter 0 0 0).frontier =
       (World.init regDefault).frontier) :=
  ⟨⟨by rw [Int.floor_zero]; rfl, by rw [Int.floor_zero]; rfl,
    ⟨rfl, rfl, rfl, rfl, rfl, rfl, rfl, rfl, rfl, rfl, rfl, rfl, trivial⟩,
    initChunks_wf⟩,
   (c4_recenter_same_center (World.init regDefault) 0 0 0
     (by rw [Int.floor_zero]; rfl) (by rw [Int.floor_zero]; rfl)
     ⟨rfl, rfl, rfl, rfl, rfl, rfl, rfl, rfl, rfl, rfl, rfl, rfl, trivial⟩
     initChunks_wf).1⟩

set_option maxRecDepth 10000 in
theorem initPoints_head :
    ∃ rest, (mkCircle Chunk chunkCircleRadius).points =
      ((0 : Int), (0 : Int)) :: rest := by
  have hmem : ((0 : Int), (0 : Int)) ∈ (mkCircle Chunk chunkCircleRadius).points := by
    refine List.mem_mergeSort.mpr ?_
    decide
  have hsorted : List.Pairwise
      (fun a b : Int × Int => (decide (distSq a ≤ distSq b)) = true)
      ((mkCircle Chunk chunkCircleRadius).points) := by
    exact List.sorted_mergeSort
      (fun a b c h1 h2 => by
        simp only [decide_eq_true_eq] at h1 h2 ⊢
        omega)
      (fun a b => by
        rcases le_total (distSq a) (distSq b) with h | h
        · simp [h]
        · simp [h])
      ((circleCandidates (chunkCircleRadius.floor.toNat)).filter
        (fun q => decide (distSq q * chunkCircleRadius.den ^ 2 ≤
          chunkCircleRadius.num ^ 2)))
  rcases hL : (mkCircle Chunk chunkCircleRadius).points with _ | ⟨h, rest⟩
  · rw [hL] at hmem
    exact absurd hmem (List.not_mem_nil _)
  · refine ⟨rest, ?_⟩
    rw [hL] at hmem hsorted
    rcases List.mem_cons.mp hmem with he | he
    · rw [← he]
    · have hle := (List.pairwise_cons.mp hsorted).1 _ he
      rw [decide_eq_true_eq] at hle
      have h1 : h.1 * h.1 + h.2 * h.2 ≤ 0 := hle
      have hxx : h.1 * h.1 = 0 :=
        le_antisymm (by nlinarith [mul_self_nonneg h.2]) (mul_self_nonneg h.1)
      have hzz : h.2 * h.2 = 0 :=
        le_antisymm (by nlinarith [mul_self_nonneg h.1]) (mul_self_nonneg h.2)
      have hx : h.1 = 0 := mul_self_eq_zero.mp hxx
      have hz : h.2 = 0 := mul_self_eq_zero.mp hzz
      rw [show h = ((0 : Int), (0 : Int)) from by
        rcases h with ⟨ha, hb⟩
        simp_all]

set_option maxRecDepth 10000 in
/-- C4 counterexample: in a fresh world with a loader installed, calling
`recenter` at the origin — whose chunk coordinates equal the current
(origin) centers — still loads the chunk at `(0, 0)`: the loaded-chunk set
is not left unchanged. -/
theorem c4_counterexample_recenter_loads :
    Int.fdiv (Int.floor (0:ℚ)) 16 = wLoadedC4.chunks.center_x ∧
    Int.fdiv (Int.floor (0:ℚ)) 16 = wLoadedC4.chunks.center_z ∧
    wLoadedC4.chunks.get 0 0 = none ∧
    ((wLoadedC4.recenter 0 0 0).chunks.get 0 0).isSome = true := by
  have hcx : Int.fdiv (Int.floor (0:ℚ)) 16 = wLoadedC4.chunks.center_x := by
    rw [Int.floor_zero]
    rfl
  have hcz : Int.fdiv (Int.floor (0:ℚ)) 16 = wLoadedC4.chunks.center_z := by
    rw [Int.floor_zero]
    rfl
  have hfr : CentersConsistent wLoadedC4.frontier wLoadedC4.chunks.center_x
      wLoadedC4.chunks.center_z (List.range kFrontierLevels) :=
    ⟨rfl, rfl, rfl, rfl, rfl, rfl, rfl, rfl, rfl, rfl, rfl, rfl, trivial⟩
  refine ⟨hcx, hcz, rfl, ?_⟩
  rw [recenter_reduce wLoadedC4 0 0 0 hcx hcz hfr]
  obtain ⟨rest, hpts⟩ := initPoints_head
  have hpts2 : wLoadedC4.chunks.points = ((0 : Int), (0 : Int)) :: rest := hpts
  rw [hpts2]
  have hwf : Circle.wf wLoadedC4.chunks := initChunks_wf
  have hnone : wLoadedC4.chunks.get (0 + wLoadedC4.chunks.center_x)
      (0 + wLoadedC4.chunks.center_z) = none := rfl
  obtain ⟨lcx, lcz, lfl, lsh, lfr, lwf, liff⟩ :=
    loadChunkAt_effects wLoadedC4 emptyLoader (0 + wLoadedC4.chunks.center_x)
      (0 + wLoadedC4.chunks.center_z) hwf hnone (by decide) (by decide)
  have hfin : ((wLoadedC4.loadChunkAt emptyLoader
      (0 + wLoadedC4.chunks.center_x) (0 + wLoadedC4.chunks.center_z)).chunks.get
      0 0).isSome = true :=
    (liff 0 0).mpr (Or.inr ⟨by decide, by decide⟩)
  exact hfin

/-! ## C6: the remesh walk's order and meshing budget -/

theorem remeshStep_shape (st : RemeshWalk) (pcx pcz : Int) :
    ∃ (dm : Nat) (dr : List Nat) (dn : Bool),
    ((fun (st : RemeshWalk) cx cz =>
      let total := st.total + 1
      if 9 < total ∧ kNumChunksToMeshPerFrame ≤ st.meshed then
        ({ st with total := total, visited := st.visited ++ [(cx, cz)] }, true)
      else
        match (st.w).chunks.get cx cz with
        | none =>
          ({ st with total := total, visited := st.visited ++ [(cx, cz)] }, false)
        | some ch =>
          if ch.needsRemesh = false then
            ({ st with total := total, visited := st.visited ++ [(cx, cz)] }, false)
          else
            let w1 := if !ch.hasMesh then
                { st.w with frontier := (st.w).frontier.markDirty 0 }
              else st.w
            let w2 := w1.remeshChunkAt cx cz
            ({ w := w2, meshed := st.meshed + 1, total := total,
               visited := st.visited ++ [(cx, cz)],
               remeshedAt := st.remeshedAt ++ [total] }, false)) st pcx pcz).1.meshed =
      st.meshed + dm ∧
    ((fun (st : RemeshWalk) cx cz =>
      let total := st.total + 1
      if 9 < total ∧ kNumChunksToMeshPerFrame ≤ st.meshed then
        ({ st with total := total, visited := st.visited ++ [(cx, cz)] }, true)
      else
        match (st.w).chunks.get cx cz with
        | none =>
          ({ st with total := total, visited := st.visited ++ [(cx, cz)] }, false)
        | some ch =>
          if ch.needsRemesh = false then
            ({ st with total := total, visited := st.visited ++ [(cx, cz)] }, false)
          else
            let w1 := if !ch.hasMesh then
                { st.w with frontier := (st.w).frontier.markDirty 0 }
              else st.w
            let w2 := w1.remeshChunkAt cx cz
            ({ w := w2, meshed := st.meshed + 1, total := total,
               visited := st.visited ++ [(cx, cz)],
               remeshedAt := st.remeshedAt ++ [total] }, false)) st pcx pcz).1.visited =
      st.visited ++ [(pcx, pcz)] ∧
    ((fun (st : RemeshWalk) cx cz =>
      let total := st.total + 1
      if 9 < total ∧ kNumChunksToMeshPerFrame ≤ st.meshed then
        ({ st with total := total, visited := st.visited ++ [(cx, cz)] }, true)
      else
        match (st.w).chunks.get cx cz with
        | none =>
          ({ st with total := total, visited := st.visited ++ [(cx, cz)] }, false)
        | some ch =>
          if ch.needsRemesh = false then
            ({ st with total := total, visited := st.visited ++ [(cx, cz)] }, false)
          else
            let w1 := if !ch.hasMesh then
                { st.w with frontier := (st.w).frontier.markDirty 0 }
              else st.w
            let w2 := w1.remeshChunkAt cx cz
            ({ w := w2, meshed := st.meshed + 1, total := total,
               visited := st.visited ++ [(cx, cz)],
               remeshedAt := st.remeshedAt ++ [total] }, false)) st pcx pcz).1.remeshedAt =
      st.remeshedAt ++ dr ∧
    ((fun (st : RemeshWalk) cx cz =>
      let total := st.total + 1
      if 9 < total ∧ kNumChunksToMeshPerFrame ≤ st.meshed then
        ({ st with total := total, visited := st.visited ++ [(cx, cz)] }, true)
      else
        match (st.w).chunks.get cx cz with
        | none =>
          ({ st with total := total, visited := st.visited ++ [(cx, cz)] }, false)
        | some ch =>
          if ch.needsRemesh = false then
            ({ st with total := total, visited := st.visited ++ [(cx, cz)] }, false)
          else
            let w1 := if !ch.hasMesh then
                { st.w with frontier := (st.w).frontier.markDirty 0 }
              else st.w
            let w2 := w1.remeshChunkAt cx cz
            ({ w := w2, meshed := st.meshed + 1, total := total,
               visited := st.visited ++ [(cx, cz)],
               remeshedAt := st.remeshedAt ++ [total] }, false)) st pcx pcz).2 = dn ∧
    ((dm = 0 ∧ dr = ([] : List Nat)) ∨
     (dm = 1 ∧ dr = [st.total + 1] ∧ dn = false ∧
      (9 < st.total + 1 → st.meshed < kNumChunksToMeshPerFrame))) := by
  by_cases hguard : 9 < st.total + 1 ∧ kNumChunksToMeshPerFrame ≤ st.meshed
  · refine ⟨0, [], true, ?_, ?_, ?_, ?_, Or.inl ⟨rfl, rfl⟩⟩ <;>
      show _ = _ <;>
      simp only [if_pos hguard] <;>
      first
        | rfl
        | exact (List.append_nil _).symm
  · rcases hget : (st.w).chunks.get pcx pcz with _ | ch
    · refine ⟨0, [], false, ?_, ?_, ?_, ?_, Or.inl ⟨rfl, rfl⟩⟩ <;>
        simp only [if_neg hguard, hget] <;>
        first
          | rfl
          | exact (List.append_nil _).symm
    · by_cases hnr : ch.needsRemesh = false
      · refine ⟨0, [], false, ?_, ?_, ?_, ?_, Or.inl ⟨rfl, rfl⟩⟩ <;>
          simp only [if_neg hguard, hget, if_pos hnr] <;>
          first
            | rfl
            | exact (List.append_nil _).symm
      · refine ⟨1, [st.total + 1], false, ?_, ?_, ?_, ?_,
          Or.inr ⟨rfl, rfl, rfl, fun h9 => by omega⟩⟩ <;>
          simp only [if_neg hguard, hget, if_neg hnr] <;>
          rfl

theorem remeshFold_general (cx cz : Int)
    (g : RemeshWalk → Int → Int → RemeshWalk × Bool)
    (hshape : ∀ st pcx pcz, ∃ (dm : Nat) (dr : List Nat) (dn : Bool),
      (g st pcx pcz).1.meshed = st.meshed + dm ∧
      (g st pcx pcz).1.visited = st.visited ++ [(pcx, pcz)] ∧
      (g st pcx pcz).1.remeshedAt = st.remeshedAt ++ dr ∧
      (g st pcx pcz).2 = dn ∧
      ((dm = 0 ∧ dr = ([] : List Nat)) ∨
       (dm = 1 ∧ dr = [st.total + 1] ∧ dn = false ∧
        (9 < st.total + 1 → st.meshed < kNumChunksToMeshPerFrame)))) :
    ∀ (pts : List (Int × Int)) (st : RemeshWalk),
    st.remeshedAt.countP (fun t => decide (9 < t)) ≤ st.meshed →
    st.remeshedAt.countP (fun t => decide (9 < t)) ≤ kNumChunksToMeshPerFrame →
    (∃ pre suf, pts = pre ++ suf ∧
      (eachFold pts cx cz g st).visited =
        st.visited ++ pre.map (fun p => (p.1 + cx, p.2 + cz))) ∧
    (eachFold pts cx cz g st).remeshedAt.countP (fun t => decide (9 < t)) ≤
      kNumChunksToMeshPerFrame := by
  intro pts
  induction pts with
  | nil =>
    intro st h1 h2
    refine ⟨⟨[], [], rfl, (List.append_nil _).symm⟩, h2⟩
  | cons p rest ih =>
    intro st h1 h2
    obtain ⟨dm, dr, dn, hm, hv, hr, hd, hcase⟩ := hshape st (p.1 + cx) (p.2 + cz)
    have hPC : (g st (p.1 + cx) (p.2 + cz)).1.remeshedAt.countP
          (fun t => decide (9 < t)) ≤ kNumChunksToMeshPerFrame ∧
        (g st (p.1 + cx) (p.2 + cz)).1.remeshedAt.countP
          (fun t => decide (9 < t)) ≤ (g st (p.1 + cx) (p.2 + cz)).1.meshed := by
      rw [hr, hm, List.countP_append]
      rcases hcase with ⟨hdm, hdr⟩ | ⟨hdm, hdr, hdn, himp⟩
      · rw [hdm, hdr]
        simp only [List.countP_nil]
        omega
      · rw [hdm, hdr]
        by_cases h9 : 9 < st.total + 1
        · have hd9 : decide (9 < st.total + 1) = true := decide_eq_true h9
          rw [List.countP_cons, List.countP_nil, hd9, if_pos rfl]
          have := himp h9
          omega
        · have hd9 : decide (9 < st.total + 1) = false := by
            simp only [decide_eq_false_iff_not]
            exact h9
          rw [List.countP_cons, List.countP_nil, hd9,
            if_neg Bool.false_ne_true]
          omega
    by_cases hdone : (g st (p.1 + cx) (p.2 + cz)).2 = true
    · have heach : eachFold (p :: rest) cx cz g st = (g st (p.1 + cx) (p.2 + cz)).1 := by
        show (if (g st (p.1 + cx) (p.2 + cz)).2 = true then (g st (p.1 + cx) (p.2 + cz)).1
              else eachFold rest cx cz g (g st (p.1 + cx) (p.2 + cz)).1) = _
        rw [if_pos hdone]
      rw [heach]
      refine ⟨⟨[p], rest, rfl, ?_⟩, hPC.1⟩
      rw [hv]
      rfl
    · have heach : eachFold (p :: rest) cx cz g st =
          eachFold rest cx cz g (g st (p.1 + cx) (p.2 + cz)).1 := by
        show (if (g st (p.1 + cx) (p.2 + cz)).2 = true then (g st (p.1 + cx) (p.2 + cz)).1
              else eachFold rest cx cz g (g st (p.1 + cx) (p.2 + cz)).1) = _
        rw [if_neg hdone]
      rw [heach]
      obtain ⟨⟨pre2, suf2, hsplit, hvis⟩, hbound⟩ :=
        ih (g st (p.1 + cx) (p.2 + cz)).1 hPC.2 hPC.1
      refine ⟨⟨p :: pre2, suf2, by rw [hsplit]; rfl, ?_⟩, hbound⟩
      rw [hvis, hv]
      simp [List.append_assoc]

theorem initPoints_sorted :
    List.Pairwise (fun a b : Int × Int => distSq a ≤ distSq b)
      (mkCircle Chunk chunkCircleRadius).points := by
  have hdec : List.Pairwise
      (fun a b : Int × Int => (decide (distSq a ≤ distSq b)) = true)
      ((mkCircle Chunk chunkCircleRadius).points) := by
    exact List.sorted_mergeSort
      (fun a b c h1 h2 => by
        simp only [decide_eq_true_eq] at h1 h2 ⊢
        omega)
      (fun a b => by
        rcases le_total (distSq a) (distSq b) with h | h
        · simp [h]
        · simp [h])
      ((circleCandidates (chunkCircleRadius.floor.toNat)).filter
        (fun q => decide (distSq q * chunkCircleRadius.den ^ 2 ≤
          chunkCircleRadius.num ^ 2)))
  exact hdec.imp (fun h => of_decide_eq_true h)

/-- C6: during one `remesh()` chunk walk, the chunks are visited along a
prefix of the circle's distance-sorted point list translated to the
current center — nearest first — and the number of chunks remeshed past
the 9-chunk core (`total > 9`) never exceeds `kNumChunksToMeshPerFrame`. -/
theorem c6_remesh_order_budget (w : World)
    (hsorted : List.Pairwise (fun a b : Int × Int => distSq a ≤ distSq b)
      w.chunks.points) :
    (∃ pre suf, w.chunks.points = pre ++ suf ∧
      (w.remeshWalk).visited = pre.map
        (fun p => (p.1 + w.chunks.center_x, p.2 + w.chunks.center_z))) ∧
    List.Pairwise (fun v u : Int × Int =>
      distSq (v.1 - w.chunks.center_x, v.2 - w.chunks.center_z) ≤
      distSq (u.1 - w.chunks.center_x, u.2 - w.chunks.center_z))
      (w.remeshWalk).visited ∧
    (w.remeshWalk).remeshedAt.countP (fun t => decide (9 < t)) ≤
      kNumChunksToMeshPerFrame := by
  have hfold := remeshFold_general w.chunks.center_x w.chunks.center_z _
    remeshStep_shape w.chunks.points
    { w := w, meshed := 0, total := 0, visited := [], remeshedAt := [] }
    (Nat.zero_le _) (Nat.zero_le _)
  obtain ⟨⟨pre, suf, hsplit, hvis⟩, hbound⟩ := hfold
  have hvis2 : (w.remeshWalk).visited = pre.map
      (fun p => (p.1 + w.chunks.center_x, p.2 + w.chunks.center_z)) := hvis
  have hbound2 : (w.remeshWalk).remeshedAt.countP (fun t => decide (9 < t)) ≤
      kNumChunksToMeshPerFrame := hbound
  refine ⟨⟨pre, suf, hsplit, hvis2⟩, ?_, hbound2⟩
  rw [hvis2]
  have hpre : List.Pairwise (fun a b : Int × Int => distSq a ≤ distSq b) pre := by
    rw [hsplit] at hsorted
    exact (List.pairwise_append.mp hsorted).1
  refine List.Pairwise.map _ ?_ hpre
  intro a b hab
  show distSq ((a.1 + w.chunks.center_x) - w.chunks.center_x,
      (a.2 + w.chunks.center_z) - w.chunks.center_z) ≤
    distSq ((b.1 + w.chunks.center_x) - w.chunks.center_x,
      (b.2 + w.chunks.center_z) - w.chunks.center_z)
  rw [show (a.1 + w.chunks.center_x) - w.chunks.center_x = a.1 from by ring,
      show (a.2 + w.chunks.center_z) - w.chunks.center_z = a.2 from by ring,
      show (b.1 + w.chunks.center_x) - w.chunks.center_x = b.1 from by ring,
      show (b.2 + w.chunks.center_z) - w.chunks.center_z = b.2 from by ring]
  exact hab

/-- Witness for C6: the fresh world's circle is distance-sorted, and its
remesh walk stays within the past-core meshing budget. -/
theorem c6_remesh_order_budget_witness :
    (List.Pairwise (fun a b : Int × Int => distSq a ≤ distSq b)
      (World.init regDefault).chunks.points) ∧
    ((World.init regDefault).remeshWalk).remeshedAt.countP
      (fun t => decide (9 < t)) ≤ kNumChunksToMeshPerFrame :=
  ⟨initPoints_sorted,
   (c6_remesh_order_budget (World.init regDefault) initPoints_sorted).2.2⟩

/-! ## C3: the per-level LOD meshing budget -/

theorem lodStep_preserves (baseMeshed : Int → Int → Bool) (hasLoader : Bool)
    (l : Nat) (st : LODState) (cx cz : Int)
    (h1 : st.freshCnt ≤ st.counter)
    (h2 : st.freshCnt ≤ kNumLODChunksToMeshPerFrame)
    (h3 : st.skFresh = true → st.skipped = true) :
    (Frontier.lodStep baseMeshed hasLoader l st cx cz).1.freshCnt ≤
      (Frontier.lodStep baseMeshed hasLoader l st cx cz).1.counter ∧
    (Frontier.lodStep baseMeshed hasLoader l st cx cz).1.freshCnt ≤
      kNumLODChunksToMeshPerFrame ∧
    ((Frontier.lodStep baseMeshed hasLoader l st cx cz).1.skFresh = true →
      (Frontier.lodStep baseMeshed hasLoader l st cx cz).1.skipped = true) := by
  simp only [Frontier.lodStep]
  rcases hAv : (st.f.levels l).get cx cz with _ | t
  · simp only [Option.isNone_none, Bool.true_and]
    rcases Bool.eq_false_or_eq_true
      (Frontier.lodMask st.f baseMeshed l cx cz != 15 &&
       (decide (st.counter < kNumLODChunksToMeshPerFrame) ||
        Frontier.lodMask st.f baseMeshed l cx cz != 0)) with hCR | hCR
    · rw [hCR]
      simp only [Bool.not_true]
      rw [if_neg Bool.false_ne_true]
      refine ⟨?_, ?_, ?_⟩
      · split
        · show st.freshCnt +
            (if (Frontier.lodMask st.f baseMeshed l cx cz == 0) = true
             then 1 else 0) ≤ st.counter + 1
          split
          · omega
          · omega
        · exact h1
      · split
        · show st.freshCnt +
            (if (Frontier.lodMask st.f baseMeshed l cx cz == 0) = true
             then 1 else 0) ≤ kNumLODChunksToMeshPerFrame
          split
          · rename_i hm
            have hm0 : Frontier.lodMask st.f baseMeshed l cx cz = 0 :=
              beq_iff_eq.mp hm
            rw [hm0] at hCR
            simp at hCR
            omega
          · omega
        · exact h2
      · intro h
        rw [h3 h, Bool.true_or]
    · rw [hCR]
      simp only [Bool.not_false, Bool.and_true]
      rw [if_pos True.intro]
      refine ⟨h1, h2, ?_⟩
      intro h
      have h4 : (st.skFresh ||
          (Frontier.lodMask st.f baseMeshed l cx cz != 15)) = true := h
      rw [Bool.or_eq_true] at h4
      rcases h4 with h4 | h4
      · rw [h3 h4, Bool.true_or]
      · rw [h4]
        exact Bool.or_true st.skipped
  · simp only [Option.isNone_some, Bool.false_and]
    rw [if_neg Bool.false_ne_true]
    rw [if_neg Bool.false_ne_true]
    refine ⟨?_, ?_, ?_⟩
    · split
      · show st.freshCnt + 0 ≤ st.counter + 1
        omega
      · exact h1
    · split
      · show st.freshCnt + 0 ≤ kNumLODChunksToMeshPerFrame
        omega
      · exact h2
    · intro h
      rw [h3 h, Bool.true_or]

theorem Frontier.showTile_dirty (f : Frontier) (t : FrontierChunk)
    (f2 : Frontier) (h : f.showTile t = some f2) : f2.dirty = f.dirty := by
  unfold Frontier.showTile at h
  split at h
  · split at h
    · rw [← Option.some.inj h]
    · exact Option.noConfusion h
  · exact Option.noConfusion h

theorem Frontier.createLODMeshes_dirty (f : Frontier) (hb : Bool)
    (t : FrontierChunk) : (f.createLODMeshes hb t).dirty = f.dirty := by
  unfold Frontier.createLODMeshes
  split
  · rfl
  · split
    · rfl
    · rfl

theorem Frontier.createLODMeshes_mono (f : Frontier) (hb : Bool)
    (t : FrontierChunk) (m : Nat) (h : f.dirty m = true) :
    (f.createLODMeshes hb t).dirty m = true := by
  rw [Frontier.createLODMeshes_dirty]
  exact h

theorem Frontier.markDirty_mono (f : Frontier) (j m : Nat)
    (h : f.dirty m = true) : (f.markDirty j).dirty m = true := by
  unfold Frontier.markDirty
  split
  · show Function.update f.dirty j true m = true
    by_cases hm : m = j
    · subst hm
      exact Function.update_same m true f.dirty
    · rw [Function.update_noteq hm]
      exact h
  · exact h

theorem Frontier.getOrCreateMultiMesh_dirty (f : Frontier) (cx cz : Int)
    (lvl : Nat) : ((f.getOrCreateMultiMesh cx cz lvl).1).dirty = f.dirty := by
  simp only [Frontier.getOrCreateMultiMesh]
  split
  · rfl
  · rfl

theorem Frontier.createFrontierChunk_mono (f : Frontier) (cx cz : Int)
    (lvl m : Nat) (h : f.dirty m = true) :
    ((f.createFrontierChunk cx cz lvl).1).dirty m = true := by
  simp only [Frontier.createFrontierChunk]
  split
  · apply Frontier.markDirty_mono
    rw [Frontier.getOrCreateMultiMesh_dirty]
    exact h
  · show ((f.getOrCreateMultiMesh (Int.fdiv cx 4) (Int.fdiv cz 4) lvl).1).dirty m = true
    rw [Frontier.getOrCreateMultiMesh_dirty]
    exact h

theorem showTile_getD_dirty (f : Frontier) (t : FrontierChunk) :
    ((f.showTile t).getD f).dirty = f.dirty := by
  rcases hst : f.showTile t with _ | f2
  · rfl
  · show f2.dirty = f.dirty
    exact Frontier.showTile_dirty f t f2 hst

theorem lodStep_dirty_mono (baseMeshed : Int → Int → Bool) (hasLoader : Bool)
    (l m : Nat) (st : LODState) (cx cz : Int)
    (hd : st.f.dirty m = true) :
    (Frontier.lodStep baseMeshed hasLoader l st cx cz).1.f.dirty m = true := by
  simp only [Frontier.lodStep]
  rcases hAv : (st.f.levels l).get cx cz with _ | t
  · split
    · exact hd
    · simp only [showTile_getD_dirty]
      split
      · apply Frontier.markDirty_mono
        apply Frontier.createLODMeshes_mono
        show (Frontier.createFrontierChunk st.f cx cz l).1.dirty m = true
        exact Frontier.createFrontierChunk_mono st.f cx cz l m hd
      · show (Frontier.createFrontierChunk st.f cx cz l).1.dirty m = true
        exact Frontier.createFrontierChunk_mono st.f cx cz l m hd
  · split
    · exact hd
    · simp only [showTile_getD_dirty]
      split
      · apply Frontier.markDirty_mono
        apply Frontier.createLODMeshes_mono
        exact hd
      · exact hd

theorem computeLOD_report (f : Frontier) (baseMeshed : Int → Int → Bool)
    (hasLoader : Bool) (l : Nat) :
    (Frontier.computeLODAtLevel f baseMeshed hasLoader l).2.freshEmptyMaskMeshes ≤
      kNumLODChunksToMeshPerFrame ∧
    ((Frontier.computeLODAtLevel f baseMeshed hasLoader l).2.skippedFresh = true →
      (Frontier.computeLODAtLevel f baseMeshed hasLoader l).1.dirty l = true) := by
  simp only [Frontier.computeLODAtLevel]
  split
  · exact ⟨Nat.zero_le _, fun h => absurd h Bool.false_ne_true⟩
  · rename_i hdl
    have hdt : f.dirty l = true := by
      rcases hb : f.dirty l with _ | _
      · exact absurd hb hdl
      · rfl
    have key : (fun st : LODState =>
        st.freshCnt ≤ kNumLODChunksToMeshPerFrame ∧
        (st.skFresh = true → st.skipped = true) ∧
        st.f.dirty l = true)
        (eachFold (f.levels l).points (f.levels l).center_x
          (f.levels l).center_z (Frontier.lodStep baseMeshed hasLoader l)
          { f := f, counter := 0, freshCnt := 0, skFresh := false,
            skipped := false, aborted := false }) :=
      eachFold_inv
        (fun st : LODState => st.freshCnt ≤ st.counter ∧
          st.freshCnt ≤ kNumLODChunksToMeshPerFrame ∧
          (st.skFresh = true → st.skipped = true) ∧
          st.f.dirty l = true)
        (fun st : LODState => st.freshCnt ≤ kNumLODChunksToMeshPerFrame ∧
          (st.skFresh = true → st.skipped = true) ∧
          st.f.dirty l = true)
        _ _ _ _ _
        ⟨Nat.le_refl 0, Nat.zero_le _, fun h => absurd h Bool.false_ne_true,
         hdt⟩
        (fun s p _ hP _ =>
          ⟨(lodStep_preserves baseMeshed hasLoader l s _ _
              hP.1 hP.2.1 hP.2.2.1).1,
           (lodStep_preserves baseMeshed hasLoader l s _ _
              hP.1 hP.2.1 hP.2.2.1).2.1,
           (lodStep_preserves baseMeshed hasLoader l s _ _
              hP.1 hP.2.1 hP.2.2.1).2.2,
           lodStep_dirty_mono baseMeshed hasLoader l l s _ _ hP.2.2.2⟩)
        (fun s p _ hP _ =>
          ⟨(lodStep_preserves baseMeshed hasLoader l s _ _
              hP.1 hP.2.1 hP.2.2.1).2.1,
           (lodStep_preserves baseMeshed hasLoader l s _ _
              hP.1 hP.2.1 hP.2.2.1).2.2,
           lodStep_dirty_mono baseMeshed hasLoader l l s _ _ hP.2.2.2⟩)
        (fun _ hP => ⟨hP.2.1, hP.2.2.1, hP.2.2.2⟩)
    split
    · exact ⟨key.1, fun _ => key.2.2⟩
    · exact ⟨key.1, fun h =>
        (Function.update_same l _ _).trans (key.2.1 h)⟩

theorem computeLOD_dirty_mono (f : Frontier) (baseMeshed : Int → Int → Bool)
    (hasLoader : Bool) (l m : Nat) (hne : m ≠ l)
    (hd : f.dirty m = true) :
    (Frontier.computeLODAtLevel f baseMeshed hasLoader l).1.dirty m = true := by
  simp only [Frontier.computeLODAtLevel]
  split
  · exact hd
  · have key : (fun st : LODState => st.f.dirty m = true)
        (eachFold (f.levels l).points (f.levels l).center_x
          (f.levels l).center_z (Frontier.lodStep baseMeshed hasLoader l)
          { f := f, counter := 0, freshCnt := 0, skFresh := false,
            skipped := false, aborted := false }) :=
      eachFold_inv
        (fun st : LODState => st.f.dirty m = true)
        (fun st : LODState => st.f.dirty m = true)
        _ _ _ _ _ hd
        (fun s p _ hP _ => lodStep_dirty_mono baseMeshed hasLoader l m s _ _ hP)
        (fun s p _ hP _ => lodStep_dirty_mono baseMeshed hasLoader l m s _ _ hP)
        (fun _ hP => hP)
    split
    · exact key
    · exact (Function.update_noteq hne _ _).trans key

theorem remeshFold_stuck (baseMeshed : Int → Int → Bool) (hasLoader : Bool) :
    ∀ (n s : Nat) (acc : Frontier × List LODReport),
    acc.2.any (fun q => q.aborted) = true →
    (List.range' s n).foldl (fun a l =>
      if a.2.any (fun q => q.aborted) then a
      else ((Frontier.computeLODAtLevel a.1 baseMeshed hasLoader l).1,
            a.2 ++ [(Frontier.computeLODAtLevel a.1 baseMeshed hasLoader l).2]))
      acc = acc := by
  intro n
  induction n with
  | zero =>
    intro s acc _
    rfl
  | succ n ih =>
    intro s acc hab
    rw [List.range'_succ, List.foldl_cons, if_pos hab]
    exact ih (s + 1) acc hab

theorem remeshFold_inv (baseMeshed : Int → Int → Bool) (hasLoader : Bool) :
    ∀ (n s : Nat) (acc : Frontier × List LODReport), acc.2.length = s →
    (∀ i r, acc.2[i]? = some r →
      r.freshEmptyMaskMeshes ≤ kNumLODChunksToMeshPerFrame ∧
      (r.skippedFresh = true → acc.1.dirty i = true)) →
    ∀ i r,
      ((List.range' s n).foldl (fun a l =>
        if a.2.any (fun q => q.aborted) then a
        else ((Frontier.computeLODAtLevel a.1 baseMeshed hasLoader l).1,
              a.2 ++ [(Frontier.computeLODAtLevel a.1 baseMeshed hasLoader l).2]))
        acc).2[i]? = some r →
      r.freshEmptyMaskMeshes ≤ kNumLODChunksToMeshPerFrame ∧
      (r.skippedFresh = true →
        ((List.range' s n).foldl (fun a l =>
          if a.2.any (fun q => q.aborted) then a
          else ((Frontier.computeLODAtLevel a.1 baseMeshed hasLoader l).1,
                a.2 ++ [(Frontier.computeLODAtLevel a.1 baseMeshed hasLoader
                  l).2]))
          acc).1.dirty i = true) := by
  intro n
  induction n with
  | zero =>
    intro s acc _ hinv i r h
    exact hinv i r h
  | succ n ih =>
    intro s acc hlen hinv i r
    rw [List.range'_succ, List.foldl_cons]
    by_cases hab : acc.2.any (fun q => q.aborted) = true
    · rw [if_pos hab, remeshFold_stuck baseMeshed hasLoader n (s + 1) acc hab]
      exact hinv i r
    · rw [if_neg hab]
      apply ih (s + 1)
        ((Frontier.computeLODAtLevel acc.1 baseMeshed hasLoader s).1,
         acc.2 ++ [(Frontier.computeLODAtLevel acc.1 baseMeshed hasLoader s).2])
      · show (acc.2 ++ [(Frontier.computeLODAtLevel acc.1 baseMeshed
          hasLoader s).2]).length = s + 1
        rw [List.length_append, hlen]
        rfl
      · intro j q hq
        by_cases hj : j < acc.2.length
        · rw [List.getElem?_append_left hj] at hq
          refine ⟨(hinv j q hq).1, fun hs => ?_⟩
          exact computeLOD_dirty_mono acc.1 baseMeshed hasLoader s j
            (Nat.ne_of_lt (hlen ▸ hj)) ((hinv j q hq).2 hs)
        · rw [List.getElem?_append_right (Nat.le_of_not_lt hj)] at hq
          by_cases hj2 : j = acc.2.length
          · have hz : j - acc.2.length = 0 := by omega
            rw [hz] at hq
            have hq2 : (Frontier.computeLODAtLevel acc.1 baseMeshed hasLoader
                s).2 = q := Option.some.inj hq
            have hj3 : j = s := by omega
            subst hj3
            rw [← hq2]
            exact computeLOD_report acc.1 baseMeshed hasLoader j
          · have hz : [(Frontier.computeLODAtLevel acc.1 baseMeshed hasLoader
                s).2].length ≤ j - acc.2.length := by
              simp only [List.length_singleton]
              omega
            rw [List.getElem?_eq_none hz] at hq
            exact Option.noConfusion hq

/-- C3: during one `Frontier.remeshFrontier` call, at each level at most
`kNumLODChunksToMeshPerFrame` fresh tiles with an all-unmeshed child mask
have meshes created for them, and if a fresh tile that should be shown was
skipped for budget reasons the level dirty flag remains true afterwards —
also when the walk is cut short by the `assert(this.meshed[index])` abort
in `LODMultiMesh.show`, since the aborted level never runs its trailing
`dirty[l] = skipped` write.  (The original claim bounded all
`createLODMeshes` invocations; the budget check only gates fresh tiles
whose child mask is 0, see the counterexample.) -/
theorem c3_lod_budget (f : Frontier) (baseMeshed : Int → Int → Bool)
    (hasLoader : Bool) (l : Nat) (r : LODReport)
    (h : (Frontier.remeshFrontier f baseMeshed hasLoader).2[l]? = some r) :
    r.freshEmptyMaskMeshes ≤ kNumLODChunksToMeshPerFrame ∧
    (r.skippedFresh = true →
      (Frontier.remeshFrontier f baseMeshed hasLoader).1.dirty l = true) := by
  have h0 : Frontier.remeshFrontier f baseMeshed hasLoader =
      (List.range' 0 kFrontierLevels).foldl (fun a l =>
        if a.2.any (fun q => q.aborted) then a
        else ((Frontier.computeLODAtLevel a.1 baseMeshed hasLoader l).1,
              a.2 ++ [(Frontier.computeLODAtLevel a.1 baseMeshed hasLoader l).2]))
        (f, []) := by
    unfold Frontier.remeshFrontier
    rw [List.range_eq_range' kFrontierLevels]
  rw [h0] at h ⊢
  exact remeshFold_inv baseMeshed hasLoader kFrontierLevels 0
    (f, ([] : List LODReport)) rfl
    (fun i q hq => by simp at hq) l r h

/-- C3 witness: on `lodFrontier2` with a frontier loader the level-0 report
is `⟨2, 0, false, false⟩` (two mesh invocations, no fresh empty-mask
meshes, nothing skipped, no abort), and the theorem applies to it. -/
theorem c3_lod_budget_witness :
    (Frontier.remeshFrontier lodFrontier2 (fun _ _ => false) true).2[0]? =
      some { invocations := 2, freshEmptyMaskMeshes := 0,
             skippedFresh := false, aborted := false } ∧
    (({ invocations := 2, freshEmptyMaskMeshes := 0, skippedFresh := false,
        aborted := false } : LODReport).freshEmptyMaskMeshes ≤
          kNumLODChunksToMeshPerFrame ∧
     (({ invocations := 2, freshEmptyMaskMeshes := 0, skippedFresh := false,
         aborted := false } : LODReport).skippedFresh = true →
      (Frontier.remeshFrontier lodFrontier2 (fun _ _ => false) true).1.dirty 0
        = true)) :=
  ⟨rfl, c3_lod_budget lodFrontier2 (fun _ _ => false) true 0
    { invocations := 2, freshEmptyMaskMeshes := 0, skippedFresh := false,
      aborted := false } rfl⟩

/-- C3 counterexample to the original reading: with a frontier loader
present, level 0 of `lodFrontier2` runs `createLODMeshes` for 2 tiles in
one `remeshFrontier` call without aborting — each tile's quadrant is
meshed by its own invocation before `show` checks it — which exceeds
`kNumLODChunksToMeshPerFrame = 1`: existing meshless tiles are processed
without consulting the per-frame counter. -/
theorem c3_counterexample_budget_exceeded :
    (Frontier.remeshFrontier lodFrontier2 (fun _ _ => false) true).2[0]?.map
      LODReport.invocations = some 2 ∧
    (Frontier.remeshFrontier lodFrontier2 (fun _ _ => false) true).2[0]?.map
      LODReport.aborted = some false ∧
    kNumLODChunksToMeshPerFrame = 1 :=
  ⟨rfl, rfl, rfl⟩

/-! ## C1 helper lemmas: wrap-free arithmetic and prefix sums -/

theorem wrap16_id (x : Int) (h1 : -32768 ≤ x) (h2 : x < 32768) :
    wrap16 x = x := by
  unfold wrap16
  omega

theorem wrap16_wrap_add (x y : Int) :
    wrap16 (wrap16 x + y) = wrap16 (x + y) := by
  unfold wrap16
  omega

theorem Bnd_weaken (B B2 : Int) (m : Nat → Int) (h : Bnd B m)
    (hle : B ≤ B2) : Bnd B2 m :=
  fun a => ⟨by have := (h a).1; omega, by have := (h a).2; omega⟩

theorem msum_update (m : Nat → Int) (a : Nat) (v : Int) :
    ∀ y, msum (Function.update m a v) y =
      msum m y + (if a ≤ y then v - m a else 0) := by
  intro y
  induction y with
  | zero =>
    show Function.update m a v 0 = m 0 + (if a ≤ 0 then v - m a else 0)
    by_cases h0 : a = 0
    · subst h0
      rw [Function.update_same, if_pos (Nat.le_refl 0)]
      ring
    · rw [Function.update_noteq (Ne.symm h0), if_neg (by omega)]
      ring
  | succ y ih =>
    have hstep : msum (Function.update m a v) (y + 1) =
        msum (Function.update m a v) y + Function.update m a v (y + 1) := rfl
    have hstep2 : msum m (y + 1) = msum m y + m (y + 1) := rfl
    rw [hstep, hstep2, ih]
    by_cases hc : a = y + 1
    · subst hc
      rw [Function.update_same, if_neg (by omega), if_pos (Nat.le_refl _)]
      ring
    · rw [Function.update_noteq (Ne.symm hc)]
      by_cases hle : a ≤ y
      · rw [if_pos hle, if_pos (by omega)]
        ring
      · rw [if_neg hle, if_neg (by omega)]
        ring

theorem msum_zero : ∀ y, msum (fun _ => (0 : Int)) y = 0 := by
  intro y
  induction y with
  | zero => rfl
  | succ y ih =>
    show msum (fun _ => (0 : Int)) y + 0 = 0
    rw [ih]
    rfl

theorem decFold_bnd_msum : ∀ (decs : List (Int × Nat)) (m : Nat → Int)
    (B : Int), Bnd B m → 0 ≤ B → B + 2 * (decs.length : Int) < 32768 →
    Bnd (B + 2 * decs.length) (decs.foldl (fun m d =>
      let m := Function.update m d.2 (wrap16 (m d.2 + 1))
      if d.2 + 1 < kWorldHeight then
        Function.update m (d.2 + 1) (wrap16 (m (d.2 + 1) - 1))
      else m) m) ∧
    (∀ y, y < kWorldHeight →
      msum (decs.foldl (fun m d =>
        let m := Function.update m d.2 (wrap16 (m d.2 + 1))
        if d.2 + 1 < kWorldHeight then
          Function.update m (d.2 + 1) (wrap16 (m (d.2 + 1) - 1))
        else m) m) y = msum m y + (decCount decs y : Int)) := by
  intro decs
  induction decs with
  | nil =>
    intro m B hB hB0 hbud
    constructor
    · refine Bnd_weaken B _ m hB ?_
      simp
    · intro y _
      show msum m y = msum m y + (decCount [] y : Int)
      simp [decCount]
  | cons d rest ih =>
    intro m B hB hB0 hbud
    have hlen : (((d :: rest) : List (Int × Nat)).length : Int) =
        (rest.length : Int) + 1 := by push_cast [List.length_cons]; ring
    have hrl : (0 : Int) ≤ (rest.length : Int) := Int.natCast_nonneg _
    have hBd := hB d.2
    have hw1 : wrap16 (m d.2 + 1) = m d.2 + 1 :=
      wrap16_id _ (by omega) (by omega)
    rw [List.foldl_cons]
    simp only []
    rw [hw1]
    have hAne : Function.update m d.2 (m d.2 + 1) (d.2 + 1) = m (d.2 + 1) :=
      Function.update_noteq (by omega) _ _
    have hBnd1 : Bnd (B + 1) (Function.update m d.2 (m d.2 + 1)) := by
      intro a
      by_cases ha : a = d.2
      · subst ha
        rw [Function.update_same]
        omega
      · rw [Function.update_noteq ha]
        have := hB a
        omega
    by_cases hhi : d.2 + 1 < kWorldHeight
    · rw [if_pos hhi, hAne]
      have hBd1 := hB (d.2 + 1)
      have hw2 : wrap16 (m (d.2 + 1) - 1) = m (d.2 + 1) - 1 :=
        wrap16_id _ (by omega) (by omega)
      rw [hw2]

      have hBnd2 : Bnd (B + 2) (Function.update
          (Function.update m d.2 (m d.2 + 1)) (d.2 + 1)
          (m (d.2 + 1) - 1)) := by
        intro a
        by_cases ha : a = d.2 + 1
        · subst ha
          rw [Function.update_same]
          omega
        · rw [Function.update_noteq ha]
          have := hBnd1 a
          omega
      have hmain := ih (Function.update
          (Function.update m d.2 (m d.2 + 1)) (d.2 + 1) (m (d.2 + 1) - 1))
          (B + 2) hBnd2 (by omega) (by omega)
      constructor
      · refine Bnd_weaken _ _ _ hmain.1 ?_
        rw [hlen]
        ring_nf
        omega
      · intro y hy
        rw [hmain.2 y hy, msum_update, msum_update, hAne]
        have hcnt : (decCount (d :: rest) y : Int) =
            (decCount rest y : Int) + (if d.2 = y then 1 else 0) := by
          unfold decCount
          rw [List.countP_cons]
          by_cases hdy : d.2 = y
          · rw [if_pos (by simp [hdy]), if_pos hdy]
            push_cast
            ring
          · rw [if_neg (by simp [hdy]), if_neg hdy]
            push_cast
            ring
        rw [hcnt]
        by_cases hdy : d.2 = y
        · rw [if_pos (by omega), if_neg (by omega), if_pos hdy]
          unfold decCount
          ring
        · by_cases hdy2 : d.2 ≤ y
          · rw [if_pos (by omega), if_pos (by omega), if_neg hdy]
            unfold decCount
            ring
          · rw [if_neg (by omega), if_neg (by omega), if_neg hdy]
            unfold decCount
            ring
    · rw [if_neg hhi]
      have hmain := ih (Function.update m d.2 (m d.2 + 1)) (B + 1) hBnd1
        (by omega) (by omega)
      constructor
      · refine Bnd_weaken _ _ _ hmain.1 ?_
        rw [hlen]
        ring_nf
        omega
      · intro y hy
        rw [hmain.2 y hy, msum_update]
        have hcnt : (decCount (d :: rest) y : Int) =
            (decCount rest y : Int) + (if d.2 = y then 1 else 0) := by
          unfold decCount
          rw [List.countP_cons]
          by_cases hdy : d.2 = y
          · rw [if_pos (by simp [hdy]), if_pos hdy]
            push_cast
            ring
          · rw [if_neg (by simp [hdy]), if_neg hdy]
            push_cast
            ring
        rw [hcnt]
        by_cases hdy : d.2 = y
        · rw [if_pos (by omega), if_pos hdy]
          unfold decCount
          ring
        · rw [if_neg (by omega), if_neg hdy]
          unfold decCount
          ring

theorem walk_step_eq (fuel : Nat) (db : Int) (dl : Nat)
    (dt : List (Int × Nat)) (rb : Int) (rl : Nat) (rt : List (Int × Nat))
    (matched : Bool) (ds rs : Nat) (m : Nat → Int) :
    walkLoop (fuel + 1) ((db, dl) :: dt) ((rb, rl) :: rt) matched ds rs m =
    (if dl ≤ rl then
      if rl ≤ dl then
        walkLoop fuel dt rt
          (if (matched != (db == rb)) = true then !matched else matched) dl rl
          (if (matched != (db == rb)) = true then
            Function.update m (max ds rs)
              (wrap16 (m (max ds rs) + (if matched = true then 1 else -1)))
          else m)
      else
        walkLoop fuel dt ((rb, rl) :: rt)
          (if (matched != (db == rb)) = true then !matched else matched) dl rs
          (if (matched != (db == rb)) = true then
            Function.update m (max ds rs)
              (wrap16 (m (max ds rs) + (if matched = true then 1 else -1)))
          else m)
    else
      walkLoop fuel ((db, dl) :: dt) rt
        (if (matched != (db == rb)) = true then !matched else matched) ds rl
        (if (matched != (db == rb)) = true then
          Function.update m (max ds rs)
            (wrap16 (m (max ds rs) + (if matched = true then 1 else -1)))
        else m)) := rfl

theorem walkDeltaP_step_eq (fuel : Nat) (db : Int) (dl : Nat)
    (dt : List (Int × Nat)) (rb : Int) (rl : Nat) (rt : List (Int × Nat))
    (matched : Bool) (ds rs y : Nat) :
    walkDeltaP (fuel + 1) ((db, dl) :: dt) ((rb, rl) :: rt) matched ds rs y =
    (if ((matched != (db == rb)) = true ∧ max ds rs ≤ y) then
       (if matched = true then (1 : Int) else -1) else 0) +
    (if dl ≤ rl then
      if rl ≤ dl then walkDeltaP fuel dt rt
          (if (matched != (db == rb)) = true then !matched else matched) dl rl y
      else walkDeltaP fuel dt ((rb, rl) :: rt)
          (if (matched != (db == rb)) = true then !matched else matched) dl rs y
    else walkDeltaP fuel ((db, dl) :: dt) rt
        (if (matched != (db == rb)) = true then !matched else matched) ds rl y) :=
  rfl

theorem walk_msum_bnd : ∀ (fuel : Nat) (d r : List (Int × Nat))
    (matched : Bool) (ds rs : Nat) (m : Nat → Int) (B : Int), Bnd B m →
    0 ≤ B → B + ((d.length : Int) + (r.length : Int)) < 32768 →
    Bnd (B + ((d.length : Int) + (r.length : Int)))
      (walkLoop fuel d r matched ds rs m) ∧
    ∀ y, msum (walkLoop fuel d r matched ds rs m) y =
      msum m y + walkDeltaP fuel d r matched ds rs y := by
  intro fuel
  induction fuel with
  | zero =>
    intro d r matched ds rs m B hB hB0 hbud
    have hd0 : (0 : Int) ≤ (d.length : Int) := Int.natCast_nonneg _
    have hr0 : (0 : Int) ≤ (r.length : Int) := Int.natCast_nonneg _
    constructor
    · exact Bnd_weaken B _ m hB (by omega)
    · intro y
      show msum m y = msum m y + (0 : Int)
      rw [add_zero]
  | succ fuel ih =>
    intro d r matched ds rs m B hB hB0 hbud
    have hd0 : (0 : Int) ≤ (d.length : Int) := Int.natCast_nonneg _
    have hr0 : (0 : Int) ≤ (r.length : Int) := Int.natCast_nonneg _
    rcases d with _ | ⟨⟨db, dl⟩, dt⟩
    · constructor
      · exact Bnd_weaken B _ m hB (by omega)
      · intro y
        show msum m y = msum m y + (0 : Int)
        rw [add_zero]
    · rcases r with _ | ⟨⟨rb, rl⟩, rt⟩
      · constructor
        · exact Bnd_weaken B _ m hB (by omega)
        · intro y
          show msum m y = msum m y + (0 : Int)
          rw [add_zero]
      · have hdl : (((db, dl) :: dt).length : Int) = (dt.length : Int) + 1 := by
          push_cast [List.length_cons]
          ring
        have hrl2 : (((rb, rl) :: rt).length : Int) = (rt.length : Int) + 1 := by
          push_cast [List.length_cons]
          ring
        have hdt0 : (0 : Int) ≤ (dt.length : Int) := Int.natCast_nonneg _
        have hrt0 : (0 : Int) ≤ (rt.length : Int) := Int.natCast_nonneg _
        have hBh := hB (max ds rs)
        rw [hdl, hrl2] at hbud
        by_cases hf : (matched != (db == rb)) = true
        · have hdelta : (-1 : Int) ≤ (if matched = true then (1 : Int) else -1) ∧
              (if matched = true then (1 : Int) else -1) ≤ 1 := by
            split
            · omega
            · omega
          have hw : wrap16 (m (max ds rs) +
              (if matched = true then (1 : Int) else -1)) =
              m (max ds rs) + (if matched = true then (1 : Int) else -1) :=
            wrap16_id _ (by omega) (by omega)
          have hBnd1 : Bnd (B + 1) (Function.update m (max ds rs)
              (wrap16 (m (max ds rs) +
                (if matched = true then (1 : Int) else -1)))) := by
            intro a
            by_cases ha : a = max ds rs
            · subst ha
              rw [Function.update_same, hw]
              omega
            · rw [Function.update_noteq ha]
              have := hB a
              omega
          have hmsum1 : ∀ y, msum (Function.update m (max ds rs)
              (wrap16 (m (max ds rs) +
                (if matched = true then (1 : Int) else -1)))) y =
              msum m y + (if max ds rs ≤ y then
                (if matched = true then (1 : Int) else -1) else 0) := by
            intro y
            rw [msum_update]
            by_cases hy : max ds rs ≤ y
            · rw [if_pos hy, if_pos hy, hw]
              ring_nf
            · rw [if_neg hy, if_neg hy]
          have hcy : ∀ y, (if ((matched != (db == rb)) = true ∧ max ds rs ≤ y)
              then (if matched = true then (1 : Int) else -1) else 0) =
              (if max ds rs ≤ y then
                (if matched = true then (1 : Int) else -1) else 0) := by
            intro y
            by_cases hy : max ds rs ≤ y
            · rw [if_pos ⟨hf, hy⟩, if_pos hy]
            · rw [if_neg (fun hh => hy hh.2), if_neg hy]
          constructor
          · rw [walk_step_eq, if_pos hf, if_pos hf, hdl, hrl2]
            by_cases hdr : dl ≤ rl
            · rw [if_pos hdr]
              by_cases hrd : rl ≤ dl
              · rw [if_pos hrd]
                refine Bnd_weaken _ _ _ ((ih dt rt _ dl rl _ (B + 1) hBnd1
                  (by omega) (by omega)).1) ?_
                omega
              · rw [if_neg hrd]
                refine Bnd_weaken _ _ _ ((ih dt ((rb, rl) :: rt) _ dl rs _
                  (B + 1) hBnd1 (by omega) (by rw [hrl2]; omega)).1) ?_
                rw [hrl2]
                omega
            · rw [if_neg hdr]
              refine Bnd_weaken _ _ _ ((ih ((db, dl) :: dt) rt _ ds rl _
                (B + 1) hBnd1 (by omega) (by rw [hdl]; omega)).1) ?_
              rw [hdl]
              omega
          · intro y
            rw [walk_step_eq, walkDeltaP_step_eq, if_pos hf, if_pos hf, hcy y]
            by_cases hdr : dl ≤ rl
            · rw [if_pos hdr, if_pos hdr]
              by_cases hrd : rl ≤ dl
              · rw [if_pos hrd, if_pos hrd]
                rw [(ih dt rt _ dl rl _ (B + 1) hBnd1 (by omega)
                  (by omega)).2 y, hmsum1 y]
                ring
              · rw [if_neg hrd, if_neg hrd]
                rw [(ih dt ((rb, rl) :: rt) _ dl rs _ (B + 1) hBnd1 (by omega)
                  (by rw [hrl2]; omega)).2 y, hmsum1 y]
                ring
            · rw [if_neg hdr, if_neg hdr]
              rw [(ih ((db, dl) :: dt) rt _ ds rl _ (B + 1) hBnd1 (by omega)
                (by rw [hdl]; omega)).2 y, hmsum1 y]
              ring
        · have hcy : ∀ y, (if ((matched != (db == rb)) = true ∧ max ds rs ≤ y)
              then (if matched = true then (1 : Int) else -1) else 0) =
              (0 : Int) := by
            intro y
            rw [if_neg (fun hh => hf hh.1)]
          constructor
          · rw [walk_step_eq, if_neg hf, if_neg hf, hdl, hrl2]
            by_cases hdr : dl ≤ rl
            · rw [if_pos hdr]
              by_cases hrd : rl ≤ dl
              · rw [if_pos hrd]
                refine Bnd_weaken _ _ _ ((ih dt rt _ dl rl _ B hB
                  hB0 (by omega)).1) ?_
                omega
              · rw [if_neg hrd]
                refine Bnd_weaken _ _ _ ((ih dt ((rb, rl) :: rt) _ dl rs _
                  B hB hB0 (by rw [hrl2]; omega)).1) ?_
                rw [hrl2]
                omega
            · rw [if_neg hdr]
              refine Bnd_weaken _ _ _ ((ih ((db, dl) :: dt) rt _ ds rl _
                B hB hB0 (by rw [hdl]; omega)).1) ?_
              rw [hdl]
              omega
          · intro y
            rw [walk_step_eq, walkDeltaP_step_eq, if_neg hf, if_neg hf, hcy y]
            by_cases hdr : dl ≤ rl
            · rw [if_pos hdr, if_pos hdr]
              by_cases hrd : rl ≤ dl
              · rw [if_pos hrd, if_pos hrd]
                rw [(ih dt rt _ dl rl _ B hB hB0 (by omega)).2 y]
                ring
              · rw [if_neg hrd, if_neg hrd]
                rw [(ih dt ((rb, rl) :: rt) _ dl rs _ B hB hB0
                  (by rw [hrl2]; omega)).2 y]
                ring
            · rw [if_neg hdr, if_neg hdr]
              rw [(ih ((db, dl) :: dt) rt _ ds rl _ B hB hB0
                (by rw [hdl]; omega)).2 y]
              ring

theorem walkDeltaP_lt : ∀ (fuel : Nat) (d r : List (Int × Nat))
    (matched : Bool) (ds rs y : Nat), covers ds d → covers rs r →
    y < max ds rs → walkDeltaP fuel d r matched ds rs y = 0 := by
  intro fuel
  induction fuel with
  | zero =>
    intro d r matched ds rs y _ _ _
    rfl
  | succ fuel ih =>
    intro d r matched ds rs y hcd hcr hy
    rcases d with _ | ⟨⟨db, dl⟩, dt⟩
    · rfl
    · rcases r with _ | ⟨⟨rb, rl⟩, rt⟩
      · rfl
      · have hd2 : ds < dl ∧ covers dl dt := hcd
        have hr2 : rs < rl ∧ covers rl rt := hcr
        rw [walkDeltaP_step_eq]
        rw [if_neg (fun hh => absurd hh.2 (by omega))]
        by_cases hdr : dl ≤ rl
        · rw [if_pos hdr]
          by_cases hrd : rl ≤ dl
          · rw [if_pos hrd]
            rw [ih dt rt _ dl rl y hd2.2 hr2.2 (by omega)]
            ring
          · rw [if_neg hrd]
            rw [ih dt ((rb, rl) :: rt) _ dl rs y hd2.2 hcr (by omega)]
            ring
        · rw [if_neg hdr]
          rw [ih ((db, dl) :: dt) rt _ ds rl y hcd hr2.2 (by omega)]
          ring

theorem walkDeltaP_spec : ∀ (fuel : Nat) (d r : List (Int × Nat))
    (matched : Bool) (ds rs y : Nat), covers ds d → covers rs r →
    d.length + r.length ≤ fuel → max ds rs ≤ y → y < kWorldHeight →
    walkDeltaP fuel d r matched ds rs y =
      (if (runsBlockAt d y == runsBlockAt r y) = true then (0 : Int) else 1) -
      (if matched = true then (0 : Int) else 1) := by
  intro fuel
  induction fuel with
  | zero =>
    intro d r matched ds rs y hcd hcr hfl hyc hyH
    rcases d with _ | ⟨⟨db, dl⟩, dt⟩
    · have hds : ds = kWorldHeight := hcd
      omega
    · exact absurd hfl (by simp)
  | succ fuel ih =>
    intro d r matched ds rs y hcd hcr hfl hyc hyH
    rcases d with _ | ⟨⟨db, dl⟩, dt⟩
    · have hds : ds = kWorldHeight := hcd
      omega
    · rcases r with _ | ⟨⟨rb, rl⟩, rt⟩
      · have hrs : rs = kWorldHeight := hcr
        omega
      · have hd2 : ds < dl ∧ covers dl dt := hcd
        have hr2 : rs < rl ∧ covers rl rt := hcr
        have hfl2 : dt.length + rt.length + 2 ≤ fuel + 1 := by
          simp only [List.length_cons] at hfl
          omega
        have hM2 : (if (matched != (db == rb)) = true then !matched
            else matched) = (db == rb) := by
          rcases Bool.eq_false_or_eq_true matched with hm | hm <;>
            rcases Bool.eq_false_or_eq_true (db == rb) with he | he <;>
              rw [hm, he] <;> rfl
        have hC : (if ((matched != (db == rb)) = true ∧ max ds rs ≤ y)
            then (if matched = true then (1 : Int) else -1) else 0) =
            (if (db == rb) = true then (0 : Int) else 1) -
            (if matched = true then (0 : Int) else 1) := by
          rcases Bool.eq_false_or_eq_true matched with hm | hm <;>
            rcases Bool.eq_false_or_eq_true (db == rb) with he | he <;>
              rw [hm, he]
          · rw [if_neg (fun hh => Bool.false_ne_true hh.1), if_pos rfl]
            omega
          · rw [if_pos ⟨rfl, hyc⟩, if_pos rfl, if_neg Bool.false_ne_true,
              if_pos rfl]
            omega
          · rw [if_pos ⟨rfl, hyc⟩, if_neg Bool.false_ne_true, if_pos rfl,
              if_neg Bool.false_ne_true]
            omega
          · rw [if_neg (fun hh => Bool.false_ne_true hh.1),
              if_neg Bool.false_ne_true]
            omega
        rw [walkDeltaP_step_eq, hM2, hC]
        by_cases hdr : dl ≤ rl
        · rw [if_pos hdr]
          by_cases hrd : rl ≤ dl
          · rw [if_pos hrd]
            by_cases hy2 : max dl rl ≤ y
            · rw [ih dt rt (db == rb) dl rl y hd2.2 hr2.2 (by omega) hy2 hyH]
              have hbd : runsBlockAt ((db, dl) :: dt) y = runsBlockAt dt y := by
                show (if y < dl then db else runsBlockAt dt y) = _
                rw [if_neg (by omega)]
              have hbr : runsBlockAt ((rb, rl) :: rt) y = runsBlockAt rt y := by
                show (if y < rl then rb else runsBlockAt rt y) = _
                rw [if_neg (by omega)]
              rw [hbd, hbr]
              ring
            · rw [walkDeltaP_lt fuel dt rt _ dl rl y hd2.2 hr2.2 (by omega)]
              have hbd : runsBlockAt ((db, dl) :: dt) y = db := by
                show (if y < dl then db else runsBlockAt dt y) = _
                rw [if_pos (by omega)]
              have hbr : runsBlockAt ((rb, rl) :: rt) y = rb := by
                show (if y < rl then rb else runsBlockAt rt y) = _
                rw [if_pos (by omega)]
              rw [hbd, hbr]
              ring
          · rw [if_neg hrd]
            by_cases hy2 : max dl rs ≤ y
            · rw [ih dt ((rb, rl) :: rt) (db == rb) dl rs y hd2.2 hcr
                (by simp only [List.length_cons]; omega) hy2 hyH]
              have hbd : runsBlockAt ((db, dl) :: dt) y = runsBlockAt dt y := by
                show (if y < dl then db else runsBlockAt dt y) = _
                rw [if_neg (by omega)]
              rw [hbd]
              ring
            · rw [walkDeltaP_lt fuel dt ((rb, rl) :: rt) _ dl rs y hd2.2 hcr
                (by omega)]
              have hbd : runsBlockAt ((db, dl) :: dt) y = db := by
                show (if y < dl then db else runsBlockAt dt y) = _
                rw [if_pos (by omega)]
              have hbr : runsBlockAt ((rb, rl) :: rt) y = rb := by
                show (if y < rl then rb else runsBlockAt rt y) = _
                rw [if_pos (by omega)]
              rw [hbd, hbr]
              ring
        · rw [if_neg hdr]
          by_cases hy2 : max ds rl ≤ y
          · rw [ih ((db, dl) :: dt) rt (db == rb) ds rl y hcd hr2.2
              (by simp only [List.length_cons]; omega) hy2 hyH]
            have hbr : runsBlockAt ((rb, rl) :: rt) y = runsBlockAt rt y := by
              show (if y < rl then rb else runsBlockAt rt y) = _
              rw [if_neg (by omega)]
            rw [hbr]
            ring
          · rw [walkDeltaP_lt fuel ((db, dl) :: dt) rt _ ds rl y hcd hr2.2
              (by omega)]
            have hbd : runsBlockAt ((db, dl) :: dt) y = db := by
              show (if y < dl then db else runsBlockAt dt y) = _
              rw [if_pos (by omega)]
            have hbr : runsBlockAt ((rb, rl) :: rt) y = rb := by
              show (if y < rl then rb else runsBlockAt rt y) = _
              rw [if_pos (by omega)]
            rw [hbd, hbr]
            ring

theorem push_mref (c : ColumnSt) (b h : Int) :
    (Column.push c b h).mismatches = c.mismatches ∧
    (Column.push c b h).reference = c.reference := by
  simp only [Column.push]
  split
  · exact ⟨rfl, rfl⟩
  · exact ⟨rfl, rfl⟩

theorem overwrite_mref (c : ColumnSt) (b y : Int) :
    (Column.overwrite c b y).mismatches = c.mismatches ∧
    (Column.overwrite c b y).reference = c.reference := by
  simp only [Column.overwrite]
  split
  · exact ⟨rfl, rfl⟩
  · exact ⟨rfl, rfl⟩

theorem applyOps_mref : ∀ (ops : List ColOp) (c : ColumnSt),
    (Column.applyOps c ops).mismatches = c.mismatches ∧
    (Column.applyOps c ops).reference = c.reference := by
  intro ops
  induction ops with
  | nil =>
    intro c
    exact ⟨rfl, rfl⟩
  | cons op rest ih =>
    intro c
    cases op with
    | push b h =>
      have h1 := ih (Column.push c b h)
      have h2 := push_mref c b h
      exact ⟨h1.1.trans h2.1, h1.2.trans h2.2⟩
    | overwrite b y =>
      have h1 := ih (Column.overwrite c b y)
      have h2 := overwrite_mref c b y
      exact ⟨h1.1.trans h2.1, h1.2.trans h2.2⟩

theorem push_agree (c c2 : ColumnSt) (b h : Int) (hd : c.data = c2.data)
    (hl : c.last = c2.last) (hdec : c.decorations = c2.decorations) :
    (Column.push c b h).data = (Column.push c2 b h).data ∧
    (Column.push c b h).last = (Column.push c2 b h).last ∧
    (Column.push c b h).decorations = (Column.push c2 b h).decorations := by
  by_cases hc : min h (kWorldHeight : Int) ≤ (c.last : Int)
  · have hc2 : min h (kWorldHeight : Int) ≤ (c2.last : Int) := hl ▸ hc
    simp only [Column.push, if_pos hc, if_pos hc2]
    exact ⟨hd, hl, hdec⟩
  · have hc2 : ¬ min h (kWorldHeight : Int) ≤ (c2.last : Int) := hl ▸ hc
    simp only [Column.push, if_neg hc, if_neg hc2]
    refine ⟨?_, trivial, hdec⟩
    rw [hd]

theorem overwrite_agree (c c2 : ColumnSt) (b y : Int) (hd : c.data = c2.data)
    (hl : c.last = c2.last) (hdec : c.decorations = c2.decorations) :
    (Column.overwrite c b y).data = (Column.overwrite c2 b y).data ∧
    (Column.overwrite c b y).last = (Column.overwrite c2 b y).last ∧
    (Column.overwrite c b y).decorations =
      (Column.overwrite c2 b y).decorations := by
  by_cases hc : 0 ≤ y ∧ y < (kWorldHeight : Int)
  · simp only [Column.overwrite, if_pos hc]
    refine ⟨hd, hl, ?_⟩
    rw [hdec]
  · simp only [Column.overwrite, if_neg hc]
    exact ⟨hd, hl, hdec⟩

theorem applyOps_agree : ∀ (ops : List ColOp) (c c2 : ColumnSt),
    c.data = c2.data → c.last = c2.last →
    c.decorations = c2.decorations →
    (Column.applyOps c ops).data = (Column.applyOps c2 ops).data ∧
    (Column.applyOps c ops).last = (Column.applyOps c2 ops).last ∧
    (Column.applyOps c ops).decorations =
      (Column.applyOps c2 ops).decorations := by
  intro ops
  induction ops with
  | nil =>
    intro c c2 hd hl hdec
    exact ⟨hd, hl, hdec⟩
  | cons op rest ih =>
    intro c c2 hd hl hdec
    cases op with
    | push b h =>
      have hs := push_agree c c2 b h hd hl hdec
      exact ih (Column.push c b h) (Column.push c2 b h) hs.1 hs.2.1 hs.2.2
    | overwrite b y =>
      have hs := overwrite_agree c c2 b y hd hl hdec
      exact ih (Column.overwrite c b y) (Column.overwrite c2 b y)
        hs.1 hs.2.1 hs.2.2

theorem applyOps_colOf (ops : List ColOp) (c : ColumnSt) (hd : c.data = [])
    (hl : c.last = 0) (hdec : c.decorations = []) :
    (Column.applyOps c ops).data = (colOf ops).data ∧
    (Column.applyOps c ops).last = (colOf ops).last ∧
    (Column.applyOps c ops).decorations = (colOf ops).decorations :=
  applyOps_agree ops c Column.initSt hd hl hdec

theorem applyOps_len : ∀ (ops : List ColOp) (c : ColumnSt),
    (Column.applyOps c ops).data.length ≤ c.data.length + ops.length ∧
    (Column.applyOps c ops).decorations.length ≤
      c.decorations.length + ops.length := by
  intro ops
  induction ops with
  | nil =>
    intro c
    exact ⟨Nat.le_add_right _ _, Nat.le_add_right _ _⟩
  | cons op rest ih =>
    intro c
    cases op with
    | push b h =>
      have h1 := ih (Column.push c b h)
      have hstep : Column.applyOps c (ColOp.push b h :: rest) =
          Column.applyOps (Column.push c b h) rest := rfl
      rw [hstep]
      have h2 : (Column.push c b h).data.length ≤ c.data.length + 1 ∧
          (Column.push c b h).decorations.length = c.decorations.length := by
        simp only [Column.push]
        split
        · exact ⟨Nat.le_add_right _ _, rfl⟩
        · constructor
          · rw [List.length_append]
            rfl
          · rfl
      constructor
      · have := h1.1
        simp only [List.length_cons]
        omega
      · have := h1.2
        simp only [List.length_cons]
        omega
    | overwrite b y =>
      have h1 := ih (Column.overwrite c b y)
      have hstep : Column.applyOps c (ColOp.overwrite b y :: rest) =
          Column.applyOps (Column.overwrite c b y) rest := rfl
      rw [hstep]
      have h2 : (Column.overwrite c b y).data.length = c.data.length ∧
          (Column.overwrite c b y).decorations.length ≤
            c.decorations.length + 1 := by
        simp only [Column.overwrite]
        split
        · constructor
          · rfl
          · rw [List.length_append]
            exact Nat.le_refl _
        · exact ⟨rfl, Nat.le_add_right _ _⟩
      constructor
      · have := h1.1
        simp only [List.length_cons]
        omega
      · have := h1.2
        simp only [List.length_cons]
        omega

theorem runsBounded_le : ∀ (data : List (Int × Nat)) (lo last : Nat),
    RunsBounded data lo last → lo ≤ last := by
  intro data
  induction data with
  | nil =>
    intro lo last h
    have h2 : last = lo := h
    omega
  | cons d t ih =>
    intro lo last h
    obtain ⟨b, l⟩ := d
    have h2 : lo < l ∧ l ≤ kWorldHeight ∧ RunsBounded t l last := h
    have := ih l last h2.2.2
    omega

theorem runsBounded_last_le : ∀ (data : List (Int × Nat)) (lo last : Nat),
    RunsBounded data lo last → lo ≤ kWorldHeight → last ≤ kWorldHeight := by
  intro data
  induction data with
  | nil =>
    intro lo last h hlo
    have h2 : last = lo := h
    omega
  | cons d t ih =>
    intro lo last h hlo
    obtain ⟨b, l⟩ := d
    have h2 : lo < l ∧ l ≤ kWorldHeight ∧ RunsBounded t l last := h
    exact ih l last h2.2.2 h2.2.1

theorem covers_of_runsBounded : ∀ (data : List (Int × Nat)) (lo last : Nat),
    RunsBounded data lo last → last = kWorldHeight → covers lo data := by
  intro data
  induction data with
  | nil =>
    intro lo last h hl
    have h2 : last = lo := h
    show lo = kWorldHeight
    omega
  | cons d t ih =>
    intro lo last h hl
    obtain ⟨b, l⟩ := d
    have h2 : lo < l ∧ l ≤ kWorldHeight ∧ RunsBounded t l last := h
    exact ⟨h2.1, ih l last h2.2.2 hl⟩

theorem covers_seal : ∀ (data : List (Int × Nat)) (lo last : Nat),
    RunsBounded data lo last → last < kWorldHeight →
    covers lo (data ++ [(kEmptyBlock, kWorldHeight)]) := by
  intro data
  induction data with
  | nil =>
    intro lo last h hl
    have h2 : last = lo := h
    show lo < kWorldHeight ∧ covers kWorldHeight []
    exact ⟨by omega, rfl⟩
  | cons d t ih =>
    intro lo last h hl
    obtain ⟨b, l⟩ := d
    have h2 : lo < l ∧ l ≤ kWorldHeight ∧ RunsBounded t l last := h
    exact ⟨h2.1, ih l last h2.2.2 hl⟩

theorem covers_sealedRuns (c : ColumnSt) (h : RunsBounded c.data 0 c.last) :
    covers 0 (sealedRuns c) := by
  unfold sealedRuns
  split
  · exact covers_seal c.data 0 c.last h (by assumption)
  · have h2 := runsBounded_last_le c.data 0 c.last h (by omega)
    have h3 : c.last = kWorldHeight := by omega
    exact covers_of_runsBounded c.data 0 c.last h h3

theorem runsBlockAt_seal : ∀ (data : List (Int × Nat)) (y : Nat),
    y < kWorldHeight →
    runsBlockAt (data ++ [(kEmptyBlock, kWorldHeight)]) y =
      runsBlockAt data y := by
  intro data
  induction data with
  | nil =>
    intro y hy
    show (if y < kWorldHeight then kEmptyBlock else runsBlockAt [] y) =
      kEmptyBlock
    rw [if_pos hy]
  | cons d t ih =>
    intro y hy
    obtain ⟨b, l⟩ := d
    show (if y < l then b else runsBlockAt (t ++ [(kEmptyBlock, kWorldHeight)]) y) =
      (if y < l then b else runsBlockAt t y)
    by_cases hyl : y < l
    · rw [if_pos hyl, if_pos hyl]
    · rw [if_neg hyl, if_neg hyl]
      exact ih y hy

theorem runsBlockAt_ge : ∀ (data : List (Int × Nat)) (lo last : Nat),
    RunsBounded data lo last → ∀ y, last ≤ y →
    runsBlockAt data y = kEmptyBlock := by
  intro data
  induction data with
  | nil =>
    intro lo last _ y _
    rfl
  | cons d t ih =>
    intro lo last h y hy
    obtain ⟨b, l⟩ := d
    have h2 : lo < l ∧ l ≤ kWorldHeight ∧ RunsBounded t l last := h
    have h3 := runsBounded_le t l last h2.2.2
    show (if y < l then b else runsBlockAt t y) = kEmptyBlock
    rw [if_neg (by omega)]
    exact ih l last h2.2.2 y hy

theorem runsBlockAt_sealedRuns (c : ColumnSt) (y : Nat)
    (hy : y < kWorldHeight) :
    runsBlockAt (sealedRuns c) y = runsBlockAt c.data y := by
  unfold sealedRuns
  split
  · exact runsBlockAt_seal c.data y hy
  · rfl

theorem setColumn_voxels (reg : Registry) (c : Chunk) (x z : Int)
    (start count : Nat) (b : Int) (a1 a2 : Fin 16) (y : Nat) :
    (Chunk.setColumn reg c x z start count b).voxels a1 a2 y =
      if a1 = cmask x ∧ a2 = cmask z ∧ start ≤ y ∧ y < start + count then b
      else c.voxels a1 a2 y := rfl

theorem runsFold_vox (reg : Registry) (x z : Int) :
    ∀ (data : List (Int × Nat)) (lo last : Nat) (ch : Chunk),
    RunsBounded data lo last → ∀ (a1 a2 : Fin 16) (y : Nat),
    ((data.foldl (fun (acc : Chunk × Nat) br =>
      (Chunk.setColumn reg acc.1 x z acc.2 (br.2 - acc.2) br.1, br.2))
      (ch, lo)).1).voxels a1 a2 y =
    (if a1 = cmask x ∧ a2 = cmask z ∧ lo ≤ y ∧ y < last then
      runsBlockAt data y else ch.voxels a1 a2 y) := by
  intro data
  induction data with
  | nil =>
    intro lo last ch hr a1 a2 y
    have hl : last = lo := hr
    show ch.voxels a1 a2 y = _
    have hneg : ¬(a1 = cmask x ∧ a2 = cmask z ∧ lo ≤ y ∧ y < last) := by
      intro hh
      obtain ⟨-, -, h3, h4⟩ := hh
      omega
    rw [if_neg hneg]
  | cons br rest ih =>
    intro lo last ch hr a1 a2 y
    obtain ⟨b, l⟩ := br
    have hr2 : lo < l ∧ l ≤ kWorldHeight ∧ RunsBounded rest l last := hr
    have hll := runsBounded_le rest l last hr2.2.2
    rw [List.foldl_cons]
    rw [ih l last _ hr2.2.2 a1 a2 y]
    show _ = if a1 = cmask x ∧ a2 = cmask z ∧ lo ≤ y ∧ y < last then
      (if y < l then b else runsBlockAt rest y) else ch.voxels a1 a2 y
    by_cases h1 : a1 = cmask x ∧ a2 = cmask z
    · obtain ⟨e1, e2⟩ := h1
      by_cases hy0 : lo ≤ y
      · by_cases hyl : y < l
        · have hn1 : ¬(a1 = cmask x ∧ a2 = cmask z ∧ l ≤ y ∧ y < last) := by
            intro hh
            obtain ⟨-, -, h3, -⟩ := hh
            omega
          rw [if_neg hn1, setColumn_voxels,
            if_pos ⟨e1, e2, hy0, by omega⟩,
            if_pos ⟨e1, e2, hy0, by omega⟩, if_pos hyl]
        · by_cases hyL : y < last
          · rw [if_pos ⟨e1, e2, by omega, hyL⟩, if_pos ⟨e1, e2, hy0, hyL⟩,
              if_neg hyl]
          · have hn1 : ¬(a1 = cmask x ∧ a2 = cmask z ∧ l ≤ y ∧ y < last) := by
              intro hh
              exact hyL hh.2.2.2
            have hn2 : ¬(a1 = cmask x ∧ a2 = cmask z ∧ lo ≤ y ∧
                y < lo + (l - lo)) := by
              intro hh
              obtain ⟨-, -, -, h4⟩ := hh
              omega
            have hn3 : ¬(a1 = cmask x ∧ a2 = cmask z ∧ lo ≤ y ∧ y < last) := by
              intro hh
              exact hyL hh.2.2.2
            rw [if_neg hn1, setColumn_voxels, if_neg hn2, if_neg hn3]
      · have hn1 : ¬(a1 = cmask x ∧ a2 = cmask z ∧ l ≤ y ∧ y < last) := by
          intro hh
          obtain ⟨-, -, h3, -⟩ := hh
          omega
        have hn2 : ¬(a1 = cmask x ∧ a2 = cmask z ∧ lo ≤ y ∧
            y < lo + (l - lo)) := by
          intro hh
          exact hy0 hh.2.2.1
        have hn3 : ¬(a1 = cmask x ∧ a2 = cmask z ∧ lo ≤ y ∧ y < last) := by
          intro hh
          exact hy0 hh.2.2.1
        rw [if_neg hn1, setColumn_voxels, if_neg hn2, if_neg hn3]
    · have hn1 : ¬(a1 = cmask x ∧ a2 = cmask z ∧ l ≤ y ∧ y < last) := by
        intro hh
        exact h1 ⟨hh.1, hh.2.1⟩
      have hn2 : ¬(a1 = cmask x ∧ a2 = cmask z ∧ lo ≤ y ∧
          y < lo + (l - lo)) := by
        intro hh
        exact h1 ⟨hh.1, hh.2.1⟩
      have hn3 : ¬(a1 = cmask x ∧ a2 = cmask z ∧ lo ≤ y ∧ y < last) := by
        intro hh
        exact h1 ⟨hh.1, hh.2.1⟩
      rw [if_neg hn1, setColumn_voxels, if_neg hn2, if_neg hn3]

theorem decorFold_vox : ∀ (decs : List (Int × Nat)) (ch : Chunk)
    (reg : Registry) (x z : Int) (a1 a2 : Fin 16) (y : Nat),
    (decCount decs y = 0 ∨ ¬(a1 = cmask x ∧ a2 = cmask z)) →
    ((decs.foldl (fun ch d => Chunk.setColumn reg ch x z d.2 1 d.1)
      ch)).voxels a1 a2 y = ch.voxels a1 a2 y := by
  intro decs
  induction decs with
  | nil =>
    intro ch reg x z a1 a2 y _
    rfl
  | cons d rest ih =>
    intro ch reg x z a1 a2 y hcase
    rw [List.foldl_cons]
    have hrest : decCount rest y = 0 ∨ ¬(a1 = cmask x ∧ a2 = cmask z) := by
      rcases hcase with h | h
      · left
        unfold decCount at h ⊢
        rw [List.countP_cons] at h
        omega
      · right
        exact h
    rw [ih _ reg x z a1 a2 y hrest, setColumn_voxels]
    rcases hcase with h | h
    · have hne : ¬(d.2 ≤ y ∧ y < d.2 + 1) := by
        intro hh
        have hdy : d.2 = y := by omega
        unfold decCount at h
        rw [List.countP_cons] at h
        have hb : (d.2 == y) = true := by
          rw [hdy]
          exact beq_self_eq_true y
        rw [hb, if_pos rfl] at h
        omega
      rw [if_neg (fun hh => hne ⟨hh.2.2.1, hh.2.2.2⟩)]
    · rw [if_neg (fun hh => h ⟨hh.1, hh.2.1⟩)]

theorem fillChunk_snd (col : ColumnSt) (reg : Registry) (x z : Int)
    (ch : Chunk) (first : Bool) :
    (Column.fillChunk col reg x z ch first).2 =
      Column.detectEquiLevelChanges col first := rfl

theorem fillChunk_vox_other (col : ColumnSt) (reg : Registry) (x z : Int)
    (ch : Chunk) (first : Bool) (hwf : RunsBounded col.data 0 col.last)
    (a1 a2 : Fin 16) (y : Nat) (hother : ¬(a1 = cmask x ∧ a2 = cmask z)) :
    ((Column.fillChunk col reg x z ch first).1).voxels a1 a2 y =
      ch.voxels a1 a2 y := by
  show ((col.decorations.foldl
    (fun ch d => Chunk.setColumn reg ch x z d.2 1 d.1)
    (col.data.foldl (fun (acc : Chunk × Nat) br =>
      (Chunk.setColumn reg acc.1 x z acc.2 (br.2 - acc.2) br.1, br.2))
      (ch, 0)).1)).voxels a1 a2 y = ch.voxels a1 a2 y
  rw [decorFold_vox col.decorations _ reg x z a1 a2 y (Or.inr hother),
    runsFold_vox reg x z col.data 0 col.last ch hwf a1 a2 y,
    if_neg (fun hh => hother ⟨hh.1, hh.2.1⟩)]

theorem fillChunk_vox_own (col : ColumnSt) (reg : Registry) (x z : Int)
    (ch : Chunk) (first : Bool) (hwf : RunsBounded col.data 0 col.last)
    (y : Nat) (hdec : decCount col.decorations y = 0) :
    ((Column.fillChunk col reg x z ch first).1).voxels
      (cmask x) (cmask z) y =
      (if y < col.last then runsBlockAt col.data y
       else ch.voxels (cmask x) (cmask z) y) := by
  show ((col.decorations.foldl
    (fun ch d => Chunk.setColumn reg ch x z d.2 1 d.1)
    (col.data.foldl (fun (acc : Chunk × Nat) br =>
      (Chunk.setColumn reg acc.1 x z acc.2 (br.2 - acc.2) br.1, br.2))
      (ch, 0)).1)).voxels (cmask x) (cmask z) y = _
  rw [decorFold_vox col.decorations _ reg x z (cmask x) (cmask z) y
    (Or.inl hdec),
    runsFold_vox reg x z col.data 0 col.last ch hwf (cmask x) (cmask z) y]
  by_cases hyl : y < col.last
  · rw [if_pos ⟨rfl, rfl, Nat.zero_le y, hyl⟩, if_pos hyl]
  · rw [if_neg (fun hh => hyl hh.2.2.2), if_neg hyl]

theorem sealedRuns_congr (c c2 : ColumnSt) (hd : c.data = c2.data)
    (hl : c.last = c2.last) : sealedRuns c = sealedRuns c2 := by
  unfold sealedRuns
  rw [hd, hl]

theorem sealedRuns_len (c : ColumnSt) :
    (sealedRuns c).length ≤ c.data.length + 1 := by
  unfold sealedRuns
  split
  · rw [List.length_append]
    exact Nat.le_refl _
  · exact Nat.le_add_right _ _

theorem stepScratch_c1 (ops : List ColOp) (col : ColumnSt)
    (R : List (Int × Nat)) (B : Int)
    (hd : col.data = []) (hl : col.last = 0) (hdec : col.decorations = [])
    (href : col.reference = R) (hRcov : covers 0 R) (hRlen : R.length ≤ 32)
    (hB : Bnd B col.mismatches) (hB0 : 0 ≤ B) (hbud : B + 128 < 32768)
    (hN : ops.length ≤ 31) :
    (Column.clear (Column.detectEquiLevelChanges (Column.applyOps col ops)
      false)).data = [] ∧
    (Column.clear (Column.detectEquiLevelChanges (Column.applyOps col ops)
      false)).last = 0 ∧
    (Column.clear (Column.detectEquiLevelChanges (Column.applyOps col ops)
      false)).decorations = [] ∧
    (Column.clear (Column.detectEquiLevelChanges (Column.applyOps col ops)
      false)).reference = R ∧
    Bnd (B + 128) (Column.clear (Column.detectEquiLevelChanges
      (Column.applyOps col ops) false)).mismatches ∧
    (∀ y, y < kWorldHeight →
      msum (Column.clear (Column.detectEquiLevelChanges
        (Column.applyOps col ops) false)).mismatches y =
        msum col.mismatches y + (colScoreAt R ops y : Int)) := by
  have hagree := applyOps_colOf ops col hd hl hdec
  have hmref := applyOps_mref ops col
  have hrefR : (Column.applyOps col ops).reference = R := hmref.2.trans href
  have hkey : (Column.clear (Column.detectEquiLevelChanges
      (Column.applyOps col ops) false)).mismatches =
      walkLoop ((sealedRuns (Column.applyOps col ops)).length +
        (Column.applyOps col ops).reference.length)
        (sealedRuns (Column.applyOps col ops))
        (Column.applyOps col ops).reference true 0 0
        ((Column.applyOps col ops).decorations.foldl (fun m d =>
          let m := Function.update m d.2 (wrap16 (m d.2 + 1))
          if d.2 + 1 < kWorldHeight then
            Function.update m (d.2 + 1) (wrap16 (m (d.2 + 1) - 1))
          else m) (Column.applyOps col ops).mismatches) := rfl
  have hwfc : ColumnWF (colOf ops) :=
    columnWF_applyOps ops Column.initSt columnWF_initSt
  have hdl31 : (colOf ops).decorations.length ≤ 31 := by
    have h2 := (applyOps_len ops Column.initSt).2
    have h3 : Column.initSt.decorations.length = 0 := rfl
    have h4 : (colOf ops).decorations.length =
        (Column.applyOps Column.initSt ops).decorations.length := rfl
    omega
  have hsl : (sealedRuns (colOf ops)).length ≤ 32 := by
    have h1 := sealedRuns_len (colOf ops)
    have h2 := (applyOps_len ops Column.initSt).1
    have h3 : Column.initSt.data.length = 0 := rfl
    have h4 : (colOf ops).data.length =
        (Column.applyOps Column.initSt ops).data.length := rfl
    omega
  have hdlc : ((colOf ops).decorations.length : Int) ≤ 31 := by
    exact_mod_cast hdl31
  have hslc : ((sealedRuns (colOf ops)).length : Int) ≤ 32 := by
    exact_mod_cast hsl
  have hRlc : (R.length : Int) ≤ 32 := by exact_mod_cast hRlen
  have hdlc0 : (0 : Int) ≤ ((colOf ops).decorations.length : Int) :=
    Int.natCast_nonneg _
  have hslc0 : (0 : Int) ≤ ((sealedRuns (colOf ops)).length : Int) :=
    Int.natCast_nonneg _
  have hRlc0 : (0 : Int) ≤ (R.length : Int) := Int.natCast_nonneg _
  have hdecF := decFold_bnd_msum (colOf ops).decorations col.mismatches B hB
    hB0 (by omega)
  obtain ⟨hBnd1, hms1⟩ := hdecF
  have hwalk := walk_msum_bnd
    ((sealedRuns (colOf ops)).length + R.length)
    (sealedRuns (colOf ops)) R true 0 0
    ((colOf ops).decorations.foldl (fun m d =>
      let m := Function.update m d.2 (wrap16 (m d.2 + 1))
      if d.2 + 1 < kWorldHeight then
        Function.update m (d.2 + 1) (wrap16 (m (d.2 + 1) - 1))
      else m) col.mismatches)
    (B + 2 * (colOf ops).decorations.length) hBnd1 (by omega) (by omega)
  have hcov1 : covers 0 (sealedRuns (colOf ops)) :=
    covers_sealedRuns (colOf ops) hwfc.1
  refine ⟨rfl, rfl, rfl, ?_, ?_, ?_⟩
  · show (Column.applyOps col ops).reference = R
    exact hrefR
  · rw [hkey, hrefR, hmref.1, hagree.2.2,
      sealedRuns_congr _ _ hagree.1 hagree.2.1]
    exact Bnd_weaken _ _ _ hwalk.1 (by omega)
  · intro y hy
    rw [hkey, hrefR, hmref.1, hagree.2.2,
      sealedRuns_congr _ _ hagree.1 hagree.2.1]
    rw [hwalk.2 y, hms1 y hy]
    rw [walkDeltaP_spec ((sealedRuns (colOf ops)).length + R.length)
      (sealedRuns (colOf ops)) R true 0 0 y hcov1 hRcov (Nat.le_refl _)
      (Nat.zero_le y) hy]
    rw [if_pos rfl]
    unfold colScoreAt
    push_cast
    ring

theorem stepVox_c1 (ops : List ColOp) (col : ColumnSt) (reg : Registry)
    (ax az : Int) (ch : Chunk) (first : Bool)
    (hd : col.data = []) (hl : col.last = 0) (hdec : col.decorations = []) :
    (∀ (a1 a2 : Fin 16) (y : Nat), ¬(a1 = cmask ax ∧ a2 = cmask az) →
      ((Column.fillChunk (Column.applyOps col ops) reg ax az ch
        first).1).voxels a1 a2 y = ch.voxels a1 a2 y) ∧
    (∀ y, y < kWorldHeight → decCount (colOf ops).decorations y = 0 →
      ch.voxels (cmask ax) (cmask az) y = kEmptyBlock →
      ((Column.fillChunk (Column.applyOps col ops) reg ax az ch
        first).1).voxels (cmask ax) (cmask az) y =
        runsBlockAt (sealedRuns (colOf ops)) y) := by
  have hcolwf : ColumnWF col := by
    constructor
    · rw [hd, hl]
      show (0 : Nat) = 0
      rfl
    · rw [hdec]
      intro d hd2
      exact absurd hd2 (List.not_mem_nil d)
  have hwf1 := columnWF_applyOps ops col hcolwf
  have hagree := applyOps_colOf ops col hd hl hdec
  have hwfc : ColumnWF (colOf ops) :=
    columnWF_applyOps ops Column.initSt columnWF_initSt
  constructor
  · intro a1 a2 y hother
    exact fillChunk_vox_other _ reg ax az ch first hwf1.1 a1 a2 y hother
  · intro y hy hdc hbase
    have hdc1 : decCount (Column.applyOps col ops).decorations y = 0 := by
      rw [hagree.2.2]
      exact hdc
    rw [fillChunk_vox_own _ reg ax az ch first hwf1.1 y hdc1]
    rw [runsBlockAt_sealedRuns (colOf ops) y hy]
    by_cases hyl : y < (Column.applyOps col ops).last
    · rw [if_pos hyl, hagree.1]
    · rw [if_neg hyl, hbase]
      have hge : (colOf ops).last ≤ y := by
        rw [← hagree.2.1]
        omega
      rw [runsBlockAt_ge (colOf ops).data 0 (colOf ops).last hwfc.1 y hge]

theorem cmask_base (c : Int) (a : Nat) (ha : a < 16) :
    cmask (c * 16 + (a : Int)) = ⟨a, ha⟩ := by
  unfold cmask
  apply Fin.ext
  show ((c * 16 + (a : Int)) % 16).toNat = a
  omega

theorem sealedRuns_colOf_len (ops : List ColOp) (hN : ops.length ≤ 31) :
    (sealedRuns (colOf ops)).length ≤ 32 := by
  have h1 := sealedRuns_len (colOf ops)
  have h2 := (applyOps_len ops Column.initSt).1
  have h3 : Column.initSt.data.length = 0 := rfl
  have h4 : (colOf ops).data.length =
      (Column.applyOps Column.initSt ops).data.length := rfl
  omega

theorem stepScratch_c1_first (ops : List ColOp) (col : ColumnSt)
    (hd : col.data = []) (hl : col.last = 0) (hdec : col.decorations = [])
    (hN : ops.length ≤ 31) :
    (Column.clear (Column.detectEquiLevelChanges (Column.applyOps col ops)
      true)).data = [] ∧
    (Column.clear (Column.detectEquiLevelChanges (Column.applyOps col ops)
      true)).last = 0 ∧
    (Column.clear (Column.detectEquiLevelChanges (Column.applyOps col ops)
      true)).decorations = [] ∧
    (Column.clear (Column.detectEquiLevelChanges (Column.applyOps col ops)
      true)).reference = sealedRuns (colOf ops) ∧
    Bnd 62 (Column.clear (Column.detectEquiLevelChanges
      (Column.applyOps col ops) true)).mismatches ∧
    (∀ y, y < kWorldHeight →
      msum (Column.clear (Column.detectEquiLevelChanges
        (Column.applyOps col ops) true)).mismatches y =
        (decCount (colOf ops).decorations y : Int)) := by
  have hagree := applyOps_colOf ops col hd hl hdec
  have hkey : (Column.clear (Column.detectEquiLevelChanges
      (Column.applyOps col ops) true)).mismatches =
      (Column.applyOps col ops).decorations.foldl (fun m d =>
        let m := Function.update m d.2 (wrap16 (m d.2 + 1))
        if d.2 + 1 < kWorldHeight then
          Function.update m (d.2 + 1) (wrap16 (m (d.2 + 1) - 1))
        else m) (fun _ => (0 : Int)) := rfl
  have hdl31 : (colOf ops).decorations.length ≤ 31 := by
    have h2 := (applyOps_len ops Column.initSt).2
    have h3 : Column.initSt.decorations.length = 0 := rfl
    have h4 : (colOf ops).decorations.length =
        (Column.applyOps Column.initSt ops).decorations.length := rfl
    omega
  have hdlc : ((colOf ops).decorations.length : Int) ≤ 31 := by
    exact_mod_cast hdl31
  have hdlc0 : (0 : Int) ≤ ((colOf ops).decorations.length : Int) :=
    Int.natCast_nonneg _
  have hz : Bnd 0 (fun _ => (0 : Int)) := by
    intro a
    simp only []
    omega
  have hdecF := decFold_bnd_msum (colOf ops).decorations (fun _ => (0 : Int))
    0 hz (by omega) (by omega)
  refine ⟨rfl, rfl, rfl, ?_, ?_, ?_⟩
  · show sealedRuns (Column.applyOps col ops) = sealedRuns (colOf ops)
    exact sealedRuns_congr _ _ hagree.1 hagree.2.1
  · rw [hkey, hagree.2.2]
    exact Bnd_weaken _ _ _ hdecF.1 (by omega)
  · intro y hy
    rw [hkey, hagree.2.2, hdecF.2 y hy, msum_zero]
    ring

theorem loadTail_c1 (reg : Registry) (loader : Int → Int → List ColOp)
    (cx cz : Int) (R : List (Int × Nat))
    (hN : ∀ a b, (loader a b).length ≤ 31)
    (hRcov : covers 0 R) (hRlen : R.length ≤ 32) :
    ∀ (rest : List (Nat × Nat)) (ch : Chunk) (col : ColumnSt) (B : Int),
    col.data = [] → col.last = 0 → col.decorations = [] →
    col.reference = R → Bnd B col.mismatches → 0 ≤ B →
    B + 128 * (rest.length : Int) < 32768 →
    (∀ xz ∈ rest, xz.1 < 16 ∧ xz.2 < 16 ∧ xz.1 + xz.2 ≠ 0) →
    rest.Nodup →
    (∀ xz ∈ rest, ∀ y : Nat, ch.voxels (cmask (cx * 16 + (xz.1 : Int)))
      (cmask (cz * 16 + (xz.2 : Int))) y = kEmptyBlock) →
    ((rest.foldl (Chunk.loadStep reg loader cx cz) (ch, col)).2.data = [] ∧
     (rest.foldl (Chunk.loadStep reg loader cx cz) (ch, col)).2.last = 0 ∧
     (rest.foldl (Chunk.loadStep reg loader cx cz) (ch, col)).2.decorations
       = [] ∧
     (rest.foldl (Chunk.loadStep reg loader cx cz) (ch, col)).2.reference
       = R) ∧
    Bnd (B + 128 * (rest.length : Int))
      (rest.foldl (Chunk.loadStep reg loader cx cz) (ch, col)).2.mismatches ∧
    (∀ y, y < kWorldHeight →
      msum (rest.foldl (Chunk.loadStep reg loader cx cz)
        (ch, col)).2.mismatches y =
        msum col.mismatches y + ((rest.map (fun xz => colScoreAt R
          (loader (cx * 16 + (xz.1 : Int)) (cz * 16 + (xz.2 : Int)))
          y)).sum : Int)) ∧
    (∀ (a1 a2 : Fin 16) (y : Nat),
      (∀ xz ∈ rest, ¬(a1 = cmask (cx * 16 + (xz.1 : Int)) ∧
        a2 = cmask (cz * 16 + (xz.2 : Int)))) →
      (rest.foldl (Chunk.loadStep reg loader cx cz) (ch, col)).1.voxels
        a1 a2 y = ch.voxels a1 a2 y) ∧
    (∀ xz ∈ rest, ∀ y, y < kWorldHeight →
      decCount (colOf (loader (cx * 16 + (xz.1 : Int))
        (cz * 16 + (xz.2 : Int)))).decorations y = 0 →
      (rest.foldl (Chunk.loadStep reg loader cx cz) (ch, col)).1.voxels
        (cmask (cx * 16 + (xz.1 : Int))) (cmask (cz * 16 + (xz.2 : Int)))
        y = runsBlockAt (sealedRuns (colOf (loader (cx * 16 + (xz.1 : Int))
          (cz * 16 + (xz.2 : Int))))) y) := by
  intro rest
  induction rest with
  | nil =>
    intro ch col B hd hl hdec href hB hB0 hbud hco hnd hfresh
    refine ⟨⟨hd, hl, hdec, href⟩, ?_, ?_, ?_, ?_⟩
    · refine Bnd_weaken B _ _ hB ?_
      simp
    · intro y hy
      show msum col.mismatches y = msum col.mismatches y + ((0 : Nat) : Int)
      push_cast
      ring
    · intro a1 a2 y _
      rfl
    · intro xz hxz
      exact absurd hxz (List.not_mem_nil xz)
  | cons xz rest2 ih =>
    intro ch col B hd hl hdec href hB hB0 hbud hco hnd hfresh
    have hco0 := hco xz (List.mem_cons_self _ _)
    have hfirst : decide (xz.1 + xz.2 = 0) = false := decide_eq_false hco0.2.2
    have hnd2 := List.nodup_cons.mp hnd
    have hlen2 : (((xz :: rest2) : List (Nat × Nat)).length : Int) =
        (rest2.length : Int) + 1 := by
      push_cast [List.length_cons]
      ring
    have hrl0 : (0 : Int) ≤ (rest2.length : Int) := Int.natCast_nonneg _
    rw [List.foldl_cons]
    have hbr : Chunk.loadStep reg loader cx cz (ch, col) xz =
        ((Column.fillChunk (Column.applyOps col (loader
          (cx * 16 + (xz.1 : Int)) (cz * 16 + (xz.2 : Int)))) reg
          (cx * 16 + (xz.1 : Int)) (cz * 16 + (xz.2 : Int)) ch
          (decide (xz.1 + xz.2 = 0))).1,
         Column.clear (Column.detectEquiLevelChanges (Column.applyOps col
           (loader (cx * 16 + (xz.1 : Int)) (cz * 16 + (xz.2 : Int))))
           (decide (xz.1 + xz.2 = 0)))) := rfl
    rw [hbr, hfirst]
    have hscr := stepScratch_c1 (loader (cx * 16 + (xz.1 : Int))
      (cz * 16 + (xz.2 : Int))) col R B hd hl hdec href hRcov hRlen hB hB0
      (by omega) (hN _ _)
    have hvox := stepVox_c1 (loader (cx * 16 + (xz.1 : Int))
      (cz * 16 + (xz.2 : Int))) col reg (cx * 16 + (xz.1 : Int))
      (cz * 16 + (xz.2 : Int)) ch false hd hl hdec
    have hdiff : ∀ xz2 ∈ rest2,
        ¬(cmask (cx * 16 + (xz2.1 : Int)) = cmask (cx * 16 + (xz.1 : Int)) ∧
          cmask (cz * 16 + (xz2.2 : Int)) =
            cmask (cz * 16 + (xz.2 : Int))) := by
      intro xz2 hm hcontra
      have hb2 := hco xz2 (List.mem_cons_of_mem _ hm)
      have hc1 := hcontra.1
      have hc2 := hcontra.2
      rw [cmask_base cx xz2.1 hb2.1, cmask_base cx xz.1 hco0.1] at hc1
      rw [cmask_base cz xz2.2 hb2.2.1, cmask_base cz xz.2 hco0.2.1] at hc2
      have he1 : xz2.1 = xz.1 := congrArg Fin.val hc1
      have he2 : xz2.2 = xz.2 := congrArg Fin.val hc2
      have hee : xz2 = xz := by
        rcases xz2 with ⟨a2, b2⟩
        rcases xz with ⟨a1, b1⟩
        show (a2, b2) = (a1, b1)
        rw [show a2 = a1 from he1, show b2 = b1 from he2]
      exact hnd2.1 (hee ▸ hm)
    have hfresh2 : ∀ xz2 ∈ rest2, ∀ y : Nat,
        ((Column.fillChunk (Column.applyOps col (loader
          (cx * 16 + (xz.1 : Int)) (cz * 16 + (xz.2 : Int)))) reg
          (cx * 16 + (xz.1 : Int)) (cz * 16 + (xz.2 : Int)) ch
          false).1).voxels (cmask (cx * 16 + (xz2.1 : Int)))
          (cmask (cz * 16 + (xz2.2 : Int))) y = kEmptyBlock := by
      intro xz2 hm y
      rw [hvox.1 _ _ y (hdiff xz2 hm)]
      exact hfresh xz2 (List.mem_cons_of_mem _ hm) y
    have hmain := ih
      ((Column.fillChunk (Column.applyOps col (loader
        (cx * 16 + (xz.1 : Int)) (cz * 16 + (xz.2 : Int)))) reg
        (cx * 16 + (xz.1 : Int)) (cz * 16 + (xz.2 : Int)) ch false).1)
      (Column.clear (Column.detectEquiLevelChanges (Column.applyOps col
        (loader (cx * 16 + (xz.1 : Int)) (cz * 16 + (xz.2 : Int)))) false))
      (B + 128) hscr.1 hscr.2.1 hscr.2.2.1 hscr.2.2.2.1 hscr.2.2.2.2.1
      (by omega) (by rw [hlen2] at hbud; omega)
      (fun xz2 hm => hco xz2 (List.mem_cons_of_mem _ hm)) hnd2.2 hfresh2
    refine ⟨hmain.1, ?_, ?_, ?_, ?_⟩
    · have heq : B + 128 * (((xz :: rest2) : List (Nat × Nat)).length : Int) =
          B + 128 + 128 * (rest2.length : Int) := by
        rw [hlen2]
        ring
      rw [heq]
      exact hmain.2.1
    · intro y hy
      rw [hmain.2.2.1 y hy, hscr.2.2.2.2.2 y hy, List.map_cons,
        List.sum_cons]
      push_cast
      ring
    · intro a1 a2 y hall
      rw [hmain.2.2.2.1 a1 a2 y
        (fun xz2 hm => hall xz2 (List.mem_cons_of_mem _ hm))]
      exact hvox.1 a1 a2 y (hall xz (List.mem_cons_self _ _))
    · intro xz2 hm2 y hy hdc
      rcases List.mem_cons.mp hm2 with he | hm3
      · subst he
        rw [hmain.2.2.2.1 (cmask (cx * 16 + (xz2.1 : Int)))
          (cmask (cz * 16 + (xz2.2 : Int))) y
          (fun xz3 hm3 hcontra => hdiff xz3 hm3
            ⟨hcontra.1.symm, hcontra.2.symm⟩)]
        exact hvox.2 y hy hdc (hfresh xz2 (List.mem_cons_self _ _) y)
      · exact hmain.2.2.2.2 xz2 hm3 y hy hdc

set_option maxRecDepth 100000 in
set_option maxHeartbeats 2000000 in
/-- C1 (amended): for a chunk built by `Chunk.load` from a cleared scratch
with a loader that makes at most 31 calls per column (so the Int16
mismatch counters never wrap), every height `y < kWorldHeight` with
`equilevels[y] = 1` has all 16×16 voxels of row `y` equal.  (Without the
per-column bound the property fails: 2^16 same-level overwrites wrap the
mismatch counter back to 0, see the counterexample.) -/
theorem c1_equilevels (reg : Registry) (loader : Int → Int → List ColOp)
    (cx cz : Int) (col0 : ColumnSt)
    (hd0 : col0.data = []) (hl0 : col0.last = 0)
    (hdec0 : col0.decorations = [])
    (hN : ∀ a b, (loader a b).length ≤ 31)
    (y : Nat) (hy : y < kWorldHeight)
    (he : (Chunk.load reg loader cx cz col0).1.equilevels y = 1)
    (x1 z1 x2 z2 : Fin 16) :
    (Chunk.load reg loader cx cz col0).1.voxels x1 z1 y =
      (Chunk.load reg loader cx cz col0).1.voxels x2 z2 y := by
  have hT : ∀ xz ∈ colsList.tail, xz.1 < 16 ∧ xz.2 < 16 ∧ xz.1 + xz.2 ≠ 0 :=
    by decide
  have hTnd : colsList.tail.Nodup := by decide
  have hmemAll : ∀ (a b : Fin 16), (a.val, b.val) ∈ colsList := by decide
  have hTlen : colsList.tail.length = 255 := rfl
  have hsplit : colsList = ((0, 0) : Nat × Nat) :: colsList.tail := rfl
  have hwfc0 : ColumnWF (colOf (loader (cx * 16 + ((0 : Nat) : Int))
      (cz * 16 + ((0 : Nat) : Int)))) :=
    columnWF_applyOps _ _ columnWF_initSt
  have hRcov : covers 0 (sealedRuns (colOf (loader
      (cx * 16 + ((0 : Nat) : Int)) (cz * 16 + ((0 : Nat) : Int))))) :=
    covers_sealedRuns _ hwfc0.1
  have hRlen : (sealedRuns (colOf (loader (cx * 16 + ((0 : Nat) : Int))
      (cz * 16 + ((0 : Nat) : Int))))).length ≤ 32 :=
    sealedRuns_colOf_len _ (hN _ _)
  have hscr0 := stepScratch_c1_first (loader (cx * 16 + ((0 : Nat) : Int))
    (cz * 16 + ((0 : Nat) : Int))) col0 hd0 hl0 hdec0 (hN _ _)
  have hvox0 := stepVox_c1 (loader (cx * 16 + ((0 : Nat) : Int))
    (cz * 16 + ((0 : Nat) : Int))) col0 reg (cx * 16 + ((0 : Nat) : Int))
    (cz * 16 + ((0 : Nat) : Int)) (Chunk.init cx cz) true hd0 hl0 hdec0
  have hzdiff : ∀ xz ∈ colsList.tail,
      ¬(cmask (cx * 16 + ((0 : Nat) : Int)) =
          cmask (cx * 16 + (xz.1 : Int)) ∧
        cmask (cz * 16 + ((0 : Nat) : Int)) =
          cmask (cz * 16 + (xz.2 : Int))) := by
    intro xz hm hcontra
    have hb := hT xz hm
    have hc1 := hcontra.1
    have hc2 := hcontra.2
    rw [cmask_base cx 0 (by omega), cmask_base cx xz.1 hb.1] at hc1
    rw [cmask_base cz 0 (by omega), cmask_base cz xz.2 hb.2.1] at hc2
    have he1 : 0 = xz.1 := congrArg Fin.val hc1
    have he2 : 0 = xz.2 := congrArg Fin.val hc2
    omega
  have hfresh0 : ∀ xz ∈ colsList.tail, ∀ yy : Nat,
      ((Column.fillChunk (Column.applyOps col0 (loader
        (cx * 16 + ((0 : Nat) : Int)) (cz * 16 + ((0 : Nat) : Int)))) reg
        (cx * 16 + ((0 : Nat) : Int)) (cz * 16 + ((0 : Nat) : Int))
        (Chunk.init cx cz) true).1).voxels
        (cmask (cx * 16 + (xz.1 : Int))) (cmask (cz * 16 + (xz.2 : Int)))
        yy = kEmptyBlock := by
    intro xz hm yy
    rw [hvox0.1 _ _ yy (fun hcontra => hzdiff xz hm
      ⟨hcontra.1.symm, hcontra.2.symm⟩)]
    rfl
  have htail := loadTail_c1 reg loader cx cz
    (sealedRuns (colOf (loader (cx * 16 + ((0 : Nat) : Int))
      (cz * 16 + ((0 : Nat) : Int))))) hN hRcov hRlen colsList.tail
    ((Column.fillChunk (Column.applyOps col0 (loader
      (cx * 16 + ((0 : Nat) : Int)) (cz * 16 + ((0 : Nat) : Int)))) reg
      (cx * 16 + ((0 : Nat) : Int)) (cz * 16 + ((0 : Nat) : Int))
      (Chunk.init cx cz) true).1)
    (Column.clear (Column.detectEquiLevelChanges (Column.applyOps col0
      (loader (cx * 16 + ((0 : Nat) : Int))
        (cz * 16 + ((0 : Nat) : Int)))) true))
    62 hscr0.1 hscr0.2.1 hscr0.2.2.1 hscr0.2.2.2.1 hscr0.2.2.2.2.1
    (by omega) (by rw [hTlen]; decide) hT hTnd hfresh0
  have hstep0 : Chunk.loadStep reg loader cx cz (Chunk.init cx cz, col0)
      ((0, 0) : Nat × Nat) =
      (((Column.fillChunk (Column.applyOps col0 (loader
        (cx * 16 + ((0 : Nat) : Int)) (cz * 16 + ((0 : Nat) : Int)))) reg
        (cx * 16 + ((0 : Nat) : Int)) (cz * 16 + ((0 : Nat) : Int))
        (Chunk.init cx cz) true).1),
       (Column.clear (Column.detectEquiLevelChanges (Column.applyOps col0
         (loader (cx * 16 + ((0 : Nat) : Int))
           (cz * 16 + ((0 : Nat) : Int)))) true))) := rfl
  have hFOLD : colsList.foldl (Chunk.loadStep reg loader cx cz)
      (Chunk.init cx cz, col0) =
      colsList.tail.foldl (Chunk.loadStep reg loader cx cz)
      (((Column.fillChunk (Column.applyOps col0 (loader
        (cx * 16 + ((0 : Nat) : Int)) (cz * 16 + ((0 : Nat) : Int)))) reg
        (cx * 16 + ((0 : Nat) : Int)) (cz * 16 + ((0 : Nat) : Int))
        (Chunk.init cx cz) true).1),
       (Column.clear (Column.detectEquiLevelChanges (Column.applyOps col0
         (loader (cx * 16 + ((0 : Nat) : Int))
           (cz * 16 + ((0 : Nat) : Int)))) true))) := by
    conv_lhs => rw [hsplit, List.foldl_cons, hstep0]
  have heq : (Chunk.load reg loader cx cz col0).1.equilevels y =
      (if y < kWorldHeight then
        (if msum (colsList.foldl (Chunk.loadStep reg loader cx cz)
          (Chunk.init cx cz, col0)).2.mismatches y = 0 then 1 else 0)
       else (colsList.foldl (Chunk.loadStep reg loader cx cz)
         (Chunk.init cx cz, col0)).1.equilevels y) := rfl
  rw [heq, if_pos hy] at he
  have hms0 : msum (colsList.foldl (Chunk.loadStep reg loader cx cz)
      (Chunk.init cx cz, col0)).2.mismatches y = 0 := by
    by_cases hmz : msum (colsList.foldl (Chunk.loadStep reg loader cx cz)
        (Chunk.init cx cz, col0)).2.mismatches y = 0
    · exact hmz
    · rw [if_neg hmz] at he
      exact absurd he (by decide)
  rw [hFOLD] at hms0
  rw [htail.2.2.1 y hy, hscr0.2.2.2.2.2 y hy] at hms0
  have hdc0nn : (0 : Int) ≤ (decCount (colOf (loader
      (cx * 16 + ((0 : Nat) : Int))
      (cz * 16 + ((0 : Nat) : Int)))).decorations y : Int) :=
    Int.natCast_nonneg _
  have hsumnn : (0 : Int) ≤ ((colsList.tail.map (fun xz => colScoreAt
      (sealedRuns (colOf (loader (cx * 16 + ((0 : Nat) : Int))
        (cz * 16 + ((0 : Nat) : Int)))))
      (loader (cx * 16 + (xz.1 : Int)) (cz * 16 + (xz.2 : Int)))
      y)).sum : Int) := Int.natCast_nonneg _
  have hdc0 : decCount (colOf (loader (cx * 16 + ((0 : Nat) : Int))
      (cz * 16 + ((0 : Nat) : Int)))).decorations y = 0 := by omega
  have hsum0 : (colsList.tail.map (fun xz => colScoreAt
      (sealedRuns (colOf (loader (cx * 16 + ((0 : Nat) : Int))
        (cz * 16 + ((0 : Nat) : Int)))))
      (loader (cx * 16 + (xz.1 : Int)) (cz * 16 + (xz.2 : Int)))
      y)).sum = 0 := by omega
  have hscore : ∀ xz ∈ colsList.tail, colScoreAt
      (sealedRuns (colOf (loader (cx * 16 + ((0 : Nat) : Int))
        (cz * 16 + ((0 : Nat) : Int)))))
      (loader (cx * 16 + (xz.1 : Int)) (cz * 16 + (xz.2 : Int))) y = 0 := by
    intro xz hm
    exact List.sum_eq_zero_iff.mp hsum0 _ (List.mem_map_of_mem _ hm)
  have hval : ∀ (a b : Fin 16),
      (colsList.tail.foldl (Chunk.loadStep reg loader cx cz)
        (((Column.fillChunk (Column.applyOps col0 (loader
          (cx * 16 + ((0 : Nat) : Int)) (cz * 16 + ((0 : Nat) : Int)))) reg
          (cx * 16 + ((0 : Nat) : Int)) (cz * 16 + ((0 : Nat) : Int))
          (Chunk.init cx cz) true).1),
         (Column.clear (Column.detectEquiLevelChanges (Column.applyOps col0
           (loader (cx * 16 + ((0 : Nat) : Int))
             (cz * 16 + ((0 : Nat) : Int)))) true)))).1.voxels a b y =
      runsBlockAt (sealedRuns (colOf (loader (cx * 16 + ((0 : Nat) : Int))
        (cz * 16 + ((0 : Nat) : Int))))) y := by
    intro a b
    by_cases hz00 : a = (⟨0, by omega⟩ : Fin 16) ∧ b = (⟨0, by omega⟩ : Fin 16)
    · obtain ⟨ha, hb⟩ := hz00
      subst ha
      subst hb
      have hca : cmask (cx * 16 + ((0 : Nat) : Int)) =
          (⟨0, by omega⟩ : Fin 16) := cmask_base cx 0 (by omega)
      have hcb : cmask (cz * 16 + ((0 : Nat) : Int)) =
          (⟨0, by omega⟩ : Fin 16) := cmask_base cz 0 (by omega)
      have htrans := (htail.2.2.2.1 (cmask (cx * 16 + ((0 : Nat) : Int)))
        (cmask (cz * 16 + ((0 : Nat) : Int))) y hzdiff).trans
        (hvox0.2 y hy hdc0 rfl)
      rw [hca, hcb] at htrans
      exact htrans
    · have hmem : (a.val, b.val) ∈ colsList.tail := by
        rcases List.mem_cons.mp (hsplit ▸ hmemAll a b) with hp | hp
        · exfalso
          have hpa : a.val = 0 := congrArg Prod.fst hp
          have hpb : b.val = 0 := congrArg Prod.snd hp
          exact hz00 ⟨Fin.ext hpa, Fin.ext hpb⟩
        · exact hp
      have hsc : colScoreAt (sealedRuns (colOf (loader
          (cx * 16 + ((0 : Nat) : Int)) (cz * 16 + ((0 : Nat) : Int)))))
          (loader (cx * 16 + (a.val : Int)) (cz * 16 + (b.val : Int)))
          y = 0 := hscore (a.val, b.val) hmem
      unfold colScoreAt at hsc
      have hdca : decCount (colOf (loader (cx * 16 + (a.val : Int))
          (cz * 16 + (b.val : Int)))).decorations y = 0 := by omega
      have hind : (if (runsBlockAt (sealedRuns (colOf (loader
          (cx * 16 + (a.val : Int)) (cz * 16 + (b.val : Int))))) y ==
          runsBlockAt (sealedRuns (colOf (loader
          (cx * 16 + ((0 : Nat) : Int)) (cz * 16 + ((0 : Nat) : Int)))))
          y) = true then (0 : Nat) else 1) = 0 := by omega
      have hbeq : runsBlockAt (sealedRuns (colOf (loader
          (cx * 16 + (a.val : Int)) (cz * 16 + (b.val : Int))))) y =
          runsBlockAt (sealedRuns (colOf (loader
          (cx * 16 + ((0 : Nat) : Int)) (cz * 16 + ((0 : Nat) : Int)))))
          y := by
        by_cases hC : (runsBlockAt (sealedRuns (colOf (loader
            (cx * 16 + (a.val : Int)) (cz * 16 + (b.val : Int))))) y ==
            runsBlockAt (sealedRuns (colOf (loader
            (cx * 16 + ((0 : Nat) : Int)) (cz * 16 + ((0 : Nat) : Int)))))
            y) = true
        · exact eq_of_beq hC
        · rw [if_neg hC] at hind
          exact absurd hind (by decide)
      have hv5 : (colsList.tail.foldl (Chunk.loadStep reg loader cx cz)
          (((Column.fillChunk (Column.applyOps col0 (loader
            (cx * 16 + ((0 : Nat) : Int)) (cz * 16 + ((0 : Nat) : Int))))
            reg (cx * 16 + ((0 : Nat) : Int)) (cz * 16 + ((0 : Nat) : Int))
            (Chunk.init cx cz) true).1),
           (Column.clear (Column.detectEquiLevelChanges
             (Column.applyOps col0 (loader (cx * 16 + ((0 : Nat) : Int))
               (cz * 16 + ((0 : Nat) : Int)))) true)))).1.voxels
          (cmask (cx * 16 + (a.val : Int))) (cmask (cz * 16 + (b.val : Int)))
          y = runsBlockAt (sealedRuns (colOf (loader
            (cx * 16 + (a.val : Int)) (cz * 16 + (b.val : Int))))) y :=
        htail.2.2.2.2 (a.val, b.val) hmem y hy hdca
      rw [cmask_base cx a.val a.isLt, cmask_base cz b.val b.isLt] at hv5
      have hfa : (⟨a.val, a.isLt⟩ : Fin 16) = a := Fin.ext rfl
      have hfb : (⟨b.val, b.isLt⟩ : Fin 16) = b := Fin.ext rfl
      rw [hfa, hfb] at hv5
      rw [hv5, hbeq]
  have hv1 : (Chunk.load reg loader cx cz col0).1.voxels x1 z1 y =
      (colsList.tail.foldl (Chunk.loadStep reg loader cx cz)
        (((Column.fillChunk (Column.applyOps col0 (loader
          (cx * 16 + ((0 : Nat) : Int)) (cz * 16 + ((0 : Nat) : Int)))) reg
          (cx * 16 + ((0 : Nat) : Int)) (cz * 16 + ((0 : Nat) : Int))
          (Chunk.init cx cz) true).1),
         (Column.clear (Column.detectEquiLevelChanges (Column.applyOps col0
           (loader (cx * 16 + ((0 : Nat) : Int))
             (cz * 16 + ((0 : Nat) : Int)))) true)))).1.voxels x1 z1 y := rfl
  have hv2 : (Chunk.load reg loader cx cz col0).1.voxels x2 z2 y =
      (colsList.tail.foldl (Chunk.loadStep reg loader cx cz)
        (((Column.fillChunk (Column.applyOps col0 (loader
          (cx * 16 + ((0 : Nat) : Int)) (cz * 16 + ((0 : Nat) : Int)))) reg
          (cx * 16 + ((0 : Nat) : Int)) (cz * 16 + ((0 : Nat) : Int))
          (Chunk.init cx cz) true).1),
         (Column.clear (Column.detectEquiLevelChanges (Column.applyOps col0
           (loader (cx * 16 + ((0 : Nat) : Int))
             (cz * 16 + ((0 : Nat) : Int)))) true)))).1.voxels x2 z2 y := rfl
  rw [hv1, hv2, hval x1 z1, hval x2 z2]

theorem applyOps_replicate_ow : ∀ (k : Nat) (c : ColumnSt),
    Column.applyOps c (List.replicate k (ColOp.overwrite 7 5)) =
    { c with decorations :=
        c.decorations ++ List.replicate k ((7 : Int), (5 : Nat)) } := by
  intro k
  induction k with
  | zero =>
    intro c
    show c = { c with decorations := c.decorations ++ [] }
    rw [List.append_nil]
  | succ k ih =>
    intro c
    rw [List.replicate_succ]
    show Column.applyOps (Column.overwrite c 7 5)
      (List.replicate k (ColOp.overwrite 7 5)) = _
    have hov : Column.overwrite c 7 5 =
        { c with decorations := c.decorations ++ [((7 : Int), (5 : Nat))] } := by
      unfold Column.overwrite
      rw [if_pos (by constructor <;> decide)]
      rfl
    rw [hov, ih]
    show { c with decorations :=
        (c.decorations ++ [((7 : Int), (5 : Nat))]) ++
          List.replicate k ((7 : Int), (5 : Nat)) } = _
    rw [List.append_assoc, List.singleton_append, ← List.replicate_succ]

theorem decStep75 (m : Nat → Int) :
    (fun (m : Nat → Int) (d : Int × Nat) =>
      let m := Function.update m d.2 (wrap16 (m d.2 + 1))
      if d.2 + 1 < kWorldHeight then
        Function.update m (d.2 + 1) (wrap16 (m (d.2 + 1) - 1))
      else m) m ((7 : Int), (5 : Nat)) =
    fun h => if h = 5 then wrap16 (m 5 + 1)
             else if h = 6 then wrap16 (m 6 - 1) else m h := by
  funext h
  show (if (5 : Nat) + 1 < kWorldHeight then
      Function.update (Function.update m 5 (wrap16 (m 5 + 1))) (5 + 1)
        (wrap16 ((Function.update m 5 (wrap16 (m 5 + 1))) (5 + 1) - 1))
    else Function.update m 5 (wrap16 (m 5 + 1))) h = _
  rw [if_pos (by decide : (5 : Nat) + 1 < kWorldHeight)]
  rw [Function.update_noteq (by omega : (5 + 1 : Nat) ≠ 5)]
  by_cases h5 : h = 5
  · subst h5
    rw [Function.update_noteq (by omega : (5 : Nat) ≠ 5 + 1),
      Function.update_same, if_pos rfl]
  · by_cases h6 : h = 6
    · subst h6
      have h1 : Function.update (Function.update m 5 (wrap16 (m 5 + 1)))
          (5 + 1) (wrap16 (m (5 + 1) - 1)) 6 = wrap16 (m (5 + 1) - 1) :=
        Function.update_same _ _ _
      rw [h1, if_neg (by omega : ¬((6 : Nat) = 5)), if_pos rfl]
    · rw [Function.update_noteq (by omega : h ≠ 5 + 1),
        Function.update_noteq h5, if_neg h5, if_neg h6]

theorem decFold_replicate : ∀ (k : Nat) (m : Nat → Int),
    (List.replicate (k + 1) ((7 : Int), (5 : Nat))).foldl
      (fun (m : Nat → Int) (d : Int × Nat) =>
        let m := Function.update m d.2 (wrap16 (m d.2 + 1))
        if d.2 + 1 < kWorldHeight then
          Function.update m (d.2 + 1) (wrap16 (m (d.2 + 1) - 1))
        else m) m =
    fun h => if h = 5 then wrap16 (m 5 + ((k : Int) + 1))
             else if h = 6 then wrap16 (m 6 - ((k : Int) + 1)) else m h := by
  intro k
  induction k with
  | zero =>
    intro m
    rw [List.replicate_succ, List.foldl_cons,
      show List.replicate 0 ((7 : Int), (5 : Nat)) = [] from rfl,
      List.foldl_nil]
    refine Eq.trans (decStep75 m) ?_
    rw [Nat.cast_zero]
    funext h
    by_cases h5 : h = 5
    · subst h5
      rw [if_pos rfl, if_pos rfl]
      rw [show (0 : Int) + 1 = 1 from by ring]
    · by_cases h6 : h = 6
      · subst h6
        rw [if_neg (by omega : ¬((6 : Nat) = 5)), if_pos rfl,
          if_neg (by omega : ¬((6 : Nat) = 5)), if_pos rfl]
        rw [show (0 : Int) + 1 = 1 from by ring]
      · rw [if_neg h5, if_neg h6, if_neg h5, if_neg h6]
  | succ k ih =>
    intro m
    rw [List.replicate_succ, List.foldl_cons]
    refine Eq.trans (congrArg (fun a => List.foldl
      (fun (m : Nat → Int) (d : Int × Nat) =>
        let m := Function.update m d.2 (wrap16 (m d.2 + 1))
        if d.2 + 1 < kWorldHeight then
          Function.update m (d.2 + 1) (wrap16 (m (d.2 + 1) - 1))
        else m) a (List.replicate (k + 1) ((7 : Int), (5 : Nat))))
      (decStep75 m)) ?_
    simp only []
    rw [ih]
    funext h
    by_cases h5 : h = 5
    · subst h5
      rw [if_pos rfl, if_pos rfl]
      show wrap16 ((if (5 : Nat) = 5 then wrap16 (m 5 + 1)
        else if (5 : Nat) = 6 then wrap16 (m 6 - 1) else m 5) +
          ((k : Int) + 1)) = _
      rw [if_pos rfl, wrap16_wrap_add]
      congr 1
      push_cast
      ring
    · by_cases h6 : h = 6
      · subst h6
        rw [if_neg (by omega : ¬((6 : Nat) = 5)), if_pos rfl,
          if_neg (by omega : ¬((6 : Nat) = 5)), if_pos rfl]
        show wrap16 ((if (6 : Nat) = 5 then wrap16 (m 5 + 1)
          else if (6 : Nat) = 6 then wrap16 (m 6 - 1) else m 6) -
            ((k : Int) + 1)) = _
        rw [if_neg (by omega : ¬((6 : Nat) = 5)), if_pos rfl]
        rw [show wrap16 (m 6 - 1) - ((k : Int) + 1) =
          wrap16 (m 6 - 1) + (-((k : Int) + 1)) from by ring,
          wrap16_wrap_add]
        congr 1
        push_cast
        ring
      · rw [if_neg h5, if_neg h6, if_neg h5, if_neg h6]
        rw [if_neg h5, if_neg h6]

theorem decorRep_vox : ∀ (k : Nat) (ch : Chunk) (reg : Registry)
    (x z : Int) (a1 a2 : Fin 16) (yy : Nat),
    ((List.replicate (k + 1) ((7 : Int), (5 : Nat))).foldl
      (fun ch d => Chunk.setColumn reg ch x z d.2 1 d.1) ch).voxels
      a1 a2 yy =
    (if a1 = cmask x ∧ a2 = cmask z ∧ 5 ≤ yy ∧ yy < 5 + 1 then 7
     else ch.voxels a1 a2 yy) := by
  intro k
  induction k with
  | zero =>
    intro ch reg x z a1 a2 yy
    rw [List.replicate_succ, List.foldl_cons,
      show List.replicate 0 ((7 : Int), (5 : Nat)) = [] from rfl,
      List.foldl_nil]
    exact setColumn_voxels reg ch x z 5 1 7 a1 a2 yy
  | succ k ih =>
    intro ch reg x z a1 a2 yy
    rw [List.replicate_succ, List.foldl_cons]
    rw [ih (Chunk.setColumn reg ch x z 5 1 7) reg x z a1 a2 yy]
    by_cases hc : a1 = cmask x ∧ a2 = cmask z ∧ 5 ≤ yy ∧ yy < 5 + 1
    · rw [if_pos hc, if_pos hc]
    · rw [if_neg hc, if_neg hc, setColumn_voxels, if_neg hc]

theorem cexFold_noop : ∀ (l : List (Nat × Nat)) (ch : Chunk),
    (∀ xz ∈ l, ¬(xz.1 = 0 ∧ xz.2 = 1) ∧ xz.1 + xz.2 ≠ 0) →
    l.foldl (Chunk.loadStep regDefault cexC1Loader 0 0)
      (ch, cexC1Scratch) = (ch, cexC1Scratch) := by
  intro l
  induction l with
  | nil =>
    intro ch _
    rfl
  | cons xz rest ih =>
    intro ch hl
    have h0 := hl xz (List.mem_cons_self _ _)
    have hops : cexC1Loader (0 * 16 + (xz.1 : Int))
        (0 * 16 + (xz.2 : Int)) = [] := by
      unfold cexC1Loader
      rw [if_neg]
      intro hh
      exact h0.1 ⟨by omega, by omega⟩
    have hfirst : decide (xz.1 + xz.2 = 0) = false := decide_eq_false h0.2
    rw [List.foldl_cons]
    have hbr : Chunk.loadStep regDefault cexC1Loader 0 0
        (ch, cexC1Scratch) xz =
        ((Column.fillChunk (Column.applyOps cexC1Scratch (cexC1Loader
          (0 * 16 + (xz.1 : Int)) (0 * 16 + (xz.2 : Int)))) regDefault
          (0 * 16 + (xz.1 : Int)) (0 * 16 + (xz.2 : Int)) ch
          (decide (xz.1 + xz.2 = 0))).1,
         Column.clear (Column.detectEquiLevelChanges (Column.applyOps
           cexC1Scratch (cexC1Loader (0 * 16 + (xz.1 : Int))
             (0 * 16 + (xz.2 : Int)))) (decide (xz.1 + xz.2 = 0)))) := rfl
    rw [hbr, hops, hfirst]
    have hpair : ((Column.fillChunk (Column.applyOps cexC1Scratch
        ([] : List ColOp)) regDefault (0 * 16 + (xz.1 : Int))
        (0 * 16 + (xz.2 : Int)) ch false).1,
        Column.clear (Column.detectEquiLevelChanges (Column.applyOps
          cexC1Scratch ([] : List ColOp)) false)) = (ch, cexC1Scratch) := rfl
    rw [hpair]
    exact ih ch (fun xz2 hm => hl xz2 (List.mem_cons_of_mem _ hm))

/-- `clear` after a non-first `detectEquiLevelChanges` on a sealed-empty
column: the mismatch counters are exactly the decoration fold. -/
theorem clear_detect_false (ds : List (Int × Nat)) (ms : Nat → Int) :
    Column.clear (Column.detectEquiLevelChanges
      ({ data := [], last := 0, decorations := ds, mismatches := ms,
         reference := [(kEmptyBlock, kWorldHeight)] } : ColumnSt) false) =
    { data := [], last := 0, decorations := [],
      mismatches := ds.foldl
        (fun (m : Nat → Int) (d : Int × Nat) =>
          let m := Function.update m d.2 (wrap16 (m d.2 + 1))
          if d.2 + 1 < kWorldHeight then
            Function.update m (d.2 + 1) (wrap16 (m (d.2 + 1) - 1))
          else m) ms,
      reference := [(kEmptyBlock, kWorldHeight)] } := rfl

/-- `Chunk.load` unfolded at the equilevels bitmap. -/
theorem load_equilevels (reg : Registry) (loader : Int → Int → List ColOp)
    (cx cz : Int) (col0 : ColumnSt) (y : Nat) :
    (Chunk.load reg loader cx cz col0).1.equilevels y =
    (if y < kWorldHeight then
      (if msum (colsList.foldl (Chunk.loadStep reg loader cx cz)
        (Chunk.init cx cz, col0)).2.mismatches y = 0 then 1 else 0)
     else (colsList.foldl (Chunk.loadStep reg loader cx cz)
       (Chunk.init cx cz, col0)).1.equilevels y) := rfl

/-- `Chunk.load` leaves the voxels of the column fold untouched. -/
theorem load_voxels (reg : Registry) (loader : Int → Int → List ColOp)
    (cx cz : Int) (col0 : ColumnSt) :
    (Chunk.load reg loader cx cz col0).1.voxels =
    (colsList.foldl (Chunk.loadStep reg loader cx cz)
      (Chunk.init cx cz, col0)).1.voxels := rfl

/-- `fillChunk` on a sealed-empty column writes only the decorations. -/
theorem fillChunk_decor_vox (ds : List (Int × Nat)) (ms : Nat → Int)
    (reg : Registry) (x z : Int) (ch : Chunk) (a1 a2 : Fin 16) (yy : Nat) :
    ((Column.fillChunk
      ({ data := [], last := 0, decorations := ds, mismatches := ms,
         reference := [(kEmptyBlock, kWorldHeight)] } : ColumnSt)
      reg x z ch false).1).voxels a1 a2 yy =
    (ds.foldl (fun ch d => Chunk.setColumn reg ch x z d.2 1 d.1) ch).voxels
      a1 a2 yy := rfl

set_option maxRecDepth 100000 in
/-- C1 counterexample to the unbounded claim: a loader that issues 2^16
overwrites of block 7 at height 5 in column (0, 1) wraps the Int16
mismatch counters at 5 and 6 back to 0, so `equilevels[5] = 1` even
though row 5 holds block 7 at (0, 1) and block 0 everywhere else. -/
theorem c1_counterexample_wrap :
    (Chunk.load regDefault cexC1Loader 0 0 Column.initSt).1.equilevels 5
      = 1 ∧
    (Chunk.load regDefault cexC1Loader 0 0 Column.initSt).1.voxels 0 1 5
      = 7 ∧
    (Chunk.load regDefault cexC1Loader 0 0 Column.initSt).1.voxels 0 0 5
      = 0 ∧
    ((7 : Int) ≠ 0) := by
  have hREST : ∀ xz ∈ colsList.tail.tail,
      ¬(xz.1 = 0 ∧ xz.2 = 1) ∧ xz.1 + xz.2 ≠ 0 := by decide
  have hsplitA : colsList = ((0, 0) : Nat × Nat) :: colsList.tail := rfl
  have hstep00 : Chunk.loadStep regDefault cexC1Loader 0 0
      (Chunk.init 0 0, Column.initSt) ((0, 0) : Nat × Nat) =
      (Chunk.init 0 0, cexC1Scratch) := rfl
  have hfold1 : colsList.foldl (Chunk.loadStep regDefault cexC1Loader 0 0)
      (Chunk.init 0 0, Column.initSt) =
      colsList.tail.foldl (Chunk.loadStep regDefault cexC1Loader 0 0)
      (Chunk.init 0 0, cexC1Scratch) := by
    conv_lhs => rw [hsplitA, List.foldl_cons, hstep00]
  have hsplitB : colsList.tail =
      ((0, 1) : Nat × Nat) :: colsList.tail.tail := rfl
  have hloader01 : cexC1Loader (0 * 16 + ((0 : Nat) : Int))
      (0 * 16 + ((1 : Nat) : Int)) =
      List.replicate 65536 (ColOp.overwrite 7 5) := by
    unfold cexC1Loader
    rw [if_pos ⟨by decide, by decide⟩]
  have hstep01 : Chunk.loadStep regDefault cexC1Loader 0 0
      (Chunk.init 0 0, cexC1Scratch) ((0, 1) : Nat × Nat) =
      ((Column.fillChunk (Column.applyOps cexC1Scratch
        (cexC1Loader (0 * 16 + ((0 : Nat) : Int))
          (0 * 16 + ((1 : Nat) : Int)))) regDefault
        (0 * 16 + ((0 : Nat) : Int)) (0 * 16 + ((1 : Nat) : Int))
        (Chunk.init 0 0) false).1,
       Column.clear (Column.fillChunk (Column.applyOps cexC1Scratch
        (cexC1Loader (0 * 16 + ((0 : Nat) : Int))
          (0 * 16 + ((1 : Nat) : Int)))) regDefault
        (0 * 16 + ((0 : Nat) : Int)) (0 * 16 + ((1 : Nat) : Int))
        (Chunk.init 0 0) false).2) := rfl
  have hbr2 : colsList.tail.foldl (Chunk.loadStep regDefault cexC1Loader 0 0)
      (Chunk.init 0 0, cexC1Scratch) =
      colsList.tail.tail.foldl (Chunk.loadStep regDefault cexC1Loader 0 0)
      ((Column.fillChunk (Column.applyOps cexC1Scratch
        (List.replicate 65536 (ColOp.overwrite 7 5))) regDefault
        (0 * 16 + ((0 : Nat) : Int)) (0 * 16 + ((1 : Nat) : Int))
        (Chunk.init 0 0) false).1,
       Column.clear (Column.detectEquiLevelChanges (Column.applyOps
         cexC1Scratch (List.replicate 65536 (ColOp.overwrite 7 5)))
         false)) := by
    conv_lhs => rw [hsplitB, List.foldl_cons, hstep01, fillChunk_snd,
      hloader01]
  have h3 : Column.applyOps cexC1Scratch
      (List.replicate 65536 (ColOp.overwrite 7 5)) =
      { data := [], last := 0,
        decorations := List.replicate 65536 ((7 : Int), (5 : Nat)),
        mismatches := fun _ => 0,
        reference := [(kEmptyBlock, kWorldHeight)] } :=
    applyOps_replicate_ow 65536 cexC1Scratch
  have h4 : (List.replicate 65536 ((7 : Int), (5 : Nat))).foldl
      (fun (m : Nat → Int) (d : Int × Nat) =>
        let m := Function.update m d.2 (wrap16 (m d.2 + 1))
        if d.2 + 1 < kWorldHeight then
          Function.update m (d.2 + 1) (wrap16 (m (d.2 + 1) - 1))
        else m) (fun _ => (0 : Int)) =
      (fun h => if h = 5 then wrap16 (0 + (((65535 : Nat) : Int) + 1))
        else if h = 6 then wrap16 (0 - (((65535 : Nat) : Int) + 1))
        else (0 : Int)) :=
    decFold_replicate 65535 (fun _ => (0 : Int))
  have h4z : (fun h => if h = 5 then
      wrap16 (0 + (((65535 : Nat) : Int) + 1))
      else if h = 6 then wrap16 (0 - (((65535 : Nat) : Int) + 1))
      else (0 : Int)) = (fun _ => (0 : Int)) := by
    funext h
    by_cases h5 : h = 5
    · rw [if_pos h5]
      decide
    · rw [if_neg h5]
      by_cases h6 : h = 6
      · rw [if_pos h6]
        decide
      · rw [if_neg h6]
  have hM : Column.clear (Column.detectEquiLevelChanges (Column.applyOps
      cexC1Scratch (List.replicate 65536 (ColOp.overwrite 7 5))) false) =
      cexC1Scratch := by
    rw [h3, clear_detect_false, h4, h4z]
    rfl
  have hfoldAll : colsList.foldl (Chunk.loadStep regDefault cexC1Loader 0 0)
      (Chunk.init 0 0, Column.initSt) =
      ((Column.fillChunk (Column.applyOps cexC1Scratch
        (List.replicate 65536 (ColOp.overwrite 7 5))) regDefault
        (0 * 16 + ((0 : Nat) : Int)) (0 * 16 + ((1 : Nat) : Int))
        (Chunk.init 0 0) false).1, cexC1Scratch) := by
    rw [hfold1, hbr2, hM]
    exact cexFold_noop colsList.tail.tail _ hREST
  have hCH2 : ∀ (a1 a2 : Fin 16) (yy : Nat),
      ((Column.fillChunk (Column.applyOps cexC1Scratch
        (List.replicate 65536 (ColOp.overwrite 7 5))) regDefault
        (0 * 16 + ((0 : Nat) : Int)) (0 * 16 + ((1 : Nat) : Int))
        (Chunk.init 0 0) false).1).voxels a1 a2 yy =
      (if a1 = cmask (0 * 16 + ((0 : Nat) : Int)) ∧
         a2 = cmask (0 * 16 + ((1 : Nat) : Int)) ∧ 5 ≤ yy ∧ yy < 5 + 1
       then 7 else (Chunk.init 0 0).voxels a1 a2 yy) := by
    intro a1 a2 yy
    rw [h3, fillChunk_decor_vox]
    rw [show List.replicate 65536 ((7 : Int), (5 : Nat)) =
      List.replicate (65535 + 1) ((7 : Int), (5 : Nat)) from rfl]
    exact decorRep_vox 65535 (Chunk.init 0 0) regDefault
      (0 * 16 + ((0 : Nat) : Int)) (0 * 16 + ((1 : Nat) : Int)) a1 a2 yy
  refine ⟨?_, ?_, ?_, by decide⟩
  · have heq5 := load_equilevels regDefault cexC1Loader 0 0 Column.initSt 5
    rw [heq5, hfoldAll, if_pos (by decide : (5 : Nat) < kWorldHeight)]
    rw [if_pos (show msum ((Column.fillChunk (Column.applyOps cexC1Scratch
      (List.replicate 65536 (ColOp.overwrite 7 5))) regDefault
      (0 * 16 + ((0 : Nat) : Int)) (0 * 16 + ((1 : Nat) : Int))
      (Chunk.init 0 0) false).1, cexC1Scratch).2.mismatches 5 = 0
      from by decide)]
  · have hvx := load_voxels regDefault cexC1Loader 0 0 Column.initSt
    rw [hvx, hfoldAll]
    rw [show ((Column.fillChunk (Column.applyOps cexC1Scratch
      (List.replicate 65536 (ColOp.overwrite 7 5))) regDefault
      (0 * 16 + ((0 : Nat) : Int)) (0 * 16 + ((1 : Nat) : Int))
      (Chunk.init 0 0) false).1, cexC1Scratch).1.voxels =
      ((Column.fillChunk (Column.applyOps cexC1Scratch
      (List.replicate 65536 (ColOp.overwrite 7 5))) regDefault
      (0 * 16 + ((0 : Nat) : Int)) (0 * 16 + ((1 : Nat) : Int))
      (Chunk.init 0 0) false).1).voxels from rfl]
    rw [hCH2 0 1 5]
    rw [if_pos ⟨by decide, by decide, by decide, by decide⟩]
  · have hvx := load_voxels regDefault cexC1Loader 0 0 Column.initSt
    rw [hvx, hfoldAll]
    rw [show ((Column.fillChunk (Column.applyOps cexC1Scratch
      (List.replicate 65536 (ColOp.overwrite 7 5))) regDefault
      (0 * 16 + ((0 : Nat) : Int)) (0 * 16 + ((1 : Nat) : Int))
      (Chunk.init 0 0) false).1, cexC1Scratch).1.voxels =
      ((Column.fillChunk (Column.applyOps cexC1Scratch
      (List.replicate 65536 (ColOp.overwrite 7 5))) regDefault
      (0 * 16 + ((0 : Nat) : Int)) (0 * 16 + ((1 : Nat) : Int))
      (Chunk.init 0 0) false).1).voxels from rfl]
    rw [hCH2 0 0 5]
    rw [if_neg (fun hh => absurd hh.2.1 (by decide))]
    rfl

set_option maxRecDepth 100000 in
/-- Witness for C1: the empty loader satisfies the 31-call budget and
builds an all-empty chunk with `equilevels[5] = 1`; the theorem gives the
equality of any two row-5 voxels. -/
theorem c1_equilevels_witness :
    (Column.initSt.data = [] ∧ Column.initSt.last = 0 ∧
      Column.initSt.decorations = [] ∧
      (∀ a b : Int, (emptyLoader a b).length ≤ 31) ∧
      (5 : Nat) < kWorldHeight ∧
      (Chunk.load regDefault emptyLoader 0 0 Column.initSt).1.equilevels 5
        = 1) ∧
    (Chunk.load regDefault emptyLoader 0 0 Column.initSt).1.voxels 3 4 5 =
      (Chunk.load regDefault emptyLoader 0 0 Column.initSt).1.voxels 7 2 5 :=
  ⟨⟨rfl, rfl, rfl, fun _ _ => Nat.zero_le 31, by decide, by decide⟩,
   c1_equilevels regDefault emptyLoader 0 0 Column.initSt rfl rfl rfl
     (fun _ _ => Nat.zero_le 31) 5 (by decide) (by decide) 3 4 7 2⟩

end Wave
